import Mathlib

/-!
# SharedPtr / WeakPtr: a shallow embedding of `smart_pointers.hpp`

The program state is made explicit: a heap of control blocks, a store of
managed objects, the live `SharedPtr` and `WeakPtr` objects, and a log of the
observable calls (allocation requests, `Delete`, deleter calls, reclamation
hooks).  Every member function of the header becomes a function on that state.
Undefined behaviour (null dereference, use of reclaimed storage) is a result
of type `Fault`; an operation that can throw returns the exception, if any,
together with the state it leaves behind.
-/

deriving instance DecidableEq for Except

/-- Ways an operation can fail to produce a state. -/
inductive Fault
  /-- Member access through a null pointer. -/
  | nullDeref
  /-- Access to a control block whose storage has been reclaimed. -/
  | useAfterFree
  /-- Use of a handle or managed object outside its lifetime. -/
  | deadObject
  /-- Call through a null function pointer. -/
  | nullCall
  deriving DecidableEq, Repr

/-- Exceptions an operation can throw; the state at the throw stays observable. -/
inductive Exn
  /-- The exception `std::bad_weak_ptr`. -/
  | bad_weak_ptr
  /-- An exception thrown by the constructor of the managed type. -/
  | constructor
  deriving DecidableEq, Repr

namespace detail

/-- Modulus of `CounterType = size_t`. -/
def CounterMod : Nat := 2 ^ 64

/-- The finalizer callables the header passes to a control block: the lambda
`::delete ptr` of `SharedPtr(Y*)`, the lambda `ptr->~T()` of `MakeShared`, or a
callable supplied by the caller. -/
inductive Deleter
  | delete
  | destruct
  | user (id : Nat)
  deriving DecidableEq, Repr

/-- Values of `DestroyerType`: the captureless lambda each control-block class
hands to the `IControlBlock` constructor. -/
inductive DestroyerType
  | ControlBlockWithDeleter
  | ControlBlockWithAllocator
  | ControlBlockWithAllocatorWithDeleter
  deriving DecidableEq, Repr

/-- The element type an allocator has been rebound to. -/
inductive Rebind
  | byte
  | ControlBlock
  deriving DecidableEq, Repr

/-- The members added by the three classes derived from `IControlBlock`.
`bytes` is the constant `sizeof(ControlBlockWithAllocator) + sizeof(T)` of the
instantiated template. -/
inductive Derived
  | ControlBlockWithDeleter (ptr_ : Option Nat) (deleter_ : Deleter)
  | ControlBlockWithAllocator (ptr_ : Option Nat) (allocator_ : Nat) (bytes : Nat)
  | ControlBlockWithAllocatorWithDeleter (ptr_ : Option Nat) (deleter_ : Deleter)
      (allocator_ : Nat)
  deriving DecidableEq, Repr

/-- A control block: the members of `IControlBlock` and of its derived class. -/
structure IControlBlock where
  destroyer_ : Option DestroyerType
  shared_count_ : Nat
  weak_count_ : Nat
  derived : Derived
  deriving DecidableEq, Repr

namespace IControlBlock

/-- `IControlBlock(DestroyerType destroyer)`: both counters start at zero. -/
def ctor (destroyer : DestroyerType) (d : Derived) : IControlBlock :=
  { destroyer_ := some destroyer, shared_count_ := 0, weak_count_ := 0, derived := d }

/-- `GetDestroyer`: `std::exchange(destroyer_, nullptr)`. -/
def GetDestroyer (b : IControlBlock) : Option DestroyerType × IControlBlock :=
  (b.destroyer_, { b with destroyer_ := none })

/-- `IncShared`: `++shared_count_` on a `size_t`. -/
def IncShared (b : IControlBlock) : IControlBlock :=
  { b with shared_count_ := (b.shared_count_ + 1) % CounterMod }

/-- `IncWeak`: `++weak_count_` on a `size_t`. -/
def IncWeak (b : IControlBlock) : IControlBlock :=
  { b with weak_count_ := (b.weak_count_ + 1) % CounterMod }

/-- `DecShared`: `--shared_count_` on a `size_t` (zero wraps to `2^64 - 1`). -/
def DecShared (b : IControlBlock) : IControlBlock :=
  { b with shared_count_ := (b.shared_count_ + (CounterMod - 1)) % CounterMod }

/-- `DecWeak`: `--weak_count_` on a `size_t` (zero wraps to `2^64 - 1`). -/
def DecWeak (b : IControlBlock) : IControlBlock :=
  { b with weak_count_ := (b.weak_count_ + (CounterMod - 1)) % CounterMod }

/-- `SharedCount`. -/
def SharedCount (b : IControlBlock) : Nat := b.shared_count_

/-- `WeakCount`. -/
def WeakCount (b : IControlBlock) : Nat := b.weak_count_

/-- `GetData`: the stored `ptr_` of whichever derived class the block is. -/
def GetData (b : IControlBlock) : Option Nat :=
  match b.derived with
  | .ControlBlockWithDeleter p _ => p
  | .ControlBlockWithAllocator p _ _ => p
  | .ControlBlockWithAllocatorWithDeleter p _ _ => p

end IControlBlock

end detail

open detail

/-- Observable calls, newest first in `State.log`. -/
inductive Event
  /-- `::operator new(n)` returned `addr`. -/
  | operator_new (n addr : Nat)
  /-- `::operator delete(addr)`. -/
  | operator_delete (addr : Nat)
  /-- `allocate(n)` on allocator `alloc` rebound to `elem` returned `addr`. -/
  | allocate (alloc : Nat) (elem : Rebind) (n addr : Nat)
  /-- `deallocate(addr, n)` on allocator `alloc` rebound to `elem`. -/
  | deallocate (alloc : Nat) (elem : Rebind) (addr n : Nat)
  /-- The constructor `IControlBlock(destroyer)` ran for the block at `cb`. -/
  | IControlBlock (cb : Nat)
  /-- The virtual `Delete()` was called on the block at `cb`. -/
  | Delete (cb : Nat)
  /-- The finalizer `d` was called with `ptr`. -/
  | deleter (d : Deleter) (ptr : Option Nat)
  /-- The call `allocator_traits::destroy(alloc, ptr)` on the managed value. -/
  | destroy (alloc : Nat) (ptr : Option Nat)
  /-- The reclamation hook `d` was invoked on the block at `cb`. -/
  | destroyer (d : DestroyerType) (cb : Nat)
  deriving DecidableEq, Repr

/-- A managed value of type `T`.  `control_block_` is the member of the base
`EnableSharedFromThis<T>` (it stays `none` for a type without that base).  A
constructor of `T` is a function from its arguments to the `Object` it builds
(`none` when it throws): an ordinary constructor leaves the member null, the
implicit copy constructor copies it from the source. -/
structure Object where
  value : Int
  control_block_ : Option Nat
  deriving DecidableEq, Repr

/-- The one data member of `SharedPtr<T>`. -/
structure SharedPtr where
  control_block_ : Option Nat
  deriving DecidableEq, Repr

/-- The one data member of `WeakPtr<T>`. -/
structure WeakPtr where
  control_block_ : Option Nat
  deriving DecidableEq, Repr

/-- End the lifetime of the value at `p` (a null `p` ends nothing). -/
def endLifetime (objs : Nat → Option Object) (p : Option Nat) : Nat → Option Object :=
  match p with
  | none => objs
  | some a => Function.update objs a none

/-- What calling the finalizer `d` on `p` does to the managed values: the two
lambdas of the header end the lifetime of the value, a callable supplied by
the caller is only recorded in the log. -/
def runDeleter (objs : Nat → Option Object) (d : Deleter) (p : Option Nat) :
    Nat → Option Object :=
  match d with
  | .user _ => objs
  | _ => endLifetime objs p

/-- The reclamation lambda a block of the given class installs. -/
def detail.Derived.cls : Derived → DestroyerType
  | .ControlBlockWithDeleter _ _ => .ControlBlockWithDeleter
  | .ControlBlockWithAllocator _ _ _ => .ControlBlockWithAllocator
  | .ControlBlockWithAllocatorWithDeleter _ _ _ => .ControlBlockWithAllocatorWithDeleter

/-- The calls the three `Delete()` overrides make on a block with contents `b`
at `c`: `deleter_(ptr_)`, or `destroy(allocator_, ptr_)`. -/
def finalizeLog (c : Nat) (b : IControlBlock) : List Event :=
  match b.derived with
  | .ControlBlockWithDeleter p d => [.deleter d p, .Delete c]
  | .ControlBlockWithAllocator p a _ => [.destroy a p, .Delete c]
  | .ControlBlockWithAllocatorWithDeleter p d _ => [.deleter d p, .Delete c]

/-- What the three `Delete()` overrides do to the managed values. -/
def finalizeObjs (objs : Nat → Option Object) (b : IControlBlock) : Nat → Option Object :=
  match b.derived with
  | .ControlBlockWithDeleter p d => runDeleter objs d p
  | .ControlBlockWithAllocator p _ _ => endLifetime objs p
  | .ControlBlockWithAllocatorWithDeleter p d _ => runDeleter objs d p

/-- The calls the three reclamation lambdas make on a block with contents `b`
at `c`: `::operator delete`, `deallocate` of the whole region as bytes, or
`deallocate` of one block. -/
def reclaimLog (c : Nat) (b : IControlBlock) : List Event :=
  match b.derived with
  | .ControlBlockWithDeleter _ _ =>
    [.operator_delete c, .destroyer .ControlBlockWithDeleter c]
  | .ControlBlockWithAllocator _ a n =>
    [.deallocate a .byte c n, .destroyer .ControlBlockWithAllocator c]
  | .ControlBlockWithAllocatorWithDeleter _ _ a =>
    [.deallocate a .ControlBlock c 1, .destroyer .ControlBlockWithAllocatorWithDeleter c]

/-- Program state.  `blocks` and `objs` map an address to what lives there,
`brk` is the next address the allocation backends hand out, `sp` and `wp` map
an object identity to the live handle with that identity (identities below
`nextSp`, `nextWp` have been used), `log` records the observable calls. -/
structure State where
  blocks : Nat → Option IControlBlock
  objs : Nat → Option Object
  brk : Nat
  sp : Nat → Option SharedPtr
  nextSp : Nat
  wp : Nat → Option WeakPtr
  nextWp : Nat
  log : List Event

namespace State

/-- The state of a program that has created nothing yet. -/
def init : State :=
  { blocks := fun _ => none, objs := fun _ => none, brk := 0,
    sp := fun _ => none, nextSp := 0, wp := fun _ => none, nextWp := 0, log := [] }

/-- Overwrite the control block at `c`. -/
def store (s : State) (c : Nat) (b : IControlBlock) : State :=
  { s with blocks := Function.update s.blocks c (some b) }

/-- Read the control block a handle points to. -/
def read (s : State) (p : Option Nat) : Except Fault IControlBlock :=
  match p with
  | none => .error .nullDeref
  | some c =>
    match s.blocks c with
    | none => .error .useAfterFree
    | some b => .ok b

/-- Call a non-virtual mutating member (`IncShared`, ...) through a pointer. -/
def call (s : State) (p : Option Nat) (f : IControlBlock → IControlBlock) :
    Except Fault State :=
  match p with
  | none => .error .nullDeref
  | some c =>
    match s.blocks c with
    | none => .error .useAfterFree
    | some b => .ok (s.store c (f b))

/-- Append an event to the log. -/
def emit (s : State) (e : Event) : State := { s with log := e :: s.log }

/-- The virtual `Delete()` of the block at `c`, dispatched on its class. -/
def Delete (s : State) (c : Nat) : Except Fault State :=
  match s.blocks c with
  | none => .error .useAfterFree
  | some b => .ok { s with log := finalizeLog c b ++ s.log, objs := finalizeObjs s.objs b }

/-- `control_block_->GetDestroyer()`. -/
def GetDestroyer (s : State) (c : Nat) : Except Fault (Option DestroyerType × State) :=
  match s.blocks c with
  | none => .error .useAfterFree
  | some b => .ok (b.GetDestroyer.1, s.store c b.GetDestroyer.2)

/-- `destroyer_(control_block_)`: run one of the three reclamation lambdas on
the block at `c`.  Each lambda casts to its own class, so on a block of
another class the cast yields null and the next member access faults. -/
def invoke (s : State) (d : Option DestroyerType) (c : Nat) : Except Fault State :=
  match d with
  | none => .error .nullCall
  | some f =>
    match s.blocks c with
    | none => .error .useAfterFree
    | some b =>
      if f = b.derived.cls then
        .ok { s with log := reclaimLog c b ++ s.log, blocks := Function.update s.blocks c none }
      else .error .nullDeref

/-- Reserve a fresh region of `n` bytes and return its address. -/
def reserve (s : State) (n : Nat) : Nat × State :=
  (s.brk, { s with brk := s.brk + max n 1 })

/-- Construct a control block at `c`. -/
def place (s : State) (c : Nat) (b : IControlBlock) : State :=
  { s with blocks := Function.update s.blocks c (some b), log := .IControlBlock c :: s.log }

/-- End the lifetime of the `SharedPtr` object `i`. -/
def dropSp (s : State) (i : Nat) : State :=
  { s with sp := Function.update s.sp i none }

/-- End the lifetime of the `WeakPtr` object `i`. -/
def dropWp (s : State) (i : Nat) : State :=
  { s with wp := Function.update s.wp i none }

/-- Construct a value of the managed type at `p`. -/
def construct (s : State) (p : Nat) (o : Object) : State :=
  { s with objs := Function.update s.objs p (some o) }

/-- Bring a new `SharedPtr` object into existence; its identity is the old `nextSp`. -/
def newSp (s : State) (cb : Option Nat) : State :=
  { s with sp := Function.update s.sp s.nextSp (some ⟨cb⟩), nextSp := s.nextSp + 1 }

/-- Bring a new `WeakPtr` object into existence; its identity is the old `nextWp`. -/
def newWp (s : State) (cb : Option Nat) : State :=
  { s with wp := Function.update s.wp s.nextWp (some ⟨cb⟩), nextWp := s.nextWp + 1 }

/-- Overwrite the member of a live `SharedPtr` object. -/
def setSp (s : State) (i : Nat) (cb : Option Nat) : State :=
  { s with sp := Function.update s.sp i (some ⟨cb⟩) }

/-- Overwrite the member of a live `WeakPtr` object. -/
def setWp (s : State) (i : Nat) (cb : Option Nat) : State :=
  { s with wp := Function.update s.wp i (some ⟨cb⟩) }

/-- The member of the live `SharedPtr` object `i`. -/
def getSp (s : State) (i : Nat) : Except Fault (Option Nat) :=
  match s.sp i with
  | none => .error .deadObject
  | some h => .ok h.control_block_

/-- The member of the live `WeakPtr` object `i`. -/
def getWp (s : State) (i : Nat) : Except Fault (Option Nat) :=
  match s.wp i with
  | none => .error .deadObject
  | some h => .ok h.control_block_

/-- The live managed value at `p` (reading a value whose lifetime has ended is
undefined behaviour). -/
def getObj (s : State) (p : Nat) : Except Fault Object :=
  match s.objs p with
  | none => .error .deadObject
  | some o => .ok o

end State

namespace SharedPtr

/-- `SharedPtr()` and `SharedPtr(std::nullptr_t)`. -/
def ctor (s : State) : Except Fault State :=
  .ok (s.newSp none)

/-- `SharedPtr(Y* ptr)`: a `ControlBlockWithDeleter` from `::new`, then
`IncShared`.  The class template arguments of the block are deduced from
`ptr`, so the block stores the address of the `Y` object. -/
def ctor_ptr (s : State) (ptr : Option Nat) (sizeofCB : Nat) : Except Fault State :=
  let (c, s) := s.reserve sizeofCB
  let s := s.emit (.operator_new sizeofCB c)
  let s := s.place c
    (IControlBlock.ctor .ControlBlockWithDeleter (.ControlBlockWithDeleter ptr .delete))
  let s := s.newSp (some c)
  s.call (some c) IControlBlock.IncShared

/-- `SharedPtr(Y* ptr, Deleter deleter)`. -/
def ctor_ptr_deleter (s : State) (ptr : Option Nat) (deleter : Deleter) (sizeofCB : Nat) :
    Except Fault State :=
  let (c, s) := s.reserve sizeofCB
  let s := s.emit (.operator_new sizeofCB c)
  let s := s.place c
    (IControlBlock.ctor .ControlBlockWithDeleter (.ControlBlockWithDeleter ptr deleter))
  let s := s.newSp (some c)
  s.call (some c) IControlBlock.IncShared

/-- `SharedPtr(Y* ptr, Deleter deleter, Allocator alloc)`: the block comes from
`allocate(allocator, 1)` on the allocator rebound to the block type. -/
def ctor_ptr_deleter_alloc (s : State) (ptr : Option Nat) (deleter : Deleter) (alloc : Nat)
    (sizeofCB : Nat) : Except Fault State :=
  let (control_block_object, s) := s.reserve sizeofCB
  let s := s.emit (.allocate alloc .ControlBlock 1 control_block_object)
  let s := s.place control_block_object
    (IControlBlock.ctor .ControlBlockWithAllocatorWithDeleter
      (.ControlBlockWithAllocatorWithDeleter ptr deleter alloc))
  let s := s.newSp (some control_block_object)
  s.call (some control_block_object) IControlBlock.IncShared

/-- `SharedPtr(const SharedPtr& other)`. -/
def ctor_copy (s : State) (other : Nat) : Except Fault State := do
  let cb ← s.getSp other
  let s := s.newSp cb
  match cb with
  | none => pure s
  | some c => s.call (some c) IControlBlock.IncShared

/-- `SharedPtr(SharedPtr&& other)`: `std::exchange(other.control_block_, nullptr)`. -/
def ctor_move (s : State) (other : Nat) : Except Fault State := do
  let cb ← s.getSp other
  let s := s.setSp other none
  pure (s.newSp cb)

/-- The private `SharedPtr(IControlBlock* other)`: `IncShared` with no null check. -/
def ctor_block (s : State) (other : Option Nat) : Except Fault State :=
  let s := s.newSp other
  s.call other IControlBlock.IncShared

/-- `~SharedPtr()`, for a managed value whose destructor destroys no handle
(`SharedPtr.dtor_members` is the form for a value with `WeakPtr` members). -/
def dtor (s : State) (this : Nat) : Except Fault State := do
  let control_block_ ← s.getSp this
  let s := s.dropSp this
  match control_block_ with
  | none => pure s
  | some c => do
    let s ← s.call (some c) IControlBlock.DecShared
    let b ← s.read (some c)
    if b.SharedCount = 0 then do
      let s ← s.Delete c
      let b ← s.read (some c)
      if b.WeakCount = 0 then do
        let r ← s.GetDestroyer c
        r.2.invoke r.1 c
      else pure s
    else pure s

/-- `swap(SharedPtr& other)`. -/
def swap (s : State) (this other : Nat) : Except Fault State := do
  let a ← s.getSp this
  let b ← s.getSp other
  pure ((s.setSp this b).setSp other a)

/-- `operator=(const SharedPtr& other)`: the temporary `tmp` is the object
with identity `nextSp`. -/
def assign_copy (s : State) (this other : Nat) : Except Fault State := do
  let _ ← s.getSp this
  let _ ← s.getSp other
  if other = this then pure s
  else do
    let tmp := s.nextSp
    let s ← ctor_copy s other
    let s ← swap s this tmp
    dtor s tmp

/-- `operator=(SharedPtr&& other)`. -/
def assign_move (s : State) (this other : Nat) : Except Fault State := do
  let _ ← s.getSp this
  let _ ← s.getSp other
  if other = this then pure s
  else do
    let tmp := s.nextSp
    let s ← ctor_move s other
    let s ← swap s this tmp
    dtor s tmp

/-- `reset()`. -/
def reset (s : State) (this : Nat) : Except Fault State := do
  let tmp := s.nextSp
  let s ← ctor s
  let s ← swap s this tmp
  dtor s tmp

/-- `reset(Y* ptr)`. -/
def reset_ptr (s : State) (this : Nat) (ptr : Option Nat) (sizeofCB : Nat) :
    Except Fault State := do
  let tmp := s.nextSp
  let s ← ctor_ptr s ptr sizeofCB
  let s ← swap s this tmp
  dtor s tmp

/-- `use_count()`: `control_block_->SharedCount()` with no null check. -/
def use_count (s : State) (this : Nat) : Except Fault Nat := do
  let cb ← s.getSp this
  let b ← s.read cb
  pure b.SharedCount

/-- `get()`: null for an empty handle, else `static_cast<pointer>(GetData())`,
the address the block stores, taken through `void*` with no adjustment. -/
def get (s : State) (this : Nat) : Except Fault (Option Nat) := do
  let cb ← s.getSp this
  match cb with
  | none => pure none
  | some c => do
    let b ← s.read (some c)
    pure b.GetData

/-- `operator*` and `operator->`: the value at `GetData()`. -/
def deref (s : State) (this : Nat) : Except Fault Object := do
  let cb ← s.getSp this
  let b ← s.read cb
  match b.GetData with
  | none => .error .nullDeref
  | some p =>
    match s.objs p with
    | none => .error .deadObject
    | some o => pure o

end SharedPtr

namespace WeakPtr

/-- `WeakPtr()`. -/
def ctor (s : State) : Except Fault State :=
  .ok (s.newWp none)

/-- `~WeakPtr()`. -/
def dtor (s : State) (this : Nat) : Except Fault State := do
  let control_block_ ← s.getWp this
  let s := s.dropWp this
  match control_block_ with
  | none => pure s
  | some c => do
    let s ← s.call (some c) IControlBlock.DecWeak
    let b ← s.read (some c)
    if b.WeakCount = 0 ∧ b.SharedCount = 0 then do
      let r ← s.GetDestroyer c
      r.2.invoke r.1 c
    else pure s

/-- `WeakPtr(const WeakPtr& other)`. -/
def ctor_copy (s : State) (other : Nat) : Except Fault State := do
  let cb ← s.getWp other
  let s := s.newWp cb
  match cb with
  | none => pure s
  | some c => s.call (some c) IControlBlock.IncWeak

/-- `WeakPtr(WeakPtr&& other)`. -/
def ctor_move (s : State) (other : Nat) : Except Fault State := do
  let cb ← s.getWp other
  let s := s.setWp other none
  pure (s.newWp cb)

/-- `WeakPtr(const SharedPtr<Y>& other)`. -/
def ctor_shared (s : State) (other : Nat) : Except Fault State := do
  let cb ← s.getSp other
  let s := s.newWp cb
  match cb with
  | none => pure s
  | some c => s.call (some c) IControlBlock.IncWeak

/-- `swap(WeakPtr& other)`. -/
def swap (s : State) (this other : Nat) : Except Fault State := do
  let a ← s.getWp this
  let b ← s.getWp other
  pure ((s.setWp this b).setWp other a)

/-- `operator=(WeakPtr&& other)`: the source swaps with `other`, not with `tmp`. -/
def assign_move (s : State) (this other : Nat) : Except Fault State := do
  let _ ← s.getWp this
  let _ ← s.getWp other
  if other = this then pure s
  else do
    let tmp := s.nextWp
    let s ← ctor_move s other
    let s ← swap s this other
    dtor s tmp

/-- `operator=(const WeakPtr<Y>& other)`, the converting copy assignment. -/
def assign_copy_conv (s : State) (this other : Nat) : Except Fault State := do
  let tmp := s.nextWp
  let s ← ctor_copy s other
  let s ← swap s this tmp
  dtor s tmp

/-- `operator=(const SharedPtr<Y>& other)`. -/
def assign_shared (s : State) (this other : Nat) : Except Fault State := do
  let tmp := s.nextWp
  let s ← ctor_shared s other
  let s ← swap s this tmp
  dtor s tmp

/-- `use_count()`: `control_block_->SharedCount()` with no null check. -/
def use_count (s : State) (this : Nat) : Except Fault Nat := do
  let cb ← s.getWp this
  let b ← s.read cb
  pure b.SharedCount

/-- `expired()`. -/
def expired (s : State) (this : Nat) : Except Fault Bool := do
  let n ← use_count s this
  pure (decide (n = 0))

/-- `lock()`: `CorrespondingSharedPtr(expired() ? nullptr : control_block_)`.
The argument has type `IControlBlock*`, so the constructor that runs is the
private `SharedPtr(IControlBlock*)`.  The returned handle is the `SharedPtr`
object with identity `nextSp`. -/
def lock (s : State) (this : Nat) : Except Fault State := do
  let control_block_ ← s.getWp this
  let e ← expired s this
  SharedPtr.ctor_block s (if e then none else control_block_)

end WeakPtr

/-- The implicit copy constructor of a managed type: it copies the value and,
with the base `EnableSharedFromThis<T>`, the member `control_block_`. -/
def copy_T (other : Object) : Option Object := some other

/-- A constructor of `T` that leaves the member `control_block_` null and
yields the value `v` (it throws when `v` is `none`). -/
def plain_T (v : Option Int) (_ : Unit) : Option Object := v.map (fun x => ⟨x, none⟩)

/-- A `new T(args)` expression of the caller: a region from `::operator new`
holding the value the constructor builds.  `T` returns `none` when the
constructor throws. -/
def new_T {Args : Type} (s : State) (T : Args → Option Object) (args : Args) (sizeofT : Nat) :
    Except Fault (Option Exn × State) :=
  let (p, s) := s.reserve sizeofT
  let s := s.emit (.operator_new sizeofT p)
  match T args with
  | none => .ok (some .constructor, s)
  | some o => .ok (none, s.construct p o)

/-- `MakeShared<T>(args...)`, the unconstrained overload. -/
def MakeShared {Args : Type} (s : State) (T : Args → Option Object) (args : Args)
    (sizeofT sizeofCB : Nat) : Except Fault (Option Exn × State) :=
  let (buffer, s) := s.reserve (sizeofT + sizeofCB)
  let s := s.emit (.operator_new (sizeofT + sizeofCB) buffer)
  match T args with
  | none => .ok (some .constructor, s)
  | some o =>
    let object := buffer + sizeofCB
    let s := s.construct object o
    let control_block := buffer
    let s := s.place control_block
      (IControlBlock.ctor .ControlBlockWithDeleter
        (.ControlBlockWithDeleter (some object) .destruct))
    (SharedPtr.ctor_block s (some control_block)).map (fun s => (none, s))

/-- `AllocateShared<T>(alloc, args...)`. -/
def AllocateShared {Args : Type} (s : State) (alloc : Nat) (T : Args → Option Object)
    (args : Args) (sizeofT sizeofCB : Nat) : Except Fault (Option Exn × State) :=
  let (buffer, s) := s.reserve (sizeofT + sizeofCB)
  let s := s.emit (.allocate alloc .byte (sizeofT + sizeofCB) buffer)
  let object := buffer + sizeofCB
  let control_block := buffer
  match T args with
  | none => .ok (some .constructor, s)
  | some o =>
    let s := s.construct object o
    let s := s.place control_block
      (IControlBlock.ctor .ControlBlockWithAllocator
        (.ControlBlockWithAllocator (some object) alloc (sizeofCB + sizeofT)))
    (SharedPtr.ctor_block s (some control_block)).map (fun s => (none, s))

namespace EnableSharedFromThis

/-- `shared_from_this()` on the managed object at address `this`: throws when
the member `control_block_` is null, else returns `{control_block_}` (the new
`SharedPtr` is the object with identity `nextSp`).  A member call on an object
whose lifetime has ended is undefined behaviour, hence a fault. -/
def shared_from_this (s : State) (this : Nat) : Except Fault (Option Exn × State) :=
  match s.objs this with
  | none => .error .deadObject
  | some o =>
    match o.control_block_ with
    | none => .ok (some .bad_weak_ptr, s)
    | some c => (SharedPtr.ctor_block s (some c)).map (fun s => (none, s))

/-- `MakeShared<T>(args...)`, the overload for `T` derived from
`EnableSharedFromThis<T>`: it also sets `object->control_block_`. -/
def MakeShared {Args : Type} (s : State) (T : Args → Option Object) (args : Args)
    (sizeofT sizeofCB : Nat) : Except Fault (Option Exn × State) :=
  let (buffer, s) := s.reserve (sizeofT + sizeofCB)
  let s := s.emit (.operator_new (sizeofT + sizeofCB) buffer)
  match T args with
  | none => .ok (some .constructor, s)
  | some o =>
    let object := buffer + sizeofCB
    let s := s.construct object o
    let control_block := buffer
    let s := s.place control_block
      (IControlBlock.ctor .ControlBlockWithDeleter
        (.ControlBlockWithDeleter (some object) .destruct))
    let s := s.construct object { o with control_block_ := some control_block }
    (SharedPtr.ctor_block s (some control_block)).map (fun s => (none, s))

end EnableSharedFromThis

/-- The operations a program performs on handles and managed values.  A
constructor creates the object with identity `nextSp` (or `nextWp`).  In the
four creation operations `v` is the value an ordinary constructor of `T`
yields for the arguments (`none` when it throws); their `_copy` forms run the
copy constructor of `T` on the live managed value at `other`. -/
inductive Op
  | SharedPtr_ctor
  | SharedPtr_ctor_ptr (ptr : Option Nat) (sizeofCB : Nat)
  | SharedPtr_ctor_ptr_deleter (ptr : Option Nat) (deleter : Deleter) (sizeofCB : Nat)
  | SharedPtr_ctor_ptr_deleter_alloc (ptr : Option Nat) (deleter : Deleter) (alloc : Nat)
      (sizeofCB : Nat)
  | SharedPtr_ctor_copy (other : Nat)
  | SharedPtr_ctor_move (other : Nat)
  | SharedPtr_dtor (this : Nat)
  | SharedPtr_swap (this other : Nat)
  | SharedPtr_assign_copy (this other : Nat)
  | SharedPtr_assign_move (this other : Nat)
  | SharedPtr_reset (this : Nat)
  | SharedPtr_reset_ptr (this : Nat) (ptr : Option Nat) (sizeofCB : Nat)
  | WeakPtr_ctor
  | WeakPtr_dtor (this : Nat)
  | WeakPtr_ctor_copy (other : Nat)
  | WeakPtr_ctor_move (other : Nat)
  | WeakPtr_ctor_shared (other : Nat)
  | WeakPtr_swap (this other : Nat)
  | WeakPtr_assign_move (this other : Nat)
  | WeakPtr_assign_copy_conv (this other : Nat)
  | WeakPtr_assign_shared (this other : Nat)
  | WeakPtr_lock (this : Nat)
  | new_T (v : Option Int) (sizeofT : Nat)
  | MakeShared (v : Option Int) (sizeofT sizeofCB : Nat)
  | MakeShared_EnableSharedFromThis (v : Option Int) (sizeofT sizeofCB : Nat)
  | AllocateShared (alloc : Nat) (v : Option Int) (sizeofT sizeofCB : Nat)
  | shared_from_this (this : Nat)
  | new_T_copy (other : Nat) (sizeofT : Nat)
  | MakeShared_copy (other : Nat) (sizeofT sizeofCB : Nat)
  | MakeShared_EnableSharedFromThis_copy (other : Nat) (sizeofT sizeofCB : Nat)
  | AllocateShared_copy (alloc : Nat) (other : Nat) (sizeofT sizeofCB : Nat)
  deriving DecidableEq, Repr

/-- One operation.  A thrown exception is caught by the caller: the program
goes on from the state the throw left behind. -/
def step (s : State) : Op → Except Fault State
  | .SharedPtr_ctor => SharedPtr.ctor s
  | .SharedPtr_ctor_ptr p n => SharedPtr.ctor_ptr s p n
  | .SharedPtr_ctor_ptr_deleter p d n => SharedPtr.ctor_ptr_deleter s p d n
  | .SharedPtr_ctor_ptr_deleter_alloc p d a n => SharedPtr.ctor_ptr_deleter_alloc s p d a n
  | .SharedPtr_ctor_copy o => SharedPtr.ctor_copy s o
  | .SharedPtr_ctor_move o => SharedPtr.ctor_move s o
  | .SharedPtr_dtor t => SharedPtr.dtor s t
  | .SharedPtr_swap t o => SharedPtr.swap s t o
  | .SharedPtr_assign_copy t o => SharedPtr.assign_copy s t o
  | .SharedPtr_assign_move t o => SharedPtr.assign_move s t o
  | .SharedPtr_reset t => SharedPtr.reset s t
  | .SharedPtr_reset_ptr t p n => SharedPtr.reset_ptr s t p n
  | .WeakPtr_ctor => WeakPtr.ctor s
  | .WeakPtr_dtor t => WeakPtr.dtor s t
  | .WeakPtr_ctor_copy o => WeakPtr.ctor_copy s o
  | .WeakPtr_ctor_move o => WeakPtr.ctor_move s o
  | .WeakPtr_ctor_shared o => WeakPtr.ctor_shared s o
  | .WeakPtr_swap t o => WeakPtr.swap s t o
  | .WeakPtr_assign_move t o => WeakPtr.assign_move s t o
  | .WeakPtr_assign_copy_conv t o => WeakPtr.assign_copy_conv s t o
  | .WeakPtr_assign_shared t o => WeakPtr.assign_shared s t o
  | .WeakPtr_lock t => WeakPtr.lock s t
  | .new_T v n => (new_T s (plain_T v) () n).map Prod.snd
  | .MakeShared v n m => (MakeShared s (plain_T v) () n m).map Prod.snd
  | .MakeShared_EnableSharedFromThis v n m =>
    (EnableSharedFromThis.MakeShared s (plain_T v) () n m).map Prod.snd
  | .AllocateShared a v n m => (AllocateShared s a (plain_T v) () n m).map Prod.snd
  | .shared_from_this t => (EnableSharedFromThis.shared_from_this s t).map Prod.snd
  | .new_T_copy o n => do
    let x ← s.getObj o
    (new_T s copy_T x n).map Prod.snd
  | .MakeShared_copy o n m => do
    let x ← s.getObj o
    (MakeShared s copy_T x n m).map Prod.snd
  | .MakeShared_EnableSharedFromThis_copy o n m => do
    let x ← s.getObj o
    (EnableSharedFromThis.MakeShared s copy_T x n m).map Prod.snd
  | .AllocateShared_copy a o n m => do
    let x ← s.getObj o
    (AllocateShared s a copy_T x n m).map Prod.snd

/-- Run a sequence of operations, stopping at the first fault. -/
def run : List Op → State → Except Fault State
  | [], s => .ok s
  | op :: ops, s =>
    match step s op with
    | .error f => .error f
    | .ok s1 => run ops s1

/-- Number of `Delete()` calls on the block at `c` recorded in a log. -/
def deletes (log : List Event) (c : Nat) : Nat :=
  log.count (.Delete c)

/-- Number of control blocks constructed at `c` recorded in a log. -/
def constructs (log : List Event) (c : Nat) : Nat :=
  log.count (.IControlBlock c)

/-- Number of reclamation-hook invocations on the block at `c` recorded in a log. -/
def reclaims (log : List Event) (c : Nat) : Nat :=
  log.countP (fun e => match e with
    | .destroyer _ cb => decide (cb = c)
    | _ => false)

/-- Number of indices below `n` at which `p` holds. -/
def countUpTo (p : Nat → Bool) : Nat → Nat
  | 0 => 0
  | n + 1 => countUpTo p n + (if p n then 1 else 0)

/-- Number of live `SharedPtr` objects whose `control_block_` is `c`. -/
def State.sharedRefs (s : State) (c : Nat) : Nat :=
  countUpTo (fun i => decide (s.sp i = some ⟨some c⟩)) s.nextSp

/-- Number of live `WeakPtr` objects whose `control_block_` is `c`. -/
def State.weakRefs (s : State) (c : Nat) : Nat :=
  countUpTo (fun i => decide (s.wp i = some ⟨some c⟩)) s.nextWp

/-- The data members of a managed value that are `WeakPtr` objects, destroyed
in order by `~T()`. -/
def State.destroyMembers (s : State) : List Nat → Except Fault State
  | [] => .ok s
  | i :: members =>
    match WeakPtr.dtor s i with
    | .error f => .error f
    | .ok s1 => destroyMembers s1 members

/-- `~SharedPtr()` on a handle whose managed value has the `WeakPtr` data
members `members`: `Delete()` calls the finalizer, the finalizer runs `~T()`,
and `~T()` destroys the members before `Delete()` returns.  With no members
this is `SharedPtr.dtor`. -/
def SharedPtr.dtor_members (s : State) (this : Nat) (members : List Nat) :
    Except Fault State := do
  let control_block_ ← s.getSp this
  let s := s.dropSp this
  match control_block_ with
  | none => pure s
  | some c => do
    let s ← s.call (some c) IControlBlock.DecShared
    let b ← s.read (some c)
    if b.SharedCount = 0 then do
      let s ← s.Delete c
      let s ← s.destroyMembers members
      let b ← s.read (some c)
      if b.WeakCount = 0 then do
        let r ← s.GetDestroyer c
        r.2.invoke r.1 c
      else pure s
    else pure s

/-- The conversion `static_cast<T*>(p)` of a `Y*` for a class `Y` whose base
`T` lies `offset` bytes into the `Y` object: a null pointer stays null. -/
def upcast (offset : Nat) (p : Option Nat) : Option Nat :=
  p.map (fun a => a + offset)

/-- The state `t` arises from `s` by giving up one strong reference to the
block at `c`, whose contents in `s` are `b`: the strong count goes down by one;
when it reaches zero the value is finalized, and when the weak count is zero
as well the block is reclaimed. -/
structure StrongReleased (s t : State) (c : Nat) (b : IControlBlock) : Prop where
  blocks : t.blocks = Function.update s.blocks c
    (if b.shared_count_ = 1 ∧ b.weak_count_ = 0 then none
     else some { b with shared_count_ := b.shared_count_ - 1 })
  log : t.log = (if b.shared_count_ = 1 then
      (if b.weak_count_ = 0 then reclaimLog c b else []) ++ finalizeLog c b else []) ++ s.log
  objs : t.objs = if b.shared_count_ = 1 then finalizeObjs s.objs b else s.objs
  brk : t.brk = s.brk

/-- The state `t` arises from `s` by giving up one weak reference to the block
at `c`, whose contents in `s` are `b`: the weak count goes down by one, and
when both counts are then zero the block is reclaimed. -/
structure WeakReleased (s t : State) (c : Nat) (b : IControlBlock) : Prop where
  blocks : t.blocks = Function.update s.blocks c
    (if b.weak_count_ = 1 ∧ b.shared_count_ = 0 then none
     else some { b with weak_count_ := b.weak_count_ - 1 })
  log : t.log = (if b.weak_count_ = 1 ∧ b.shared_count_ = 0 then reclaimLog c b else []) ++ s.log
  objs : t.objs = s.objs
  brk : t.brk = s.brk

/-- The state after a control block `b0` has been constructed in a fresh
region of `n` bytes (requested by the call `e`) and a new `SharedPtr` object
has taken it with `IncShared`. -/
def State.adopt (s : State) (n : Nat) (e : Event) (b0 : IControlBlock) : State :=
  { s with
    brk := s.brk + max n 1
    log := .IControlBlock s.brk :: e :: s.log
    blocks := Function.update s.blocks s.brk (some { b0 with shared_count_ := 1 })
    sp := Function.update s.sp s.nextSp (some ⟨some s.brk⟩)
    nextSp := s.nextSp + 1 }

/-- The state a program reaches from `init` by the operations `ops` (`init`
itself when the run faults). -/
def State.after (ops : List Op) : State :=
  match run ops State.init with
  | .ok s => s
  | .error _ => State.init

/-- The state `t` arises from `s` by giving up the strong reference held in a
handle whose member is `cb`: nothing happens for a null member, otherwise the
block loses one strong reference. -/
def StrongGiven (s t : State) (cb : Option Nat) : Prop :=
  match cb with
  | none => t.blocks = s.blocks ∧ t.log = s.log ∧ t.objs = s.objs ∧ t.brk = s.brk
  | some c => ∀ b, s.blocks c = some b → StrongReleased s t c b

/-- What a control block must satisfy for a strong reference to it to be
given up: a strong count that is a nonzero `size_t` value, and the hook its
class installed still in place. -/
def Releasable (b : IControlBlock) : Prop :=
  0 < b.shared_count_ ∧ b.shared_count_ < CounterMod ∧ b.destroyer_ = some b.derived.cls

instance (b : IControlBlock) : Decidable (Releasable b) := by
  unfold Releasable
  exact inferInstance

/-- What holds of a block that is in the heap: each counter equals the number
of live handles of its kind on the block, some handle is left, the
reclamation hook installed by the class is still in place, the block was
constructed once, `Delete()` has run when the strong count is zero, and the
hook has not run. -/
structure LiveOk (s : State) (c : Nat) (b : IControlBlock) : Prop where
  shared : b.shared_count_ = s.sharedRefs c
  weak : b.weak_count_ = s.weakRefs c
  pos : 0 < b.shared_count_ + b.weak_count_
  hook : b.destroyer_ = some b.derived.cls
  constructed : constructs s.log c = 1
  deleted : b.shared_count_ = 0 → 0 < deletes s.log c
  reclaimed : reclaims s.log c = 0

/-- What holds of an address with no block in the heap: no live handle refers
to it, and a block that was constructed there (at most one) has seen
`Delete()` and has seen its hook once. -/
structure DeadOk (s : State) (c : Nat) : Prop where
  shared : s.sharedRefs c = 0
  weak : s.weakRefs c = 0
  deleted : constructs s.log c ≤ deletes s.log c
  reclaimed : reclaims s.log c = constructs s.log c
  once : constructs s.log c ≤ 1

/-- The invariant of the states a program can reach. -/
structure WellFormed (s : State) : Prop where
  spFresh : ∀ i, s.nextSp ≤ i → s.sp i = none
  wpFresh : ∀ i, s.nextWp ≤ i → s.wp i = none
  fresh : ∀ c, s.brk ≤ c → s.blocks c = none ∧ constructs s.log c = 0
  live : ∀ c b, s.blocks c = some b → LiveOk s c b
  dead : ∀ c, s.blocks c = none → DeadOk s c
  backref : ∀ o ob c, s.objs o = some ob → ob.control_block_ = some c →
    c < s.brk ∧ ∀ b, s.blocks c = some b → ∃ p, b.derived = .ControlBlockWithDeleter p .destruct

/-- An allocation request: the events a constructor records before the block
exists. -/
def Event.isRequest : Event → Bool
  | .operator_new _ _ => true
  | .allocate _ _ _ _ => true
  | _ => false

/-- The state `t` is well-formed, has `k` more `SharedPtr` identities and `kw`
more `WeakPtr` identities in use than `s`, and its log extends the log of `s`. -/
def Grown (s t : State) (k kw : Nat) : Prop :=
  WellFormed t ∧ t.nextSp = s.nextSp + k ∧ t.nextWp = s.nextWp + kw ∧
    ∃ l, t.log = l ++ s.log

/-- The state `t` is well-formed, has at most one more `SharedPtr` identity and
at most one more `WeakPtr` identity in use than `s`, and its log extends the
log of `s`. -/
def Stepped (s t : State) : Prop :=
  WellFormed t ∧ s.nextSp ≤ t.nextSp ∧ t.nextSp ≤ s.nextSp + 1 ∧
    s.nextWp ≤ t.nextWp ∧ t.nextWp ≤ s.nextWp + 1 ∧ ∃ l, t.log = l ++ s.log

/-- The constructions and destructions of handles on existing or new blocks:
raw-pointer construction, copy and move construction of either handle kind,
`WeakPtr` from `SharedPtr`, and the two destructors. -/
def Op.isBasic : Op → Bool
  | .SharedPtr_ctor_ptr _ _ => true
  | .SharedPtr_ctor_copy _ => true
  | .SharedPtr_ctor_move _ => true
  | .SharedPtr_dtor _ => true
  | .WeakPtr_ctor_shared _ => true
  | .WeakPtr_ctor_copy _ => true
  | .WeakPtr_ctor_move _ => true
  | .WeakPtr_dtor _ => true
  | _ => false

/-- The address an allocation request returned (`none` for other events). -/
def Event.requestAt : Event → Option Nat
  | .operator_new _ addr => some addr
  | .allocate _ _ _ addr => some addr
  | _ => none

/-- The address a release request was issued for (`none` for other events). -/
def Event.releaseAt : Event → Option Nat
  | .operator_delete addr => some addr
  | .deallocate _ _ addr _ => some addr
  | _ => none

/-- Number of allocation requests (`::operator new`, `allocate`) recorded in a
log that returned the address `c`. -/
def requests (log : List Event) (c : Nat) : Nat :=
  log.countP (fun e => decide (e.requestAt = some c))

/-- Number of release requests (`::operator delete`, `deallocate`) recorded in
a log for the address `c`. -/
def releases (log : List Event) (c : Nat) : Nat :=
  log.countP (fun e => decide (e.releaseAt = some c))

/-- The release request the reclamation lambda of a block at `c` with
derived-class data `d` issues (the first entry of `reclaimLog`). -/
def releaseEvent (c : Nat) (d : Derived) : Event :=
  match d with
  | .ControlBlockWithDeleter _ _ => .operator_delete c
  | .ControlBlockWithAllocator _ a n => .deallocate a .byte c n
  | .ControlBlockWithAllocatorWithDeleter _ _ a => .deallocate a .ControlBlock c 1

/-- What one constructor, destructor, `swap` or creation function does to the
heap and the log: nothing but a change of counters (`quiet`), a request for a
fresh region (`request`), a request followed by the construction of a block in
the region (`adopt`), or the release of one strong or one weak reference.  A
change of counters leaves a strong count of zero at zero, except on a block
with the finalizer of `MakeShared` (the blocks `shared_from_this` reaches). -/
inductive Change (s t : State) : Prop
  | quiet (hlog : t.log = s.log) (hbrk : t.brk = s.brk)
      (hblk : ∀ c, (t.blocks c).map (fun b => b.derived) =
        (s.blocks c).map (fun b => b.derived))
      (hzero : ∀ c b b', s.blocks c = some b → t.blocks c = some b' →
        (b'.shared_count_ = 0 ↔ b.shared_count_ = 0) ∨
          ∃ p, b.derived = .ControlBlockWithDeleter p .destruct)
  | request (e : Event) (he : e.requestAt = some s.brk) (hlog : t.log = e :: s.log)
      (hbrk : s.brk < t.brk) (hblk : t.blocks = s.blocks)
  | adopt (e : Event) (b : IControlBlock) (he : e.requestAt = some s.brk)
      (hlog : t.log = .IControlBlock s.brk :: e :: s.log) (hbrk : s.brk < t.brk)
      (hblk : t.blocks = Function.update s.blocks s.brk (some b))
  | strong (c : Nat) (b : IControlBlock) (hb : s.blocks c = some b)
      (hr : StrongReleased s t c b)
  | weak (c : Nat) (b : IControlBlock) (hb : s.blocks c = some b)
      (hr : WeakReleased s t c b)

/-- Every invocation of a reclamation hook recorded in the log (newest entry
first) has an earlier `Delete()` call on the same block. -/
def hookAfterDelete : List Event → Bool
  | [] => true
  | .destroyer _ cb :: l => decide (0 < deletes l cb) && hookAfterDelete l
  | _ :: l => hookAfterDelete l

/-- The account of the region at `c`, requested by the call `e` for a block
with derived-class data `d`: the address has been handed out, by `e` and by no
other request; while the block is in the heap it has the data `d` and no
release request has been issued for `c`; once it is out of the heap exactly
one release request has been issued for `c`, the one the reclamation lambda of
the class issues. -/
structure Ledger (c : Nat) (e : Event) (d : Derived) (u : State) : Prop where
  below : c < u.brk
  requested : requests u.log c = 1
  request : u.log.count e = 1
  live : ∀ b, u.blocks c = some b → b.derived = d ∧ releases u.log c = 0
  dead : u.blocks c = none → releases u.log c = 1 ∧ u.log.count (releaseEvent c d) = 1

/-! ## Counting lemmas -/

theorem countUpTo_congr {p q : Nat → Bool} {n : Nat} (h : ∀ i, i < n → p i = q i) :
    countUpTo p n = countUpTo q n := by
  induction n with
  | zero => rfl
  | succ n ih =>
    have e := h n (Nat.lt_succ_self n)
    have e2 := ih (fun i hi => h i (Nat.lt_succ_of_lt hi))
    simp [countUpTo, e, e2]

theorem countUpTo_le (p : Nat → Bool) (n : Nat) : countUpTo p n ≤ n := by
  induction n with
  | zero => simp [countUpTo]
  | succ n ih =>
    simp only [countUpTo]
    split <;> omega

theorem countUpTo_pos {p : Nat → Bool} {n i : Nat} (hi : i < n) (hp : p i = true) :
    0 < countUpTo p n := by
  induction n with
  | zero => omega
  | succ n ih =>
    simp only [countUpTo]
    by_cases e : i = n
    · subst e
      simp [hp]
    · have := ih (by omega)
      omega

theorem countUpTo_change {p q : Nat → Bool} {n i : Nat} (hi : i < n)
    (h : ∀ j, j ≠ i → p j = q j) :
    countUpTo q n + (if p i then 1 else 0) = countUpTo p n + (if q i then 1 else 0) := by
  induction n with
  | zero => omega
  | succ n ih =>
    simp only [countUpTo]
    by_cases e : i = n
    · subst e
      have c : countUpTo p i = countUpTo q i :=
        countUpTo_congr (fun j hj => h j (by omega))
      rw [c]
      omega
    · have a := ih (by omega)
      have b := h n (fun x => e x.symm)
      rw [b]
      omega

theorem countUpTo_zero_of {p : Nat → Bool} {n : Nat} (h : ∀ i, i < n → p i = false) :
    countUpTo p n = 0 := by
  induction n with
  | zero => rfl
  | succ n ih =>
    simp [countUpTo, h n (Nat.lt_succ_self n), ih (fun i hi => h i (Nat.lt_succ_of_lt hi))]

namespace State

theorem sharedRefs_newSp (s : State) (x : Option Nat) (c : Nat) :
    (s.newSp x).sharedRefs c = s.sharedRefs c + (if x = some c then 1 else 0) := by
  simp only [sharedRefs, newSp, countUpTo, Function.update_same]
  congr 1
  · apply countUpTo_congr
    intro i hi
    have : i ≠ s.nextSp := by omega
    simp [Function.update_noteq this]
  · simp

theorem sharedRefs_setSp (s : State) (i : Nat) (x y : Option Nat) (hi : i < s.nextSp)
    (h : s.sp i = some ⟨x⟩) (c : Nat) :
    (s.setSp i y).sharedRefs c + (if x = some c then 1 else 0) =
      s.sharedRefs c + (if y = some c then 1 else 0) := by
  have := countUpTo_change (p := fun j => decide (s.sp j = some ⟨some c⟩))
    (q := fun j => decide ((s.setSp i y).sp j = some ⟨some c⟩)) hi
    (fun j hj => by simp [setSp, Function.update_noteq hj])
  simpa [sharedRefs, setSp, h] using this

theorem sharedRefs_dropSp (s : State) (i : Nat) (x : Option Nat) (hi : i < s.nextSp)
    (h : s.sp i = some ⟨x⟩) (c : Nat) :
    (s.dropSp i).sharedRefs c + (if x = some c then 1 else 0) = s.sharedRefs c := by
  have := countUpTo_change (p := fun j => decide (s.sp j = some ⟨some c⟩))
    (q := fun j => decide ((s.dropSp i).sp j = some ⟨some c⟩)) hi
    (fun j hj => by simp [dropSp, Function.update_noteq hj])
  simpa [sharedRefs, dropSp, h] using this

theorem weakRefs_newWp (s : State) (x : Option Nat) (c : Nat) :
    (s.newWp x).weakRefs c = s.weakRefs c + (if x = some c then 1 else 0) := by
  simp only [weakRefs, newWp, countUpTo, Function.update_same]
  congr 1
  · apply countUpTo_congr
    intro i hi
    have : i ≠ s.nextWp := by omega
    simp [Function.update_noteq this]
  · simp

theorem weakRefs_setWp (s : State) (i : Nat) (x y : Option Nat) (hi : i < s.nextWp)
    (h : s.wp i = some ⟨x⟩) (c : Nat) :
    (s.setWp i y).weakRefs c + (if x = some c then 1 else 0) =
      s.weakRefs c + (if y = some c then 1 else 0) := by
  have := countUpTo_change (p := fun j => decide (s.wp j = some ⟨some c⟩))
    (q := fun j => decide ((s.setWp i y).wp j = some ⟨some c⟩)) hi
    (fun j hj => by simp [setWp, Function.update_noteq hj])
  simpa [weakRefs, setWp, h] using this

theorem weakRefs_dropWp (s : State) (i : Nat) (x : Option Nat) (hi : i < s.nextWp)
    (h : s.wp i = some ⟨x⟩) (c : Nat) :
    (s.dropWp i).weakRefs c + (if x = some c then 1 else 0) = s.weakRefs c := by
  have := countUpTo_change (p := fun j => decide (s.wp j = some ⟨some c⟩))
    (q := fun j => decide ((s.dropWp i).wp j = some ⟨some c⟩)) hi
    (fun j hj => by simp [dropWp, Function.update_noteq hj])
  simpa [weakRefs, dropWp, h] using this

end State

theorem counter_dec {k : Nat} (h0 : 0 < k) (hM : k < CounterMod) :
    (k + (CounterMod - 1)) % CounterMod = k - 1 := by
  unfold CounterMod at *
  omega

theorem one_lt_CounterMod : 0 + 1 < CounterMod := by
  unfold CounterMod
  omega

theorem counter_inc {k : Nat} (hM : k + 1 < CounterMod) : (k + 1) % CounterMod = k + 1 :=
  Nat.mod_eq_of_lt hM


theorem SharedPtr.dtor_spec (s : State) (h c : Nat) (b : IControlBlock)
    (hh : s.sp h = some ⟨some c⟩) (hb : s.blocks c = some b)
    (h0 : 0 < b.shared_count_) (hM : b.shared_count_ < CounterMod)
    (hd : b.destroyer_ = some b.derived.cls) :
    ∃ t, SharedPtr.dtor s h = .ok t ∧ t.sp = Function.update s.sp h none ∧ t.wp = s.wp ∧
      t.nextSp = s.nextSp ∧ t.nextWp = s.nextWp ∧ StrongReleased s t c b := by
  have e := counter_dec h0 hM
  have e0 : b.shared_count_ - 1 = 0 ↔ b.shared_count_ = 1 := by omega
  simp only [SharedPtr.dtor, State.getSp, hh, bind, Except.bind, State.call, hb, State.read,
      IControlBlock.DecShared, IControlBlock.SharedCount, IControlBlock.WeakCount, e, e0, pure,
      Except.pure, State.dropSp, State.store, State.Delete,
      State.GetDestroyer, IControlBlock.GetDestroyer, State.invoke, hd, Function.update_same]
  by_cases h1 : b.shared_count_ = 1 <;> by_cases hw : b.weak_count_ = 0 <;>
    simp only [h1, hw, if_true, if_false, Function.update_same, Except.ok.injEq,
      exists_eq_left', true_and] <;>
    constructor <;>
    simp [finalizeLog, reclaimLog, finalizeObjs, h1, hw, hd]

theorem WeakPtr.weak_dtor_spec (s : State) (h c : Nat) (b : IControlBlock)
    (hh : s.wp h = some ⟨some c⟩) (hb : s.blocks c = some b)
    (h0 : 0 < b.weak_count_) (hM : b.weak_count_ < CounterMod)
    (hd : b.destroyer_ = some b.derived.cls) :
    ∃ t, WeakPtr.dtor s h = .ok t ∧ t.wp = Function.update s.wp h none ∧ t.sp = s.sp ∧
      t.nextSp = s.nextSp ∧ t.nextWp = s.nextWp ∧ WeakReleased s t c b := by
  have e := counter_dec h0 hM
  have e0 : b.weak_count_ - 1 = 0 ↔ b.weak_count_ = 1 := by omega
  simp only [WeakPtr.dtor, State.getWp, hh, bind, Except.bind, State.call, hb, State.read,
      IControlBlock.DecWeak, IControlBlock.SharedCount, IControlBlock.WeakCount, e, e0, pure,
      Except.pure, State.dropWp, State.store,
      State.GetDestroyer, IControlBlock.GetDestroyer, State.invoke, hd, Function.update_same]
  by_cases h1 : b.weak_count_ = 1 <;> by_cases hw : b.shared_count_ = 0 <;>
    simp only [h1, hw, if_true, if_false, Function.update_same, Except.ok.injEq,
      exists_eq_left', and_self, and_true, and_false, true_and, false_and] <;>
    constructor <;>
    simp [reclaimLog, h1, hw, hd]

/-! ## What each constructor and `swap` does to the state -/

theorem SharedPtr.ctor_block_eq (s : State) (c : Nat) (b : IControlBlock)
    (hb : s.blocks c = some b) (hM : b.shared_count_ + 1 < CounterMod) :
    SharedPtr.ctor_block s (some c) =
      .ok ((s.newSp (some c)).store c { b with shared_count_ := b.shared_count_ + 1 }) := by
  simp only [SharedPtr.ctor_block, State.call, State.newSp, hb, IControlBlock.IncShared,
    counter_inc hM]

theorem SharedPtr.ctor_copy_eq (s : State) (o c : Nat) (b : IControlBlock)
    (ho : s.sp o = some ⟨some c⟩) (hb : s.blocks c = some b)
    (hM : b.shared_count_ + 1 < CounterMod) :
    SharedPtr.ctor_copy s o =
      .ok ((s.newSp (some c)).store c { b with shared_count_ := b.shared_count_ + 1 }) := by
  simp only [SharedPtr.ctor_copy, State.getSp, ho, bind, Except.bind, State.call, State.newSp,
    hb, IControlBlock.IncShared, counter_inc hM]

theorem SharedPtr.ctor_copy_null (s : State) (o : Nat) (ho : s.sp o = some ⟨none⟩) :
    SharedPtr.ctor_copy s o = .ok (s.newSp none) := by
  simp only [SharedPtr.ctor_copy, State.getSp, ho, bind, Except.bind, pure, Except.pure]

theorem SharedPtr.ctor_move_eq (s : State) (o : Nat) (x : Option Nat)
    (ho : s.sp o = some ⟨x⟩) :
    SharedPtr.ctor_move s o = .ok ((s.setSp o none).newSp x) := by
  simp only [SharedPtr.ctor_move, State.getSp, ho, bind, Except.bind, pure, Except.pure]

theorem SharedPtr.swap_eq (s : State) (a b : Nat) (x y : Option Nat)
    (ha : s.sp a = some ⟨x⟩) (hb : s.sp b = some ⟨y⟩) :
    SharedPtr.swap s a b = .ok ((s.setSp a y).setSp b x) := by
  simp only [SharedPtr.swap, State.getSp, ha, hb, bind, Except.bind, pure, Except.pure]

theorem SharedPtr.dtor_null (s : State) (h : Nat) (hh : s.sp h = some ⟨none⟩) :
    SharedPtr.dtor s h = .ok (s.dropSp h) := by
  simp only [SharedPtr.dtor, State.getSp, hh, bind, Except.bind, pure, Except.pure]

theorem WeakPtr.weak_ctor_copy_eq (s : State) (o c : Nat) (b : IControlBlock)
    (ho : s.wp o = some ⟨some c⟩) (hb : s.blocks c = some b)
    (hM : b.weak_count_ + 1 < CounterMod) :
    WeakPtr.ctor_copy s o =
      .ok ((s.newWp (some c)).store c { b with weak_count_ := b.weak_count_ + 1 }) := by
  simp only [WeakPtr.ctor_copy, State.getWp, ho, bind, Except.bind, State.call, State.newWp,
    hb, IControlBlock.IncWeak, counter_inc hM]

theorem WeakPtr.weak_ctor_copy_null (s : State) (o : Nat) (ho : s.wp o = some ⟨none⟩) :
    WeakPtr.ctor_copy s o = .ok (s.newWp none) := by
  simp only [WeakPtr.ctor_copy, State.getWp, ho, bind, Except.bind, pure, Except.pure]

theorem WeakPtr.ctor_shared_eq (s : State) (o c : Nat) (b : IControlBlock)
    (ho : s.sp o = some ⟨some c⟩) (hb : s.blocks c = some b)
    (hM : b.weak_count_ + 1 < CounterMod) :
    WeakPtr.ctor_shared s o =
      .ok ((s.newWp (some c)).store c { b with weak_count_ := b.weak_count_ + 1 }) := by
  simp only [WeakPtr.ctor_shared, State.getSp, ho, bind, Except.bind, State.call, State.newWp,
    hb, IControlBlock.IncWeak, counter_inc hM]

theorem WeakPtr.ctor_shared_null (s : State) (o : Nat) (ho : s.sp o = some ⟨none⟩) :
    WeakPtr.ctor_shared s o = .ok (s.newWp none) := by
  simp only [WeakPtr.ctor_shared, State.getSp, ho, bind, Except.bind, pure, Except.pure]

theorem WeakPtr.weak_ctor_move_eq (s : State) (o : Nat) (x : Option Nat)
    (ho : s.wp o = some ⟨x⟩) :
    WeakPtr.ctor_move s o = .ok ((s.setWp o none).newWp x) := by
  simp only [WeakPtr.ctor_move, State.getWp, ho, bind, Except.bind, pure, Except.pure]

theorem WeakPtr.weak_swap_eq (s : State) (a b : Nat) (x y : Option Nat)
    (ha : s.wp a = some ⟨x⟩) (hb : s.wp b = some ⟨y⟩) :
    WeakPtr.swap s a b = .ok ((s.setWp a y).setWp b x) := by
  simp only [WeakPtr.swap, State.getWp, ha, hb, bind, Except.bind, pure, Except.pure]

theorem WeakPtr.weak_dtor_null (s : State) (h : Nat) (hh : s.wp h = some ⟨none⟩) :
    WeakPtr.dtor s h = .ok (s.dropWp h) := by
  simp only [WeakPtr.dtor, State.getWp, hh, bind, Except.bind, pure, Except.pure]

theorem WeakPtr.lock_eq (s : State) (w c : Nat) (b : IControlBlock)
    (hw : s.wp w = some ⟨some c⟩) (hb : s.blocks c = some b)
    (hk : 0 < b.shared_count_) (hM : b.shared_count_ + 1 < CounterMod) :
    WeakPtr.lock s w =
      .ok ((s.newSp (some c)).store c { b with shared_count_ := b.shared_count_ + 1 }) := by
  have hk' : ¬ (b.shared_count_ = 0) := by omega
  simp only [WeakPtr.lock, WeakPtr.expired, WeakPtr.use_count, State.getWp, hw, bind,
    Except.bind, State.read, hb, pure, Except.pure, IControlBlock.SharedCount, hk',
    decide_False, Bool.false_eq_true, if_false]
  exact SharedPtr.ctor_block_eq s c b hb hM

theorem WeakPtr.lock_expired_eq (s : State) (w c : Nat) (b : IControlBlock)
    (hw : s.wp w = some ⟨some c⟩) (hb : s.blocks c = some b)
    (hk : b.shared_count_ = 0) :
    WeakPtr.lock s w = .error .nullDeref := by
  simp only [WeakPtr.lock, WeakPtr.expired, WeakPtr.use_count, State.getWp, hw, bind,
    Except.bind, State.read, hb, pure, Except.pure, IControlBlock.SharedCount, hk,
    decide_True, if_true, SharedPtr.ctor_block, State.call]

theorem SharedPtr.ctor_ptr_deleter_eq (s : State) (ptr : Option Nat) (d : Deleter) (n : Nat) :
    SharedPtr.ctor_ptr_deleter s ptr d n =
      .ok (s.adopt n (.operator_new n s.brk)
        (IControlBlock.ctor .ControlBlockWithDeleter (.ControlBlockWithDeleter ptr d))) := by
  simp only [SharedPtr.ctor_ptr_deleter, State.reserve, State.emit, State.place, State.newSp,
    State.call, Function.update_same, IControlBlock.IncShared, IControlBlock.ctor,
    State.adopt, State.store, counter_inc one_lt_CounterMod, Function.update_idem]

theorem SharedPtr.ctor_ptr_eq (s : State) (ptr : Option Nat) (n : Nat) :
    SharedPtr.ctor_ptr s ptr n =
      .ok (s.adopt n (.operator_new n s.brk)
        (IControlBlock.ctor .ControlBlockWithDeleter (.ControlBlockWithDeleter ptr .delete))) := by
  simp only [SharedPtr.ctor_ptr, State.reserve, State.emit, State.place, State.newSp,
    State.call, Function.update_same, IControlBlock.IncShared, IControlBlock.ctor,
    State.adopt, State.store, counter_inc one_lt_CounterMod, Function.update_idem]

theorem SharedPtr.ctor_ptr_deleter_alloc_eq (s : State) (ptr : Option Nat) (d : Deleter)
    (a n : Nat) :
    SharedPtr.ctor_ptr_deleter_alloc s ptr d a n =
      .ok (s.adopt n (.allocate a .ControlBlock 1 s.brk)
        (IControlBlock.ctor .ControlBlockWithAllocatorWithDeleter
          (.ControlBlockWithAllocatorWithDeleter ptr d a))) := by
  simp only [SharedPtr.ctor_ptr_deleter_alloc, State.reserve, State.emit, State.place,
    State.newSp, State.call, Function.update_same, IControlBlock.IncShared, IControlBlock.ctor,
    State.adopt, State.store, counter_inc one_lt_CounterMod, Function.update_idem]

theorem new_T_eq {Args : Type} (s : State) (T : Args → Option Object) (args : Args)
    (v : Object) (hv : T args = some v) (n : Nat) :
    new_T s T args n = .ok (none, State.construct
      { s with brk := s.brk + max n 1, log := .operator_new n s.brk :: s.log } s.brk v) := by
  simp only [new_T, hv, State.reserve, State.emit]

theorem new_T_throw {Args : Type} (s : State) (T : Args → Option Object) (args : Args)
    (hv : T args = none) (n : Nat) :
    new_T s T args n = .ok (some .constructor,
      { s with brk := s.brk + max n 1, log := .operator_new n s.brk :: s.log }) := by
  simp only [new_T, hv, State.reserve, State.emit]

theorem MakeShared_eq {Args : Type} (s : State) (T : Args → Option Object) (args : Args)
    (v : Object) (hv : T args = some v) (n m : Nat) :
    MakeShared s T args n m =
      .ok (none, (s.adopt (n + m) (.operator_new (n + m) s.brk)
        (IControlBlock.ctor .ControlBlockWithDeleter
          (.ControlBlockWithDeleter (some (s.brk + m)) .destruct))).construct (s.brk + m)
            v) := by
  simp only [MakeShared, hv, State.reserve, State.emit, State.place, State.newSp,
    SharedPtr.ctor_block, State.construct,
    State.call, Function.update_same, IControlBlock.IncShared, IControlBlock.ctor,
    State.adopt, State.store, counter_inc one_lt_CounterMod, Function.update_idem, Except.map]

theorem MakeShared_throw {Args : Type} (s : State) (T : Args → Option Object) (args : Args)
    (hv : T args = none) (n m : Nat) :
    MakeShared s T args n m =
      .ok (some .constructor,
        { s with brk := s.brk + max (n + m) 1, log := .operator_new (n + m) s.brk :: s.log }) := by
  simp only [MakeShared, hv, State.reserve, State.emit]

theorem EnableSharedFromThis.MakeShared_esft_eq {Args : Type} (s : State)
    (T : Args → Option Object)
    (args : Args) (v : Object) (hv : T args = some v) (n m : Nat) :
    EnableSharedFromThis.MakeShared s T args n m =
      .ok (none, (s.adopt (n + m) (.operator_new (n + m) s.brk)
        (IControlBlock.ctor .ControlBlockWithDeleter
          (.ControlBlockWithDeleter (some (s.brk + m)) .destruct))).construct (s.brk + m)
            { v with control_block_ := some s.brk }) := by
  simp only [EnableSharedFromThis.MakeShared, hv, State.reserve, State.emit, State.place,
    State.newSp, SharedPtr.ctor_block, State.construct,
    State.call, Function.update_same, IControlBlock.IncShared, IControlBlock.ctor,
    State.adopt, State.store, counter_inc one_lt_CounterMod, Function.update_idem, Except.map]

theorem EnableSharedFromThis.MakeShared_esft_throw {Args : Type} (s : State)
    (T : Args → Option Object) (args : Args) (hv : T args = none) (n m : Nat) :
    EnableSharedFromThis.MakeShared s T args n m =
      .ok (some .constructor,
        { s with brk := s.brk + max (n + m) 1, log := .operator_new (n + m) s.brk :: s.log }) := by
  simp only [EnableSharedFromThis.MakeShared, hv, State.reserve, State.emit]

theorem AllocateShared_eq {Args : Type} (s : State) (a : Nat) (T : Args → Option Object)
    (args : Args) (v : Object) (hv : T args = some v) (n m : Nat) :
    AllocateShared s a T args n m =
      .ok (none, (s.adopt (n + m) (.allocate a .byte (n + m) s.brk)
        (IControlBlock.ctor .ControlBlockWithAllocator
          (.ControlBlockWithAllocator (some (s.brk + m)) a (m + n)))).construct (s.brk + m)
            v) := by
  simp only [AllocateShared, hv, State.reserve, State.emit, State.place, State.newSp,
    SharedPtr.ctor_block, State.construct,
    State.call, Function.update_same, IControlBlock.IncShared, IControlBlock.ctor,
    State.adopt, State.store, counter_inc one_lt_CounterMod, Function.update_idem, Except.map]

theorem AllocateShared_throw {Args : Type} (s : State) (a : Nat) (T : Args → Option Object)
    (args : Args) (hv : T args = none) (n m : Nat) :
    AllocateShared s a T args n m =
      .ok (some .constructor,
        { s with brk := s.brk + max (n + m) 1,
                 log := .allocate a .byte (n + m) s.brk :: s.log }) := by
  simp only [AllocateShared, hv, State.reserve, State.emit]

/-! ## Claims about single operations -/

/-- C3 (code bug): in the scenario of the claim (create `A`, create `W` from
`A`, drop `A`) the block is still there with strong count 0 and weak count 1,
`W.expired()` is true, and `W.lock()` does not return an empty handle: it
passes a null `IControlBlock*` to the private constructor, which calls
`IncShared` through it. -/
theorem WeakPtr.lock_expired_null_dereference :
    run [.SharedPtr_ctor_ptr (some 100) 48, .WeakPtr_ctor_shared 0, .SharedPtr_dtor 0]
        State.init =
      .ok (State.after
        [.SharedPtr_ctor_ptr (some 100) 48, .WeakPtr_ctor_shared 0, .SharedPtr_dtor 0]) ∧
    (State.after [.SharedPtr_ctor_ptr (some 100) 48, .WeakPtr_ctor_shared 0,
        .SharedPtr_dtor 0]).wp 0 = some ⟨some 0⟩ ∧
    ((State.after [.SharedPtr_ctor_ptr (some 100) 48, .WeakPtr_ctor_shared 0,
        .SharedPtr_dtor 0]).blocks 0).map (fun b => (b.shared_count_, b.weak_count_)) =
      some (0, 1) ∧
    WeakPtr.expired (State.after [.SharedPtr_ctor_ptr (some 100) 48, .WeakPtr_ctor_shared 0,
        .SharedPtr_dtor 0]) 0 = .ok true ∧
    WeakPtr.lock (State.after [.SharedPtr_ctor_ptr (some 100) 48, .WeakPtr_ctor_shared 0,
        .SharedPtr_dtor 0]) 0 = .error .nullDeref := by
  exact ⟨rfl, by decide, by decide, by decide, rfl⟩

/-- C4: `lock()` on a `WeakPtr` whose block has strong count `k > 0` (with
`k + 1` a `size_t` value) returns a non-empty `SharedPtr` on the same block
whose `use_count()` is `k + 1`; the block changes in its strong count only, no
other block changes, and nothing is finalized or reclaimed (the log, the
managed values and the weak handles are as before). -/
theorem WeakPtr.lock_shares_block (s : State) (w c : Nat) (b : IControlBlock)
    (hw : s.wp w = some ⟨some c⟩) (hb : s.blocks c = some b)
    (hk : 0 < b.shared_count_) (hM : b.shared_count_ + 1 < CounterMod) :
    ∃ t, WeakPtr.lock s w = .ok t ∧
      t.sp s.nextSp = some ⟨some c⟩ ∧
      SharedPtr.use_count t s.nextSp = .ok (b.shared_count_ + 1) ∧
      t.blocks c = some { b with shared_count_ := b.shared_count_ + 1 } ∧
      (∀ c', c' ≠ c → t.blocks c' = s.blocks c') ∧
      t.log = s.log ∧ t.objs = s.objs ∧ t.wp = s.wp := by
  refine ⟨_, WeakPtr.lock_eq s w c b hw hb hk hM, ?_, ?_, ?_, ?_, rfl, rfl, rfl⟩
  · simp [State.newSp, State.store]
  · simp [SharedPtr.use_count, State.getSp, State.newSp, State.store, State.read, bind,
      Except.bind, pure, Except.pure, IControlBlock.SharedCount]
  · simp [State.newSp, State.store]
  · intro c' hc
    simp [State.newSp, State.store, Function.update_noteq hc]

theorem WeakPtr.lock_shares_block_witness :
    (State.after [.SharedPtr_ctor_ptr (some 100) 48, .WeakPtr_ctor_shared 0]).wp 0 =
      some ⟨some 0⟩ ∧
    ∃ t, WeakPtr.lock (State.after [.SharedPtr_ctor_ptr (some 100) 48, .WeakPtr_ctor_shared 0])
        0 = .ok t ∧
      t.sp 1 = some ⟨some 0⟩ ∧ SharedPtr.use_count t 1 = .ok 2 :=
  ⟨by decide,
    let ⟨t, h1, h2, h3, _⟩ := WeakPtr.lock_shares_block
      (State.after [.SharedPtr_ctor_ptr (some 100) 48, .WeakPtr_ctor_shared 0]) 0 0
      ⟨some .ControlBlockWithDeleter, 1, 1, .ControlBlockWithDeleter (some 100) .delete⟩
      (by decide) (by decide) (by decide) (by decide)
    ⟨t, h1, h2, h3⟩⟩

/-- C8 (code bug): `WeakPtr::operator=(WeakPtr&&)` swaps `*this` with `other`
instead of with `tmp`.  With `a` observing block 0 and `b` observing block 48
(weak count 1 each), `a = std::move(b)` leaves `a` empty, makes `b` observe
block 0, takes the weak reference away from block 48 (the block `b`
referenced) and leaves the weak count of block 0 at 1. -/
theorem WeakPtr.assign_move_swaps_with_source :
    (State.after [.SharedPtr_ctor_ptr (some 100) 48, .SharedPtr_ctor_ptr (some 200) 48,
      .WeakPtr_ctor_shared 0, .WeakPtr_ctor_shared 1]).wp 0 = some ⟨some 0⟩ ∧
    (State.after [.SharedPtr_ctor_ptr (some 100) 48, .SharedPtr_ctor_ptr (some 200) 48,
      .WeakPtr_ctor_shared 0, .WeakPtr_ctor_shared 1]).wp 1 = some ⟨some 48⟩ ∧
    (WeakPtr.assign_move (State.after [.SharedPtr_ctor_ptr (some 100) 48,
      .SharedPtr_ctor_ptr (some 200) 48, .WeakPtr_ctor_shared 0, .WeakPtr_ctor_shared 1])
      0 1).map (fun t => (t.wp 0, t.wp 1,
        (t.blocks 0).map (fun b => b.weak_count_), (t.blocks 48).map (fun b => b.weak_count_))) =
      .ok (some ⟨none⟩, some ⟨some 0⟩, some 1, some 0) := by
  refine ⟨?_, ?_, ?_⟩ <;> decide

/-- C9: on a block with contents `b`, constructing a `WeakPtr` from a
`SharedPtr` on the block and copying a `WeakPtr` on the block each raise the
weak count by exactly one (`weak + 1` a `size_t` value) and leave the log as
it was; destroying a `WeakPtr` on the block lowers the weak count by exactly
one, or reclaims the block when that was the last reference of either kind.
The strong count is the same afterwards in every case, no `Delete()` is
recorded for any block and no managed value is touched. -/
theorem WeakPtr.touches_only_weak_count (s : State) (c : Nat) (b : IControlBlock)
    (hb : s.blocks c = some b) :
    (∀ o, s.sp o = some ⟨some c⟩ → b.weak_count_ + 1 < CounterMod →
      ∃ t, WeakPtr.ctor_shared s o = .ok t ∧ t.wp s.nextWp = some ⟨some c⟩ ∧
        t.blocks c = some { b with weak_count_ := b.weak_count_ + 1 } ∧
        t.log = s.log ∧ t.objs = s.objs) ∧
    (∀ o, s.wp o = some ⟨some c⟩ → b.weak_count_ + 1 < CounterMod →
      ∃ t, WeakPtr.ctor_copy s o = .ok t ∧ t.wp s.nextWp = some ⟨some c⟩ ∧
        t.blocks c = some { b with weak_count_ := b.weak_count_ + 1 } ∧
        t.log = s.log ∧ t.objs = s.objs) ∧
    (∀ w, s.wp w = some ⟨some c⟩ → 0 < b.weak_count_ → b.weak_count_ < CounterMod →
      b.destroyer_ = some b.derived.cls →
      ∃ t, WeakPtr.dtor s w = .ok t ∧ t.wp w = none ∧
        (t.blocks c = some { b with weak_count_ := b.weak_count_ - 1 } ∨
          (t.blocks c = none ∧ b.weak_count_ = 1 ∧ b.shared_count_ = 0)) ∧
        (∀ c', deletes t.log c' = deletes s.log c') ∧ t.objs = s.objs) := by
  refine ⟨?_, ?_, ?_⟩
  · intro o ho hM
    refine ⟨_, WeakPtr.ctor_shared_eq s o c b ho hb hM, ?_, ?_, rfl, rfl⟩ <;>
      simp [State.newWp, State.store]
  · intro o ho hM
    refine ⟨_, WeakPtr.weak_ctor_copy_eq s o c b ho hb hM, ?_, ?_, rfl, rfl⟩ <;>
      simp [State.newWp, State.store]
  · intro w hw h0 hM hd
    obtain ⟨t, ht, hwp, -, -, -, hr⟩ := WeakPtr.weak_dtor_spec s w c b hw hb h0 hM hd
    refine ⟨t, ht, by simp [hwp], ?_, ?_, hr.objs⟩
    · rw [hr.blocks]
      by_cases h : b.weak_count_ = 1 ∧ b.shared_count_ = 0
      · right
        simp [h]
      · left
        simp [h]
    · intro c'
      rw [hr.log]
      by_cases h : b.weak_count_ = 1 ∧ b.shared_count_ = 0
      · rcases hdv : b.derived with ⟨p, d⟩ | ⟨p, a, n⟩ | ⟨p, d, a⟩ <;>
          simp [h, deletes, reclaimLog, hdv, List.count_cons]
      · simp [h]

theorem WeakPtr.touches_only_weak_count_witness :
    (State.after [.SharedPtr_ctor_ptr (some 100) 48]).blocks 0 =
      some ⟨some .ControlBlockWithDeleter, 1, 0, .ControlBlockWithDeleter (some 100) .delete⟩ ∧
    ∃ t, WeakPtr.ctor_shared (State.after [.SharedPtr_ctor_ptr (some 100) 48]) 0 = .ok t ∧
      t.wp 0 = some ⟨some 0⟩ ∧
      t.blocks 0 = some ⟨some .ControlBlockWithDeleter, 1, 1,
        .ControlBlockWithDeleter (some 100) .delete⟩ :=
  ⟨by decide,
    let ⟨t, h1, h2, h3, _⟩ := (WeakPtr.touches_only_weak_count
      (State.after [.SharedPtr_ctor_ptr (some 100) 48]) 0
      ⟨some .ControlBlockWithDeleter, 1, 0, .ControlBlockWithDeleter (some 100) .delete⟩
      (by decide)).1 0 (by decide) (by decide)
    ⟨t, h1, h2, h3⟩⟩

/-- C10: when the constructor of `T` yields `v` for `args`, `MakeShared<T>(args)`
(either overload) returns, without throwing, a non-empty `SharedPtr` whose
`use_count()` is 1, whose block has weak count 0, and whose dereferenced value
is that of `v`. -/
theorem MakeShared_value {Args : Type} (s : State) (T : Args → Option Object) (args : Args)
    (v : Object) (hv : T args = some v) (n m : Nat) :
    (∃ t, MakeShared s T args n m = .ok (none, t) ∧
      t.sp s.nextSp = some ⟨some s.brk⟩ ∧
      SharedPtr.use_count t s.nextSp = .ok 1 ∧
      (t.blocks s.brk).map (fun b => b.weak_count_) = some 0 ∧
      (SharedPtr.deref t s.nextSp).map (fun o => o.value) = .ok v.value) ∧
    (∃ t, EnableSharedFromThis.MakeShared s T args n m = .ok (none, t) ∧
      t.sp s.nextSp = some ⟨some s.brk⟩ ∧
      SharedPtr.use_count t s.nextSp = .ok 1 ∧
      (t.blocks s.brk).map (fun b => b.weak_count_) = some 0 ∧
      (SharedPtr.deref t s.nextSp).map (fun o => o.value) = .ok v.value) := by
  constructor
  · refine ⟨_, MakeShared_eq s T args v hv n m, ?_, ?_, ?_, ?_⟩ <;>
      simp [State.adopt, State.construct, SharedPtr.use_count, SharedPtr.deref, State.getSp,
        State.read, bind, Except.bind, pure, Except.pure, IControlBlock.SharedCount,
        IControlBlock.ctor, IControlBlock.GetData, Except.map]
  · refine ⟨_, EnableSharedFromThis.MakeShared_esft_eq s T args v hv n m, ?_, ?_, ?_, ?_⟩ <;>
      simp [State.adopt, State.construct, SharedPtr.use_count, SharedPtr.deref, State.getSp,
        State.read, bind, Except.bind, pure, Except.pure, IControlBlock.SharedCount,
        IControlBlock.ctor, IControlBlock.GetData, Except.map]

theorem MakeShared_value_witness :
    (fun n : Int => some (⟨n + 1, none⟩ : Object)) 4 = some ⟨5, none⟩ ∧
    ∃ t, MakeShared State.init (fun n : Int => some (⟨n + 1, none⟩ : Object)) 4 4 48 =
        .ok (none, t) ∧
      SharedPtr.use_count t 0 = .ok 1 ∧
      (SharedPtr.deref t 0).map (fun o => o.value) = .ok 5 :=
  ⟨by decide,
    let ⟨t, h1, _, h3, _, h5⟩ := (MakeShared_value State.init
      (fun n : Int => some (⟨n + 1, none⟩ : Object)) 4 ⟨5, none⟩ (by decide) 4 48).1
    ⟨t, h1, h3, h5⟩⟩

theorem deletes_append (l1 l2 : List Event) (c : Nat) :
    deletes (l1 ++ l2) c = deletes l1 c + deletes l2 c := by
  simp [deletes, List.count_append]

theorem reclaims_append (l1 l2 : List Event) (c : Nat) :
    reclaims (l1 ++ l2) c = reclaims l1 c + reclaims l2 c := by
  simp [reclaims, List.countP_append]

theorem constructs_append (l1 l2 : List Event) (c : Nat) :
    constructs (l1 ++ l2) c = constructs l1 c + constructs l2 c := by
  simp [constructs, List.count_append]

theorem deletes_finalizeLog (c : Nat) (b : IControlBlock) (c' : Nat) :
    deletes (finalizeLog c b) c' = if c' = c then 1 else 0 := by
  have e : (c = c') = (c' = c) := propext eq_comm
  rcases hdv : b.derived with ⟨p, d⟩ | ⟨p, a, n⟩ | ⟨p, d, a⟩ <;>
    simp [deletes, finalizeLog, hdv, List.count_cons, e]

theorem reclaims_finalizeLog (c : Nat) (b : IControlBlock) (c' : Nat) :
    reclaims (finalizeLog c b) c' = 0 := by
  rcases hdv : b.derived with ⟨p, d⟩ | ⟨p, a, n⟩ | ⟨p, d, a⟩ <;>
    simp [reclaims, finalizeLog, hdv, List.countP_cons]

theorem constructs_finalizeLog (c : Nat) (b : IControlBlock) (c' : Nat) :
    constructs (finalizeLog c b) c' = 0 := by
  rcases hdv : b.derived with ⟨p, d⟩ | ⟨p, a, n⟩ | ⟨p, d, a⟩ <;>
    simp [constructs, finalizeLog, hdv, List.count_cons]

theorem deletes_reclaimLog (c : Nat) (b : IControlBlock) (c' : Nat) :
    deletes (reclaimLog c b) c' = 0 := by
  rcases hdv : b.derived with ⟨p, d⟩ | ⟨p, a, n⟩ | ⟨p, d, a⟩ <;>
    simp [deletes, reclaimLog, hdv, List.count_cons]

theorem reclaims_reclaimLog (c : Nat) (b : IControlBlock) (c' : Nat) :
    reclaims (reclaimLog c b) c' = if c' = c then 1 else 0 := by
  have e : (c = c') = (c' = c) := propext eq_comm
  rcases hdv : b.derived with ⟨p, d⟩ | ⟨p, a, n⟩ | ⟨p, d, a⟩ <;>
    simp [reclaims, reclaimLog, hdv, List.countP_cons, e]

theorem constructs_reclaimLog (c : Nat) (b : IControlBlock) (c' : Nat) :
    constructs (reclaimLog c b) c' = 0 := by
  rcases hdv : b.derived with ⟨p, d⟩ | ⟨p, a, n⟩ | ⟨p, d, a⟩ <;>
    simp [constructs, reclaimLog, hdv, List.count_cons]

theorem StrongReleased.strong_deletes_eq {s t : State} {c : Nat} {b : IControlBlock}
    (h : StrongReleased s t c b) (c' : Nat) :
    deletes t.log c' = deletes s.log c' + (if b.shared_count_ = 1 ∧ c' = c then 1 else 0) := by
  rw [h.log]
  by_cases h1 : b.shared_count_ = 1 <;> by_cases hw : b.weak_count_ = 0 <;>
    by_cases hc : c' = c <;>
    simp [h1, hw, hc, deletes_append, deletes_finalizeLog, deletes_reclaimLog, Nat.add_comm]

theorem StrongReleased.strong_reclaims_eq {s t : State} {c : Nat} {b : IControlBlock}
    (h : StrongReleased s t c b) (c' : Nat) :
    reclaims t.log c' = reclaims s.log c' +
      (if (b.shared_count_ = 1 ∧ b.weak_count_ = 0) ∧ c' = c then 1 else 0) := by
  rw [h.log]
  by_cases h1 : b.shared_count_ = 1 <;> by_cases hw : b.weak_count_ = 0 <;>
    by_cases hc : c' = c <;>
    simp [h1, hw, hc, reclaims_append, reclaims_finalizeLog, reclaims_reclaimLog, Nat.add_comm]

theorem StrongReleased.strong_constructs_eq {s t : State} {c : Nat} {b : IControlBlock}
    (h : StrongReleased s t c b) (c' : Nat) :
    constructs t.log c' = constructs s.log c' := by
  rw [h.log]
  by_cases h1 : b.shared_count_ = 1 <;> by_cases hw : b.weak_count_ = 0 <;>
    simp [h1, hw, constructs_append, constructs_finalizeLog, constructs_reclaimLog]

theorem WeakReleased.weak_deletes_eq {s t : State} {c : Nat} {b : IControlBlock}
    (h : WeakReleased s t c b) (c' : Nat) :
    deletes t.log c' = deletes s.log c' := by
  rw [h.log]
  by_cases h1 : b.weak_count_ = 1 ∧ b.shared_count_ = 0 <;>
    simp [h1, deletes_append, deletes_reclaimLog]

theorem WeakReleased.weak_reclaims_eq {s t : State} {c : Nat} {b : IControlBlock}
    (h : WeakReleased s t c b) (c' : Nat) :
    reclaims t.log c' = reclaims s.log c' +
      (if (b.weak_count_ = 1 ∧ b.shared_count_ = 0) ∧ c' = c then 1 else 0) := by
  rw [h.log]
  by_cases h1 : b.weak_count_ = 1 ∧ b.shared_count_ = 0 <;> by_cases hc : c' = c <;>
    simp [h1, hc, reclaims_append, reclaims_reclaimLog, Nat.add_comm]

theorem WeakReleased.weak_constructs_eq {s t : State} {c : Nat} {b : IControlBlock}
    (h : WeakReleased s t c b) (c' : Nat) :
    constructs t.log c' = constructs s.log c' := by
  rw [h.log]
  by_cases h1 : b.weak_count_ = 1 ∧ b.shared_count_ = 0 <;>
    simp [h1, constructs_append, constructs_reclaimLog]

/-! ## The pattern `SharedPtr tmp(...); swap(tmp);` of the assignments and `reset` -/

theorem Except.bind_ok_eq {ε α β : Type} (a : α) (f : α → Except ε β) :
    Except.bind (Except.ok a : Except ε α) f = f a := rfl

theorem SharedPtr.dtor_given (s : State) (h : Nat) (cb : Option Nat)
    (hh : s.sp h = some ⟨cb⟩)
    (hA : ∀ c, cb = some c → ∃ b, s.blocks c = some b ∧ Releasable b) :
    ∃ t, SharedPtr.dtor s h = .ok t ∧ t.sp = Function.update s.sp h none ∧ t.wp = s.wp ∧
      t.nextSp = s.nextSp ∧ t.nextWp = s.nextWp ∧ StrongGiven s t cb := by
  cases cb with
  | none =>
    exact ⟨_, SharedPtr.dtor_null s h hh, rfl, rfl, rfl, rfl, rfl, rfl, rfl, rfl⟩
  | some c =>
    obtain ⟨b, hb, h0, hM, hd⟩ := hA c rfl
    obtain ⟨t, ht, h1, h2, h3, h4, hr⟩ := SharedPtr.dtor_spec s h c b hh hb h0 hM hd
    refine ⟨t, ht, h1, h2, h3, h4, ?_⟩
    intro b' hb'
    rw [hb] at hb'
    cases hb'
    exact hr

theorem SharedPtr.swap_dtor (s : State) (a tmp : Nat) (x ca : Option Nat)
    (ha : s.sp a = some ⟨ca⟩) (ht : s.sp tmp = some ⟨x⟩)
    (hA : ∀ c, ca = some c → ∃ b, s.blocks c = some b ∧ Releasable b) :
    ∃ t, (Except.bind (SharedPtr.swap s a tmp) fun s2 => SharedPtr.dtor s2 tmp) = .ok t ∧
      t.sp = Function.update (Function.update s.sp a (some ⟨x⟩)) tmp none ∧ t.wp = s.wp ∧
      t.nextSp = s.nextSp ∧ t.nextWp = s.nextWp ∧ StrongGiven s t ca := by
  rw [SharedPtr.swap_eq s a tmp ca x ha ht, Except.bind_ok_eq]
  have e : ((s.setSp a x).setSp tmp ca).sp tmp = some ⟨ca⟩ := by
    simp [State.setSp]
  obtain ⟨t, h0, h1, h2, h3, h4, h5⟩ := SharedPtr.dtor_given _ tmp ca e hA
  refine ⟨t, h0, ?_, h2, h3, h4, ?_⟩
  · rw [h1]
    simp [State.setSp]
  · cases ca with
    | none => exact h5
    | some c => exact fun b hb => ⟨(h5 b hb).blocks, (h5 b hb).log, (h5 b hb).objs, (h5 b hb).brk⟩

theorem WellFormed.lt_nextSp {s : State} (h : WellFormed s) {i : Nat} {x : SharedPtr} (hi : s.sp i = some x) :
    i < s.nextSp := by
  by_contra hn
  rw [h.spFresh i (by omega)] at hi
  cases hi

theorem WellFormed.lt_nextWp {s : State} (h : WellFormed s) {i : Nat} {x : WeakPtr} (hi : s.wp i = some x) :
    i < s.nextWp := by
  by_contra hn
  rw [h.wpFresh i (by omega)] at hi
  cases hi

theorem WellFormed.lt_brk {s : State} (h : WellFormed s) {c : Nat} {b : IControlBlock}
    (hb : s.blocks c = some b) : c < s.brk := by
  by_contra hn
  rw [(h.fresh c (by omega)).1] at hb
  cases hb

theorem WellFormed.backref_of {s t : State} (h : WellFormed s) (hobjs : t.objs = s.objs)
    (hbrk : s.brk ≤ t.brk)
    (hblk : ∀ c b', t.blocks c = some b' → c < s.brk →
      ∃ b, s.blocks c = some b ∧ b'.derived = b.derived) :
    ∀ o ob c, t.objs o = some ob → ob.control_block_ = some c →
      c < t.brk ∧ ∀ b, t.blocks c = some b → ∃ p, b.derived = .ControlBlockWithDeleter p .destruct := by
  intro o ob c ho hc
  rw [hobjs] at ho
  obtain ⟨hlt, hd⟩ := h.backref o ob c ho hc
  refine ⟨by omega, fun b' hb' => ?_⟩
  obtain ⟨b, hb, e⟩ := hblk c b' hb' hlt
  rw [e]
  exact hd b hb

theorem WellFormed.backref_store {s t : State} (h : WellFormed s) (hobjs : t.objs = s.objs)
    (hbrk : s.brk ≤ t.brk) {c : Nat} {b : IControlBlock} {x : Option IControlBlock}
    (hb : s.blocks c = some b) (hx : ∀ b', x = some b' → b'.derived = b.derived)
    (hblk : t.blocks = Function.update s.blocks c x) :
    ∀ o ob c, t.objs o = some ob → ob.control_block_ = some c →
      c < t.brk ∧ ∀ b, t.blocks c = some b → ∃ p, b.derived = .ControlBlockWithDeleter p .destruct := by
  refine h.backref_of hobjs hbrk (fun c' b' hb' _ => ?_)
  rw [hblk] at hb'
  by_cases e : c' = c
  · subst e
    rw [Function.update_same] at hb'
    exact ⟨b, hb, hx b' hb'⟩
  · rw [Function.update_noteq e] at hb'
    exact ⟨b', hb', rfl⟩

theorem WellFormed.init : WellFormed State.init where
  spFresh := fun _ _ => rfl
  wpFresh := fun _ _ => rfl
  fresh := fun _ _ => ⟨rfl, rfl⟩
  live := fun c b h => by cases h
  dead := fun c _ => ⟨rfl, rfl, Nat.le_refl _, rfl, by simp [constructs, State.init]⟩
  backref := fun o ob c h => by cases h

theorem WellFormed.newSp_none {s : State} (h : WellFormed s) : WellFormed (s.newSp none) where
  spFresh := fun i hi => by
    have : i ≠ s.nextSp := by
      simp only [State.newSp] at hi
      omega
    simp only [State.newSp, Function.update_noteq this]
    exact h.spFresh i (by simp only [State.newSp] at hi; omega)
  wpFresh := h.wpFresh
  fresh := h.fresh
  live := fun c b hb =>
    let l := h.live c b hb
    ⟨by rw [State.sharedRefs_newSp]; simpa using l.shared, l.weak, l.pos, l.hook,
      l.constructed, l.deleted, l.reclaimed⟩
  dead := fun c hb =>
    let l := h.dead c hb
    ⟨by rw [State.sharedRefs_newSp]; simpa using l.shared, l.weak, l.deleted, l.reclaimed,
      l.once⟩
  backref := h.backref

theorem WellFormed.newWp_none {s : State} (h : WellFormed s) : WellFormed (s.newWp none) where
  spFresh := h.spFresh
  wpFresh := fun i hi => by
    have : i ≠ s.nextWp := by
      simp only [State.newWp] at hi
      omega
    simp only [State.newWp, Function.update_noteq this]
    exact h.wpFresh i (by simp only [State.newWp] at hi; omega)
  fresh := h.fresh
  live := fun c b hb =>
    let l := h.live c b hb
    ⟨l.shared, by rw [State.weakRefs_newWp]; simpa using l.weak, l.pos, l.hook,
      l.constructed, l.deleted, l.reclaimed⟩
  dead := fun c hb =>
    let l := h.dead c hb
    ⟨l.shared, by rw [State.weakRefs_newWp]; simpa using l.weak, l.deleted, l.reclaimed,
      l.once⟩
  backref := h.backref

theorem WellFormed.acquire {s : State} (h : WellFormed s) {c : Nat} {b : IControlBlock}
    (hb : s.blocks c = some b) :
    WellFormed ((s.newSp (some c)).store c { b with shared_count_ := b.shared_count_ + 1 }) where
  spFresh := fun i hi => by
    have : i ≠ s.nextSp := by
      simp only [State.newSp, State.store] at hi
      omega
    simp only [State.newSp, State.store, Function.update_noteq this]
    exact h.spFresh i (by simp only [State.newSp, State.store] at hi; omega)
  wpFresh := h.wpFresh
  fresh := fun c' hc' => by
    have hlt := h.lt_brk hb
    have : c' ≠ c := by
      simp only [State.newSp, State.store] at hc'
      omega
    simp only [State.newSp, State.store, Function.update_noteq this]
    exact h.fresh c' hc'
  live := fun c' b' hb' => by
    by_cases e : c' = c
    · subst e
      have l := h.live c' b hb
      have e2 : b' = { b with shared_count_ := b.shared_count_ + 1 } := by
        simpa [State.newSp, State.store] using hb'.symm
      subst e2
      have hs : ((s.newSp (some c')).store c'
          { b with shared_count_ := b.shared_count_ + 1 }).sharedRefs c' =
          s.sharedRefs c' + 1 := by
        have := State.sharedRefs_newSp s (some c') c'
        simpa using this
      refine ⟨?_, l.weak, ?_, l.hook, l.constructed, ?_, l.reclaimed⟩
      · rw [hs, ← l.shared]
      · show 0 < b.shared_count_ + 1 + b.weak_count_
        omega
      · intro x
        exact absurd x (Nat.succ_ne_zero _)
    · have hb2 : s.blocks c' = some b' := by
        simpa [State.newSp, State.store, Function.update_noteq e] using hb'
      have l := h.live c' b' hb2
      have hs : ((s.newSp (some c)).store c
          { b with shared_count_ := b.shared_count_ + 1 }).sharedRefs c' = s.sharedRefs c' := by
        have := State.sharedRefs_newSp s (some c) c'
        simpa [Ne.symm e] using this
      exact ⟨by rw [hs]; exact l.shared, l.weak, l.pos, l.hook, l.constructed, l.deleted,
        l.reclaimed⟩
  dead := fun c' hb' => by
    have e : c' ≠ c := by
      intro e
      subst e
      simp [State.newSp, State.store] at hb'
    have hb2 : s.blocks c' = none := by
      simpa [State.newSp, State.store, Function.update_noteq e] using hb'
    have l := h.dead c' hb2
    have hs : ((s.newSp (some c)).store c
        { b with shared_count_ := b.shared_count_ + 1 }).sharedRefs c' = s.sharedRefs c' := by
      have := State.sharedRefs_newSp s (some c) c'
      simpa [Ne.symm e] using this
    exact ⟨by rw [hs]; exact l.shared, l.weak, l.deleted, l.reclaimed, l.once⟩
  backref := h.backref_store rfl (Nat.le_refl _) hb
    (fun b' hb' => by cases hb'; rfl) rfl

theorem WellFormed.transfer {s t : State} (h : WellFormed s) (hb : t.blocks = s.blocks)
    (hl : t.log = s.log) (ho : t.objs = s.objs) (hbrk : t.brk = s.brk)
    (hsp : ∀ i, t.nextSp ≤ i → t.sp i = none) (hwp : ∀ i, t.nextWp ≤ i → t.wp i = none)
    (hs : ∀ c, t.sharedRefs c = s.sharedRefs c) (hw : ∀ c, t.weakRefs c = s.weakRefs c) :
    WellFormed t where
  spFresh := hsp
  wpFresh := hwp
  fresh := fun c hc => by
    rw [hb, hl]
    exact h.fresh c (by omega)
  live := fun c b hc => by
    rw [hb] at hc
    have l := h.live c b hc
    exact ⟨by rw [hs]; exact l.shared, by rw [hw]; exact l.weak, l.pos, l.hook,
      by rw [hl]; exact l.constructed, by rw [hl]; exact l.deleted, by rw [hl]; exact l.reclaimed⟩
  dead := fun c hc => by
    rw [hb] at hc
    have l := h.dead c hc
    exact ⟨by rw [hs]; exact l.shared, by rw [hw]; exact l.weak, by rw [hl]; exact l.deleted,
      by rw [hl]; exact l.reclaimed, by rw [hl]; exact l.once⟩
  backref := fun o ob c hob hc => by
    rw [ho] at hob
    rw [hb, hbrk]
    exact h.backref o ob c hob hc

theorem WellFormed.swapSp {s : State} (h : WellFormed s) {a b : Nat} {x y : Option Nat}
    (ha : s.sp a = some ⟨x⟩) (hb : s.sp b = some ⟨y⟩) :
    WellFormed ((s.setSp a y).setSp b x) := by
  have hal := h.lt_nextSp ha
  have hbl := h.lt_nextSp hb
  refine h.transfer rfl rfl rfl rfl ?_ h.wpFresh ?_ (fun _ => rfl)
  · intro i hi
    have hi' : s.nextSp ≤ i := hi
    have e1 : i ≠ a := by omega
    have e2 : i ≠ b := by omega
    simp only [State.setSp, Function.update_noteq e1, Function.update_noteq e2]
    exact h.spFresh i hi'
  · intro c
    have s1 := State.sharedRefs_setSp s a x y hal ha c
    have hb' : (s.setSp a y).sp b = some ⟨y⟩ := by
      by_cases e : b = a
      · subst e
        simp [State.setSp]
      · simp [State.setSp, Function.update_noteq e, hb]
    have s2 := State.sharedRefs_setSp (s.setSp a y) b y x hbl hb' c
    omega

theorem WellFormed.moveSp {s : State} (h : WellFormed s) {o : Nat} {x : Option Nat}
    (ho : s.sp o = some ⟨x⟩) : WellFormed ((s.setSp o none).newSp x) := by
  have hol := h.lt_nextSp ho
  refine h.transfer rfl rfl rfl rfl ?_ h.wpFresh ?_ (fun _ => rfl)
  · intro i hi
    have hi' : s.nextSp + 1 ≤ i := hi
    have e1 : i ≠ o := by omega
    have e2 : i ≠ s.nextSp := by omega
    simp only [State.setSp, State.newSp, Function.update_noteq e1, Function.update_noteq e2]
    exact h.spFresh i (by omega)
  · intro c
    have s1 := State.sharedRefs_setSp s o x none hol ho c
    have s2 := State.sharedRefs_newSp (s.setSp o none) x c
    simp only [reduceCtorEq, if_false] at s1
    omega

theorem WellFormed.swapWp {s : State} (h : WellFormed s) {a b : Nat} {x y : Option Nat}
    (ha : s.wp a = some ⟨x⟩) (hb : s.wp b = some ⟨y⟩) :
    WellFormed ((s.setWp a y).setWp b x) := by
  have hal := h.lt_nextWp ha
  have hbl := h.lt_nextWp hb
  refine h.transfer rfl rfl rfl rfl h.spFresh ?_ (fun _ => rfl) ?_
  · intro i hi
    have hi' : s.nextWp ≤ i := hi
    have e1 : i ≠ a := by omega
    have e2 : i ≠ b := by omega
    simp only [State.setWp, Function.update_noteq e1, Function.update_noteq e2]
    exact h.wpFresh i hi'
  · intro c
    have s1 := State.weakRefs_setWp s a x y hal ha c
    have hb' : (s.setWp a y).wp b = some ⟨y⟩ := by
      by_cases e : b = a
      · subst e
        simp [State.setWp]
      · simp [State.setWp, Function.update_noteq e, hb]
    have s2 := State.weakRefs_setWp (s.setWp a y) b y x hbl hb' c
    omega

theorem WellFormed.moveWp {s : State} (h : WellFormed s) {o : Nat} {x : Option Nat}
    (ho : s.wp o = some ⟨x⟩) : WellFormed ((s.setWp o none).newWp x) := by
  have hol := h.lt_nextWp ho
  refine h.transfer rfl rfl rfl rfl h.spFresh ?_ (fun _ => rfl) ?_
  · intro i hi
    have hi' : s.nextWp + 1 ≤ i := hi
    have e1 : i ≠ o := by omega
    have e2 : i ≠ s.nextWp := by omega
    simp only [State.setWp, State.newWp, Function.update_noteq e1, Function.update_noteq e2]
    exact h.wpFresh i (by omega)
  · intro c
    have s1 := State.weakRefs_setWp s o x none hol ho c
    have s2 := State.weakRefs_newWp (s.setWp o none) x c
    simp only [reduceCtorEq, if_false] at s1
    omega

theorem WellFormed.acquireWeak {s : State} (h : WellFormed s) {c : Nat} {b : IControlBlock}
    (hb : s.blocks c = some b) :
    WellFormed ((s.newWp (some c)).store c { b with weak_count_ := b.weak_count_ + 1 }) where
  spFresh := h.spFresh
  wpFresh := fun i hi => by
    have : i ≠ s.nextWp := by
      simp only [State.newWp, State.store] at hi
      omega
    simp only [State.newWp, State.store, Function.update_noteq this]
    exact h.wpFresh i (by simp only [State.newWp, State.store] at hi; omega)
  fresh := fun c' hc' => by
    have hlt := h.lt_brk hb
    have : c' ≠ c := by
      simp only [State.newWp, State.store] at hc'
      omega
    simp only [State.newWp, State.store, Function.update_noteq this]
    exact h.fresh c' hc'
  live := fun c' b' hb' => by
    by_cases e : c' = c
    · subst e
      have l := h.live c' b hb
      have e2 : b' = { b with weak_count_ := b.weak_count_ + 1 } := by
        simpa [State.newWp, State.store] using hb'.symm
      subst e2
      have hs : ((s.newWp (some c')).store c'
          { b with weak_count_ := b.weak_count_ + 1 }).weakRefs c' =
          s.weakRefs c' + 1 := by
        have := State.weakRefs_newWp s (some c') c'
        simpa using this
      refine ⟨l.shared, ?_, ?_, l.hook, l.constructed, l.deleted, l.reclaimed⟩
      · rw [hs, ← l.weak]
      · show 0 < b.shared_count_ + (b.weak_count_ + 1)
        omega
    · have hb2 : s.blocks c' = some b' := by
        simpa [State.newWp, State.store, Function.update_noteq e] using hb'
      have l := h.live c' b' hb2
      have hs : ((s.newWp (some c)).store c
          { b with weak_count_ := b.weak_count_ + 1 }).weakRefs c' = s.weakRefs c' := by
        have := State.weakRefs_newWp s (some c) c'
        simpa [Ne.symm e] using this
      exact ⟨l.shared, by rw [hs]; exact l.weak, l.pos, l.hook, l.constructed, l.deleted,
        l.reclaimed⟩
  dead := fun c' hb' => by
    have e : c' ≠ c := by
      intro e
      subst e
      simp [State.newWp, State.store] at hb'
    have hb2 : s.blocks c' = none := by
      simpa [State.newWp, State.store, Function.update_noteq e] using hb'
    have l := h.dead c' hb2
    have hs : ((s.newWp (some c)).store c
        { b with weak_count_ := b.weak_count_ + 1 }).weakRefs c' = s.weakRefs c' := by
      have := State.weakRefs_newWp s (some c) c'
      simpa [Ne.symm e] using this
    exact ⟨l.shared, by rw [hs]; exact l.weak, l.deleted, l.reclaimed, l.once⟩
  backref := h.backref_store rfl (Nat.le_refl _) hb
    (fun b' hb' => by cases hb'; rfl) rfl

theorem deletes_request {e : Event} (he : e.isRequest = true) (l : List Event) (c : Nat) :
    deletes (e :: l) c = deletes l c := by
  cases e <;> simp [Event.isRequest] at he <;> simp [deletes, List.count_cons]

theorem reclaims_request {e : Event} (he : e.isRequest = true) (l : List Event) (c : Nat) :
    reclaims (e :: l) c = reclaims l c := by
  cases e <;> simp [Event.isRequest] at he <;> simp [reclaims, List.countP_cons]

theorem constructs_request {e : Event} (he : e.isRequest = true) (l : List Event) (c : Nat) :
    constructs (e :: l) c = constructs l c := by
  cases e <;> simp [Event.isRequest] at he <;> simp [constructs, List.count_cons]

theorem deletes_IControlBlock (a : Nat) (l : List Event) (c : Nat) :
    deletes (.IControlBlock a :: l) c = deletes l c := by
  simp [deletes, List.count_cons]

theorem reclaims_IControlBlock (a : Nat) (l : List Event) (c : Nat) :
    reclaims (.IControlBlock a :: l) c = reclaims l c := by
  simp [reclaims, List.countP_cons]

theorem constructs_IControlBlock (a : Nat) (l : List Event) (c : Nat) :
    constructs (.IControlBlock a :: l) c = constructs l c + (if c = a then 1 else 0) := by
  have e : (a = c) = (c = a) := propext eq_comm
  simp [constructs, List.count_cons, e]

theorem WellFormed.request {s : State} (h : WellFormed s) (k : Nat) {e : Event}
    (he : e.isRequest = true) :
    WellFormed { s with brk := s.brk + k, log := e :: s.log } where
  spFresh := h.spFresh
  wpFresh := h.wpFresh
  fresh := fun c hc => by
    have hc' : s.brk ≤ c := by
      have : s.brk + k ≤ c := hc
      omega
    exact ⟨(h.fresh c hc').1, by
      show constructs (e :: s.log) c = 0
      rw [constructs_request he]
      exact (h.fresh c hc').2⟩
  live := fun c b hb =>
    let l := h.live c b hb
    ⟨l.shared, l.weak, l.pos, l.hook,
      by show constructs (e :: s.log) c = 1; rw [constructs_request he]; exact l.constructed,
      fun x => by show 0 < deletes (e :: s.log) c; rw [deletes_request he]; exact l.deleted x,
      by show reclaims (e :: s.log) c = 0; rw [reclaims_request he]; exact l.reclaimed⟩
  dead := fun c hb =>
    let l := h.dead c hb
    ⟨l.shared, l.weak,
      by
        show constructs (e :: s.log) c ≤ deletes (e :: s.log) c
        rw [deletes_request he, constructs_request he]
        exact l.deleted,
      by
        show reclaims (e :: s.log) c = constructs (e :: s.log) c
        rw [reclaims_request he, constructs_request he]
        exact l.reclaimed,
      by show constructs (e :: s.log) c ≤ 1; rw [constructs_request he]; exact l.once⟩
  backref := h.backref_of rfl (Nat.le_add_right _ _) (fun _ b' hb' _ => ⟨b', hb', rfl⟩)

theorem WellFormed.construct {s : State} (h : WellFormed s) (p : Nat) (ob : Object)
    (hob : ∀ c, ob.control_block_ = some c → c < s.brk ∧
      ∀ b, s.blocks c = some b → ∃ q, b.derived = .ControlBlockWithDeleter q .destruct) :
    WellFormed (s.construct p ob) where
  spFresh := h.spFresh
  wpFresh := h.wpFresh
  fresh := h.fresh
  live := fun c b hb =>
    let l := h.live c b hb
    ⟨l.shared, l.weak, l.pos, l.hook, l.constructed, l.deleted, l.reclaimed⟩
  dead := fun c hb =>
    let l := h.dead c hb
    ⟨l.shared, l.weak, l.deleted, l.reclaimed, l.once⟩
  backref := fun o ob' c ho hc => by
    by_cases e : o = p
    · subst e
      have : ob' = ob := by
        simpa [State.construct] using ho.symm
      subst this
      exact hob c hc
    · have ho' : s.objs o = some ob' := by
        simpa [State.construct, Function.update_noteq e] using ho
      exact h.backref o ob' c ho' hc

theorem WellFormed.adopt {s : State} (h : WellFormed s) (n : Nat) {e : Event}
    (he : e.isRequest = true) (f : DestroyerType) (d : Derived) (hf : f = d.cls) :
    WellFormed (s.adopt n e (IControlBlock.ctor f d)) where
  spFresh := fun i hi => by
    have hi' : s.nextSp + 1 ≤ i := hi
    have : i ≠ s.nextSp := by omega
    simp only [State.adopt, Function.update_noteq this]
    exact h.spFresh i (by omega)
  wpFresh := h.wpFresh
  fresh := fun c hc => by
    have hc' : s.brk + max n 1 ≤ c := hc
    have e1 : c ≠ s.brk := by omega
    have hf := h.fresh c (by omega)
    refine ⟨by simp only [State.adopt, Function.update_noteq e1]; exact hf.1, ?_⟩
    show constructs (.IControlBlock s.brk :: e :: s.log) c = 0
    rw [constructs_IControlBlock, constructs_request he, hf.2]
    simp [e1]
  live := fun c b hb => by
    have hfr := h.fresh s.brk (Nat.le_refl _)
    have hdead := h.dead s.brk hfr.1
    by_cases e1 : c = s.brk
    · subst e1
      have e2 : b = { IControlBlock.ctor f d with shared_count_ := 1 } := by
        simpa [State.adopt] using hb.symm
      subst e2
      have hs : (s.adopt n e (IControlBlock.ctor f d)).sharedRefs s.brk =
          s.sharedRefs s.brk + 1 := by
        have := State.sharedRefs_newSp s (some s.brk) s.brk
        simpa [State.adopt, State.newSp, State.sharedRefs] using this
      refine ⟨?_, ?_, ?_, ?_, ?_, ?_, ?_⟩
      · rw [hs, hdead.shared]
      · show 0 = s.weakRefs s.brk
        rw [hdead.weak]
      · show 0 < 1 + 0
        omega
      · show some f = some d.cls
        rw [hf]
      · show constructs (.IControlBlock s.brk :: e :: s.log) s.brk = 1
        rw [constructs_IControlBlock, constructs_request he, hfr.2]
        simp
      · exact fun x => absurd x Nat.one_ne_zero
      · show reclaims (.IControlBlock s.brk :: e :: s.log) s.brk = 0
        rw [reclaims_IControlBlock, reclaims_request he, hdead.reclaimed, hfr.2]
    · have hb' : s.blocks c = some b := by
        simpa [State.adopt, Function.update_noteq e1] using hb
      have l := h.live c b hb'
      have hs : (s.adopt n e (IControlBlock.ctor f d)).sharedRefs c = s.sharedRefs c := by
        have := State.sharedRefs_newSp s (some s.brk) c
        simpa [State.adopt, State.newSp, State.sharedRefs, Ne.symm e1] using this
      refine ⟨by rw [hs]; exact l.shared, l.weak, l.pos, l.hook, ?_, ?_, ?_⟩
      · show constructs (.IControlBlock s.brk :: e :: s.log) c = 1
        rw [constructs_IControlBlock, constructs_request he, l.constructed]
        simp [e1]
      · intro x
        show 0 < deletes (.IControlBlock s.brk :: e :: s.log) c
        rw [deletes_IControlBlock, deletes_request he]
        exact l.deleted x
      · show reclaims (.IControlBlock s.brk :: e :: s.log) c = 0
        rw [reclaims_IControlBlock, reclaims_request he, l.reclaimed]
  dead := fun c hb => by
    have e1 : c ≠ s.brk := by
      intro e1
      subst e1
      simp [State.adopt] at hb
    have hb' : s.blocks c = none := by
      simpa [State.adopt, Function.update_noteq e1] using hb
    have l := h.dead c hb'
    have hs : (s.adopt n e (IControlBlock.ctor f d)).sharedRefs c = s.sharedRefs c := by
      have := State.sharedRefs_newSp s (some s.brk) c
      simpa [State.adopt, State.newSp, State.sharedRefs, Ne.symm e1] using this
    refine ⟨by rw [hs]; exact l.shared, l.weak, ?_, ?_, ?_⟩
    · show constructs (.IControlBlock s.brk :: e :: s.log) c ≤
        deletes (.IControlBlock s.brk :: e :: s.log) c
      rw [constructs_IControlBlock, constructs_request he, deletes_IControlBlock,
        deletes_request he]
      simp only [e1, if_false, Nat.add_zero]
      exact l.deleted
    · show reclaims (.IControlBlock s.brk :: e :: s.log) c =
        constructs (.IControlBlock s.brk :: e :: s.log) c
      rw [constructs_IControlBlock, constructs_request he, reclaims_IControlBlock,
        reclaims_request he, l.reclaimed]
      simp [e1]
    · show constructs (.IControlBlock s.brk :: e :: s.log) c ≤ 1
      rw [constructs_IControlBlock, constructs_request he]
      simp only [e1, if_false, Nat.add_zero]
      exact l.once
  backref := h.backref_of rfl (Nat.le_add_right _ _) (fun c b' hb' hlt => by
    have e1 : c ≠ s.brk := by omega
    exact ⟨b', by simpa [State.adopt, Function.update_noteq e1] using hb', rfl⟩)

theorem endLifetime_some {objs : Nat → Option Object} {p : Option Nat} {o : Nat} {ob : Object}
    (h : endLifetime objs p o = some ob) : objs o = some ob := by
  cases p with
  | none => exact h
  | some a =>
    by_cases e : o = a
    · subst e
      simp [endLifetime] at h
    · simpa [endLifetime, Function.update_noteq e] using h

theorem finalizeObjs_some {objs : Nat → Option Object} {b : IControlBlock} {o : Nat}
    {ob : Object} (h : finalizeObjs objs b o = some ob) : objs o = some ob := by
  rcases hdv : b.derived with ⟨p, _ | _ | d⟩ | ⟨p, a, n⟩ | ⟨p, _ | _ | d, a⟩ <;>
    simp only [finalizeObjs, hdv, runDeleter] at h <;>
    first
      | exact h
      | exact endLifetime_some h

theorem finalizeObjs_destruct {objs : Nat → Option Object} {b : IControlBlock} {o : Nat}
    (hdv : b.derived = .ControlBlockWithDeleter (some o) .destruct) :
    finalizeObjs objs b o = none := by
  simp [finalizeObjs, hdv, runDeleter, endLifetime]

theorem WellFormed.dropSp_null {s t : State} (h : WellFormed s) {i : Nat}
    (hi : s.sp i = some ⟨none⟩) (hsp : t.sp = Function.update s.sp i none) (hwp : t.wp = s.wp)
    (hn : t.nextSp = s.nextSp) (hnw : t.nextWp = s.nextWp) (hb : t.blocks = s.blocks)
    (hl : t.log = s.log) (ho : t.objs = s.objs) (hbrk : t.brk = s.brk) : WellFormed t := by
  refine h.transfer hb hl ho hbrk ?_ ?_ ?_ ?_
  · intro j hj
    rw [hsp]
    by_cases e : j = i
    · subst e
      simp
    · rw [Function.update_noteq e]
      exact h.spFresh j (by omega)
  · intro j hj
    rw [hwp]
    exact h.wpFresh j (by omega)
  · intro c
    have e1 : t.sharedRefs c = (s.dropSp i).sharedRefs c := by
      simp only [State.sharedRefs, hsp, hn, State.dropSp]
    have e2 := State.sharedRefs_dropSp s i none (h.lt_nextSp hi) hi c
    simp only [reduceCtorEq, if_false] at e2
    omega
  · intro c
    simp only [State.weakRefs, hwp, hnw]

theorem WellFormed.releaseStrong {s t : State} (h : WellFormed s) {i c : Nat}
    {b : IControlBlock} (hi : s.sp i = some ⟨some c⟩) (hb : s.blocks c = some b)
    (hsp : t.sp = Function.update s.sp i none) (hwp : t.wp = s.wp)
    (hn : t.nextSp = s.nextSp) (hnw : t.nextWp = s.nextWp) (hr : StrongReleased s t c b) :
    WellFormed t := by
  have lb := h.live c b hb
  have hsr : ∀ c', t.sharedRefs c' + (if some c = some c' then 1 else 0) = s.sharedRefs c' := by
    intro c'
    have e1 : t.sharedRefs c' = (s.dropSp i).sharedRefs c' := by
      simp only [State.sharedRefs, hsp, hn, State.dropSp]
    rw [e1]
    exact State.sharedRefs_dropSp s i (some c) (h.lt_nextSp hi) hi c'
  have hwr : ∀ c', t.weakRefs c' = s.weakRefs c' := by
    intro c'
    simp only [State.weakRefs, hwp, hnw]
  have hpos : 0 < b.shared_count_ := by
    have := hsr c
    simp only [if_true] at this
    have := lb.shared
    omega
  refine ⟨?_, ?_, ?_, ?_, ?_, ?_⟩
  · intro j hj
    rw [hsp]
    by_cases e : j = i
    · subst e
      simp
    · rw [Function.update_noteq e]
      exact h.spFresh j (by omega)
  · intro j hj
    rw [hwp]
    exact h.wpFresh j (by omega)
  · intro c' hc'
    have hlt := h.lt_brk hb
    have e : c' ≠ c := by
      rw [hr.brk] at hc'
      omega
    rw [hr.blocks, Function.update_noteq e, hr.strong_constructs_eq]
    exact h.fresh c' (by rw [hr.brk] at hc'; exact hc')
  · intro c' b' hb'
    rw [hr.blocks] at hb'
    by_cases e : c' = c
    · subst e
      simp only [Function.update_same] at hb'
      by_cases hz : b.shared_count_ = 1 ∧ b.weak_count_ = 0
      · simp [hz] at hb'
      · simp only [hz, if_false, Option.some.injEq] at hb'
        subst hb'
        have hs := hsr c'
        simp only [if_true] at hs
        refine ⟨?_, ?_, ?_, lb.hook, ?_, ?_, ?_⟩
        · show b.shared_count_ - 1 = t.sharedRefs c'
          have := lb.shared
          omega
        · show b.weak_count_ = t.weakRefs c'
          rw [hwr]
          exact lb.weak
        · show 0 < b.shared_count_ - 1 + b.weak_count_
          omega
        · rw [hr.strong_constructs_eq]
          exact lb.constructed
        · intro x
          have h1 : b.shared_count_ = 1 := by
            have x' : b.shared_count_ - 1 = 0 := x
            omega
          rw [hr.strong_deletes_eq]
          simp [h1]
        · rw [hr.strong_reclaims_eq, lb.reclaimed]
          simp [hz]
    · rw [Function.update_noteq e] at hb'
      have l := h.live c' b' hb'
      have hs := hsr c'
      have e' : ¬ (some c = some c') := fun x => e (by cases x; rfl)
      simp only [e', if_false, Nat.add_zero] at hs
      refine ⟨by rw [hs]; exact l.shared, by rw [hwr]; exact l.weak, l.pos, l.hook, ?_, ?_, ?_⟩
      · rw [hr.strong_constructs_eq]
        exact l.constructed
      · intro x
        rw [hr.strong_deletes_eq]
        have := l.deleted x
        omega
      · rw [hr.strong_reclaims_eq, l.reclaimed]
        simp [e]
  · intro c' hb'
    rw [hr.blocks] at hb'
    by_cases e : c' = c
    · subst e
      simp only [Function.update_same] at hb'
      by_cases hz : b.shared_count_ = 1 ∧ b.weak_count_ = 0
      · have hs := hsr c'
        simp only [if_true] at hs
        refine ⟨?_, ?_, ?_, ?_, ?_⟩
        · have := lb.shared
          omega
        · rw [hwr, ← lb.weak]
          exact hz.2
        · rw [hr.strong_deletes_eq, hr.strong_constructs_eq, lb.constructed]
          simp [hz.1]
        · rw [hr.strong_reclaims_eq, hr.strong_constructs_eq, lb.reclaimed, lb.constructed]
          simp [hz]
        · rw [hr.strong_constructs_eq, lb.constructed]
      · simp [hz] at hb'
    · rw [Function.update_noteq e] at hb'
      have l := h.dead c' hb'
      have hs := hsr c'
      have e' : ¬ (some c = some c') := fun x => e (by cases x; rfl)
      simp only [e', if_false, Nat.add_zero] at hs
      refine ⟨by rw [hs]; exact l.shared, by rw [hwr]; exact l.weak, ?_, ?_, ?_⟩
      · rw [hr.strong_deletes_eq, hr.strong_constructs_eq]
        have := l.deleted
        omega
      · rw [hr.strong_reclaims_eq, hr.strong_constructs_eq, l.reclaimed]
        simp [e]
      · rw [hr.strong_constructs_eq]
        exact l.once
  · intro o ob c' ho hc'
    have ho' : s.objs o = some ob := by
      rw [hr.objs] at ho
      by_cases h1 : b.shared_count_ = 1
      · simp only [h1, if_true] at ho
        exact finalizeObjs_some ho
      · simpa [h1] using ho
    obtain ⟨hlt, hd⟩ := h.backref o ob c' ho' hc'
    refine ⟨by rw [hr.brk]; exact hlt, fun b2 hb2 => ?_⟩
    rw [hr.blocks] at hb2
    by_cases e : c' = c
    · subst e
      rw [Function.update_same] at hb2
      by_cases hz : b.shared_count_ = 1 ∧ b.weak_count_ = 0
      · simp [hz] at hb2
      · simp only [hz, if_false, Option.some.injEq] at hb2
        subst hb2
        exact hd b hb
    · rw [Function.update_noteq e] at hb2
      exact hd b2 hb2

theorem WellFormed.dropWp_null {s t : State} (h : WellFormed s) {i : Nat}
    (hi : s.wp i = some ⟨none⟩) (hwp : t.wp = Function.update s.wp i none) (hsp : t.sp = s.sp)
    (hn : t.nextSp = s.nextSp) (hnw : t.nextWp = s.nextWp) (hb : t.blocks = s.blocks)
    (hl : t.log = s.log) (ho : t.objs = s.objs) (hbrk : t.brk = s.brk) : WellFormed t := by
  refine h.transfer hb hl ho hbrk ?_ ?_ ?_ ?_
  · intro j hj
    rw [hsp]
    exact h.spFresh j (by omega)
  · intro j hj
    rw [hwp]
    by_cases e : j = i
    · subst e
      simp
    · rw [Function.update_noteq e]
      exact h.wpFresh j (by omega)
  · intro c
    simp only [State.sharedRefs, hsp, hn]
  · intro c
    have e1 : t.weakRefs c = (s.dropWp i).weakRefs c := by
      simp only [State.weakRefs, hwp, hnw, State.dropWp]
    have e2 := State.weakRefs_dropWp s i none (h.lt_nextWp hi) hi c
    simp only [reduceCtorEq, if_false] at e2
    omega

theorem WellFormed.releaseWeak {s t : State} (h : WellFormed s) {i c : Nat}
    {b : IControlBlock} (hi : s.wp i = some ⟨some c⟩) (hb : s.blocks c = some b)
    (hwp : t.wp = Function.update s.wp i none) (hsp : t.sp = s.sp)
    (hn : t.nextSp = s.nextSp) (hnw : t.nextWp = s.nextWp) (hr : WeakReleased s t c b) :
    WellFormed t := by
  have lb := h.live c b hb
  have hwr : ∀ c', t.weakRefs c' + (if some c = some c' then 1 else 0) = s.weakRefs c' := by
    intro c'
    have e1 : t.weakRefs c' = (s.dropWp i).weakRefs c' := by
      simp only [State.weakRefs, hwp, hnw, State.dropWp]
    rw [e1]
    exact State.weakRefs_dropWp s i (some c) (h.lt_nextWp hi) hi c'
  have hsr : ∀ c', t.sharedRefs c' = s.sharedRefs c' := by
    intro c'
    simp only [State.sharedRefs, hsp, hn]
  have hpos : 0 < b.weak_count_ := by
    have := hwr c
    simp only [if_true] at this
    have := lb.weak
    omega
  refine ⟨?_, ?_, ?_, ?_, ?_, ?_⟩
  · intro j hj
    rw [hsp]
    exact h.spFresh j (by omega)
  · intro j hj
    rw [hwp]
    by_cases e : j = i
    · subst e
      simp
    · rw [Function.update_noteq e]
      exact h.wpFresh j (by omega)
  · intro c' hc'
    have hlt := h.lt_brk hb
    have e : c' ≠ c := by
      rw [hr.brk] at hc'
      omega
    rw [hr.blocks, Function.update_noteq e, hr.weak_constructs_eq]
    exact h.fresh c' (by rw [hr.brk] at hc'; exact hc')
  · intro c' b' hb'
    rw [hr.blocks] at hb'
    by_cases e : c' = c
    · subst e
      simp only [Function.update_same] at hb'
      by_cases hz : b.weak_count_ = 1 ∧ b.shared_count_ = 0
      · simp [hz] at hb'
      · simp only [hz, if_false, Option.some.injEq] at hb'
        subst hb'
        have hs := hwr c'
        simp only [if_true] at hs
        refine ⟨?_, ?_, ?_, lb.hook, ?_, ?_, ?_⟩
        · show b.shared_count_ = t.sharedRefs c'
          rw [hsr]
          exact lb.shared
        · show b.weak_count_ - 1 = t.weakRefs c'
          have := lb.weak
          omega
        · show 0 < b.shared_count_ + (b.weak_count_ - 1)
          omega
        · rw [hr.weak_constructs_eq]
          exact lb.constructed
        · intro x
          rw [hr.weak_deletes_eq]
          exact lb.deleted x
        · rw [hr.weak_reclaims_eq, lb.reclaimed]
          simp [hz]
    · rw [Function.update_noteq e] at hb'
      have l := h.live c' b' hb'
      have hs := hwr c'
      have e' : ¬ (some c = some c') := fun x => e (by cases x; rfl)
      simp only [e', if_false, Nat.add_zero] at hs
      refine ⟨by rw [hsr]; exact l.shared, by rw [hs]; exact l.weak, l.pos, l.hook, ?_, ?_, ?_⟩
      · rw [hr.weak_constructs_eq]
        exact l.constructed
      · intro x
        rw [hr.weak_deletes_eq]
        exact l.deleted x
      · rw [hr.weak_reclaims_eq, l.reclaimed]
        simp [e]
  · intro c' hb'
    rw [hr.blocks] at hb'
    by_cases e : c' = c
    · subst e
      simp only [Function.update_same] at hb'
      by_cases hz : b.weak_count_ = 1 ∧ b.shared_count_ = 0
      · have hs := hwr c'
        simp only [if_true] at hs
        have hd := lb.deleted hz.2
        refine ⟨?_, ?_, ?_, ?_, ?_⟩
        · rw [hsr, ← lb.shared]
          exact hz.2
        · have := lb.weak
          omega
        · rw [hr.weak_deletes_eq, hr.weak_constructs_eq, lb.constructed]
          exact hd
        · rw [hr.weak_reclaims_eq, hr.weak_constructs_eq, lb.reclaimed, lb.constructed]
          simp [hz]
        · rw [hr.weak_constructs_eq, lb.constructed]
      · simp [hz] at hb'
    · rw [Function.update_noteq e] at hb'
      have l := h.dead c' hb'
      have hs := hwr c'
      have e' : ¬ (some c = some c') := fun x => e (by cases x; rfl)
      simp only [e', if_false, Nat.add_zero] at hs
      refine ⟨by rw [hsr]; exact l.shared, by rw [hs]; exact l.weak, ?_, ?_, ?_⟩
      · rw [hr.weak_deletes_eq, hr.weak_constructs_eq]
        exact l.deleted
      · rw [hr.weak_reclaims_eq, hr.weak_constructs_eq, l.reclaimed]
        simp [e]
      · rw [hr.weak_constructs_eq]
        exact l.once
  · exact h.backref_store hr.objs (by rw [hr.brk]) hb
      (fun b' hb' => by
        by_cases hz : b.weak_count_ = 1 ∧ b.shared_count_ = 0
        · simp [hz] at hb'
        · simp only [hz, if_false, Option.some.injEq] at hb'
          subst hb'
          rfl) hr.blocks

/-! ## Every operation keeps the invariant -/

theorem WellFormed.live_of_ref {s : State} (h : WellFormed s) {i c : Nat}
    (hi : s.sp i = some ⟨some c⟩) :
    ∃ b, s.blocks c = some b ∧ 0 < b.shared_count_ ∧ b.shared_count_ ≤ s.nextSp ∧
      b.weak_count_ ≤ s.nextWp ∧ b.destroyer_ = some b.derived.cls := by
  have hpos : 0 < s.sharedRefs c :=
    countUpTo_pos (h.lt_nextSp hi) (by simp [hi])
  cases hb : s.blocks c with
  | none =>
    have := (h.dead c hb).shared
    omega
  | some b =>
    have l := h.live c b hb
    refine ⟨b, rfl, by rw [l.shared]; exact hpos, ?_, ?_, l.hook⟩
    · rw [l.shared]
      exact countUpTo_le _ _
    · rw [l.weak]
      exact countUpTo_le _ _

theorem WellFormed.live_of_weak_ref {s : State} (h : WellFormed s) {i c : Nat}
    (hi : s.wp i = some ⟨some c⟩) :
    ∃ b, s.blocks c = some b ∧ 0 < b.weak_count_ ∧ b.shared_count_ ≤ s.nextSp ∧
      b.weak_count_ ≤ s.nextWp ∧ b.destroyer_ = some b.derived.cls := by
  have hpos : 0 < s.weakRefs c :=
    countUpTo_pos (h.lt_nextWp hi) (by simp [hi])
  cases hb : s.blocks c with
  | none =>
    have := (h.dead c hb).weak
    omega
  | some b =>
    have l := h.live c b hb
    refine ⟨b, rfl, by rw [l.weak]; exact hpos, ?_, ?_, l.hook⟩
    · rw [l.shared]
      exact countUpTo_le _ _
    · rw [l.weak]
      exact countUpTo_le _ _

theorem SharedPtr.ctor_grown {s t : State} (h : WellFormed s) (e : SharedPtr.ctor s = .ok t) :
    Grown s t 1 0 := by
  cases e
  exact ⟨h.newSp_none, rfl, rfl, [], rfl⟩

theorem SharedPtr.ctor_ptr_grown {s t : State} (h : WellFormed s) {p : Option Nat} {n : Nat}
    (e : SharedPtr.ctor_ptr s p n = .ok t) : Grown s t 1 0 := by
  rw [SharedPtr.ctor_ptr_eq] at e
  cases e
  exact ⟨h.adopt n (show (Event.operator_new n s.brk).isRequest = true from rfl) _ _ rfl,
    rfl, rfl, [.IControlBlock s.brk, .operator_new n s.brk], rfl⟩

theorem SharedPtr.ctor_ptr_deleter_grown {s t : State} (h : WellFormed s) {p : Option Nat}
    {d : Deleter} {n : Nat} (e : SharedPtr.ctor_ptr_deleter s p d n = .ok t) :
    Grown s t 1 0 := by
  rw [SharedPtr.ctor_ptr_deleter_eq] at e
  cases e
  exact ⟨h.adopt n (show (Event.operator_new n s.brk).isRequest = true from rfl) _ _ rfl,
    rfl, rfl, [.IControlBlock s.brk, .operator_new n s.brk], rfl⟩

theorem SharedPtr.ctor_ptr_deleter_alloc_grown {s t : State} (h : WellFormed s)
    {p : Option Nat} {d : Deleter} {a n : Nat}
    (e : SharedPtr.ctor_ptr_deleter_alloc s p d a n = .ok t) : Grown s t 1 0 := by
  rw [SharedPtr.ctor_ptr_deleter_alloc_eq] at e
  cases e
  exact ⟨h.adopt n
    (show (Event.allocate a .ControlBlock 1 s.brk).isRequest = true from rfl) _ _ rfl,
    rfl, rfl, [.IControlBlock s.brk, .allocate a .ControlBlock 1 s.brk], rfl⟩

theorem SharedPtr.ctor_copy_grown {s t : State} (h : WellFormed s)
    (hM : s.nextSp + 1 < CounterMod) {o : Nat} (e : SharedPtr.ctor_copy s o = .ok t) :
    Grown s t 1 0 := by
  cases hsp : s.sp o with
  | none => simp [SharedPtr.ctor_copy, State.getSp, hsp, bind, Except.bind] at e
  | some x =>
    obtain ⟨cb⟩ := x
    cases cb with
    | none =>
      rw [SharedPtr.ctor_copy_null s o hsp] at e
      cases e
      exact ⟨h.newSp_none, rfl, rfl, [], rfl⟩
    | some c =>
      obtain ⟨b, hb, h0, hle, -, -⟩ := h.live_of_ref hsp
      rw [SharedPtr.ctor_copy_eq s o c b hsp hb (by omega)] at e
      cases e
      exact ⟨h.acquire hb, rfl, rfl, [], rfl⟩

theorem SharedPtr.ctor_move_grown {s t : State} (h : WellFormed s) {o : Nat}
    (e : SharedPtr.ctor_move s o = .ok t) : Grown s t 1 0 := by
  cases hsp : s.sp o with
  | none => simp [SharedPtr.ctor_move, State.getSp, hsp, bind, Except.bind] at e
  | some x =>
    obtain ⟨cb⟩ := x
    rw [SharedPtr.ctor_move_eq s o cb hsp] at e
    cases e
    exact ⟨h.moveSp hsp, rfl, rfl, [], rfl⟩

theorem SharedPtr.swap_grown {s t : State} (h : WellFormed s) {a b : Nat}
    (e : SharedPtr.swap s a b = .ok t) : Grown s t 0 0 := by
  cases ha : s.sp a with
  | none => simp [SharedPtr.swap, State.getSp, ha, bind, Except.bind] at e
  | some x =>
    obtain ⟨ca⟩ := x
    cases hb : s.sp b with
    | none => simp [SharedPtr.swap, State.getSp, ha, hb, bind, Except.bind] at e
    | some y =>
      obtain ⟨cb⟩ := y
      rw [SharedPtr.swap_eq s a b ca cb ha hb] at e
      cases e
      exact ⟨h.swapSp ha hb, rfl, rfl, [], rfl⟩

theorem SharedPtr.dtor_grown {s t : State} (h : WellFormed s) (hM : s.nextSp < CounterMod)
    {i : Nat} (e : SharedPtr.dtor s i = .ok t) : Grown s t 0 0 := by
  cases hsp : s.sp i with
  | none => simp [SharedPtr.dtor, State.getSp, hsp, bind, Except.bind] at e
  | some x =>
    obtain ⟨cb⟩ := x
    cases cb with
    | none =>
      rw [SharedPtr.dtor_null s i hsp] at e
      cases e
      exact ⟨h.dropSp_null hsp rfl rfl rfl rfl rfl rfl rfl rfl, rfl, rfl, [], rfl⟩
    | some c =>
      obtain ⟨b, hb, h0, hle, -, hd⟩ := h.live_of_ref hsp
      obtain ⟨t', ht', h1, h2, h3, h4, hr⟩ :=
        SharedPtr.dtor_spec s i c b hsp hb h0 (by omega) hd
      rw [ht'] at e
      cases e
      exact ⟨h.releaseStrong hsp hb h1 h2 h3 h4 hr, h3, h4, _, hr.log⟩

theorem SharedPtr.ctor_block_grown {s t : State} (h : WellFormed s)
    (hM : s.nextSp + 1 < CounterMod) {c : Nat} {b : IControlBlock}
    (hb : s.blocks c = some b) (h0 : 0 < b.shared_count_)
    (e : SharedPtr.ctor_block s (some c) = .ok t) : Grown s t 1 0 := by
  have hle : b.shared_count_ ≤ s.nextSp := by
    rw [(h.live c b hb).shared]
    exact countUpTo_le _ _
  rw [SharedPtr.ctor_block_eq s c b hb (by omega)] at e
  cases e
  exact ⟨h.acquire hb, rfl, rfl, [], rfl⟩

theorem WeakPtr.weak_ctor_grown {s t : State} (h : WellFormed s) (e : WeakPtr.ctor s = .ok t) :
    Grown s t 0 1 := by
  cases e
  exact ⟨h.newWp_none, rfl, rfl, [], rfl⟩

theorem WeakPtr.weak_ctor_copy_grown {s t : State} (h : WellFormed s)
    (hM : s.nextWp + 1 < CounterMod) {o : Nat} (e : WeakPtr.ctor_copy s o = .ok t) :
    Grown s t 0 1 := by
  cases hwp : s.wp o with
  | none => simp [WeakPtr.ctor_copy, State.getWp, hwp, bind, Except.bind] at e
  | some x =>
    obtain ⟨cb⟩ := x
    cases cb with
    | none =>
      rw [WeakPtr.weak_ctor_copy_null s o hwp] at e
      cases e
      exact ⟨h.newWp_none, rfl, rfl, [], rfl⟩
    | some c =>
      obtain ⟨b, hb, -, -, hle, -⟩ := h.live_of_weak_ref hwp
      rw [WeakPtr.weak_ctor_copy_eq s o c b hwp hb (by omega)] at e
      cases e
      exact ⟨h.acquireWeak hb, rfl, rfl, [], rfl⟩

theorem WeakPtr.ctor_shared_grown {s t : State} (h : WellFormed s)
    (hM : s.nextWp + 1 < CounterMod) {o : Nat} (e : WeakPtr.ctor_shared s o = .ok t) :
    Grown s t 0 1 := by
  cases hsp : s.sp o with
  | none => simp [WeakPtr.ctor_shared, State.getSp, hsp, bind, Except.bind] at e
  | some x =>
    obtain ⟨cb⟩ := x
    cases cb with
    | none =>
      rw [WeakPtr.ctor_shared_null s o hsp] at e
      cases e
      exact ⟨h.newWp_none, rfl, rfl, [], rfl⟩
    | some c =>
      obtain ⟨b, hb, -, -, hle, -⟩ := h.live_of_ref hsp
      rw [WeakPtr.ctor_shared_eq s o c b hsp hb (by omega)] at e
      cases e
      exact ⟨h.acquireWeak hb, rfl, rfl, [], rfl⟩

theorem WeakPtr.weak_ctor_move_grown {s t : State} (h : WellFormed s) {o : Nat}
    (e : WeakPtr.ctor_move s o = .ok t) : Grown s t 0 1 := by
  cases hwp : s.wp o with
  | none => simp [WeakPtr.ctor_move, State.getWp, hwp, bind, Except.bind] at e
  | some x =>
    obtain ⟨cb⟩ := x
    rw [WeakPtr.weak_ctor_move_eq s o cb hwp] at e
    cases e
    exact ⟨h.moveWp hwp, rfl, rfl, [], rfl⟩

theorem WeakPtr.weak_swap_grown {s t : State} (h : WellFormed s) {a b : Nat}
    (e : WeakPtr.swap s a b = .ok t) : Grown s t 0 0 := by
  cases ha : s.wp a with
  | none => simp [WeakPtr.swap, State.getWp, ha, bind, Except.bind] at e
  | some x =>
    obtain ⟨ca⟩ := x
    cases hb : s.wp b with
    | none => simp [WeakPtr.swap, State.getWp, ha, hb, bind, Except.bind] at e
    | some y =>
      obtain ⟨cb⟩ := y
      rw [WeakPtr.weak_swap_eq s a b ca cb ha hb] at e
      cases e
      exact ⟨h.swapWp ha hb, rfl, rfl, [], rfl⟩

theorem WeakPtr.weak_dtor_grown {s t : State} (h : WellFormed s) (hM : s.nextWp < CounterMod)
    {i : Nat} (e : WeakPtr.dtor s i = .ok t) : Grown s t 0 0 := by
  cases hwp : s.wp i with
  | none => simp [WeakPtr.dtor, State.getWp, hwp, bind, Except.bind] at e
  | some x =>
    obtain ⟨cb⟩ := x
    cases cb with
    | none =>
      rw [WeakPtr.weak_dtor_null s i hwp] at e
      cases e
      exact ⟨h.dropWp_null hwp rfl rfl rfl rfl rfl rfl rfl rfl, rfl, rfl, [], rfl⟩
    | some c =>
      obtain ⟨b, hb, h0, -, hle, hd⟩ := h.live_of_weak_ref hwp
      obtain ⟨t', ht', h1, h2, h3, h4, hr⟩ :=
        WeakPtr.weak_dtor_spec s i c b hwp hb h0 (by omega) hd
      rw [ht'] at e
      cases e
      exact ⟨h.releaseWeak hwp hb h1 h2 h3 h4 hr, h3, h4, _, hr.log⟩

theorem WeakPtr.lock_grown {s t : State} (h : WellFormed s) (hM : s.nextSp + 1 < CounterMod)
    {w : Nat} (e : WeakPtr.lock s w = .ok t) : Grown s t 1 0 := by
  cases hwp : s.wp w with
  | none => simp [WeakPtr.lock, State.getWp, hwp, bind, Except.bind] at e
  | some x =>
    obtain ⟨cb⟩ := x
    cases cb with
    | none =>
      simp [WeakPtr.lock, WeakPtr.expired, WeakPtr.use_count, State.getWp, hwp, bind,
        Except.bind, State.read] at e
    | some c =>
      obtain ⟨b, hb, -, hle, -, -⟩ := h.live_of_weak_ref hwp
      by_cases hk : b.shared_count_ = 0
      · rw [WeakPtr.lock_expired_eq s w c b hwp hb hk] at e
        cases e
      · rw [WeakPtr.lock_eq s w c b hwp hb (by omega) (by omega)] at e
        cases e
        exact ⟨h.acquire hb, rfl, rfl, [], rfl⟩

theorem plain_T_backref {v : Option Int} {o : Object} {c : Nat} {P : Prop}
    (ho : plain_T v () = some o) (hc : o.control_block_ = some c) : P := by
  cases v with
  | none => cases ho
  | some x =>
    cases ho
    cases hc

theorem plain_T_eq_none {v : Option Int} : plain_T v () = none ↔ v = none := by
  cases v <;> simp [plain_T]

theorem WellFormed.construct_after {s s' : State} (h' : WellFormed s') (hbrk : s.brk ≤ s'.brk)
    (hblk : ∀ c b, c < s.brk → s'.blocks c = some b → s.blocks c = some b) (p : Nat)
    (ob : Object)
    (hob : ∀ c, ob.control_block_ = some c → c < s.brk ∧
      ∀ b, s.blocks c = some b → ∃ q, b.derived = .ControlBlockWithDeleter q .destruct) :
    WellFormed (s'.construct p ob) :=
  h'.construct p ob (fun c hc =>
    ⟨Nat.lt_of_lt_of_le (hob c hc).1 hbrk,
      fun b hb => (hob c hc).2 b (hblk c b (hob c hc).1 hb)⟩)

theorem WellFormed.copy_T_backref {s : State} (h : WellFormed s) {p : Nat} {x : Object}
    (hp : s.objs p = some x) :
    ∀ o c, copy_T x = some o → o.control_block_ = some c → c < s.brk ∧
      ∀ b, s.blocks c = some b → ∃ q, b.derived = .ControlBlockWithDeleter q .destruct := by
  intro o c ho hc
  have e : x = o := by simpa [copy_T] using ho
  subst e
  exact h.backref p x c hp hc

theorem new_T_grown {Args : Type} {s : State} (h : WellFormed s) (T : Args → Option Object)
    (args : Args) (n : Nat)
    (hob : ∀ o c, T args = some o → o.control_block_ = some c → c < s.brk ∧
      ∀ b, s.blocks c = some b → ∃ q, b.derived = .ControlBlockWithDeleter q .destruct) :
    ∃ r, new_T s T args n = .ok r ∧ Grown s r.2 0 0 := by
  have hr : (Event.operator_new n s.brk).isRequest = true := rfl
  cases hv : T args with
  | none =>
    exact ⟨_, new_T_throw s T args hv n, h.request (max n 1) hr, rfl, rfl,
      [.operator_new n s.brk], rfl⟩
  | some x =>
    refine ⟨_, new_T_eq s T args x hv n, ?_, rfl, rfl, [.operator_new n s.brk], rfl⟩
    exact (h.request (max n 1) hr).construct_after (Nat.le_add_right _ _)
      (fun _ _ _ hb => hb) s.brk x (fun c hc => hob x c hv hc)

theorem MakeShared_grown {Args : Type} {s : State} (h : WellFormed s)
    (T : Args → Option Object) (args : Args) (n m : Nat)
    (hob : ∀ o c, T args = some o → o.control_block_ = some c → c < s.brk ∧
      ∀ b, s.blocks c = some b → ∃ q, b.derived = .ControlBlockWithDeleter q .destruct) :
    ∃ r, MakeShared s T args n m = .ok r ∧
      Grown s r.2 (if T args = none then 0 else 1) 0 := by
  have hr : (Event.operator_new (n + m) s.brk).isRequest = true := rfl
  cases hv : T args with
  | none =>
    exact ⟨_, MakeShared_throw s _ args hv n m, h.request (max (n + m) 1) hr, rfl, rfl,
      [.operator_new (n + m) s.brk], rfl⟩
  | some x =>
    refine ⟨_, MakeShared_eq s _ args x hv n m, ?_, rfl, rfl,
      [.IControlBlock s.brk, .operator_new (n + m) s.brk], rfl⟩
    refine (h.adopt (n + m) hr .ControlBlockWithDeleter
      (.ControlBlockWithDeleter (some (s.brk + m)) .destruct) rfl).construct_after
      (Nat.le_add_right _ _) (fun c b hc hb => ?_) (s.brk + m) x (fun c hc => hob x c hv hc)
    have e1 : c ≠ s.brk := by omega
    simpa [State.adopt, Function.update_noteq e1] using hb

theorem AllocateShared_grown {Args : Type} {s : State} (h : WellFormed s) (a : Nat)
    (T : Args → Option Object) (args : Args) (n m : Nat)
    (hob : ∀ o c, T args = some o → o.control_block_ = some c → c < s.brk ∧
      ∀ b, s.blocks c = some b → ∃ q, b.derived = .ControlBlockWithDeleter q .destruct) :
    ∃ r, AllocateShared s a T args n m = .ok r ∧
      Grown s r.2 (if T args = none then 0 else 1) 0 := by
  have hr : (Event.allocate a .byte (n + m) s.brk).isRequest = true := rfl
  cases hv : T args with
  | none =>
    exact ⟨_, AllocateShared_throw s a _ args hv n m, h.request (max (n + m) 1) hr, rfl, rfl,
      [.allocate a .byte (n + m) s.brk], rfl⟩
  | some x =>
    refine ⟨_, AllocateShared_eq s a _ args x hv n m, ?_, rfl, rfl,
      [.IControlBlock s.brk, .allocate a .byte (n + m) s.brk], rfl⟩
    refine (h.adopt (n + m) hr .ControlBlockWithAllocator
      (.ControlBlockWithAllocator (some (s.brk + m)) a (m + n)) rfl).construct_after
      (Nat.le_add_right _ _) (fun c b hc hb => ?_) (s.brk + m) x (fun c hc => hob x c hv hc)
    have e1 : c ≠ s.brk := by omega
    simpa [State.adopt, Function.update_noteq e1] using hb

theorem EnableSharedFromThis.MakeShared_esft_grown {Args : Type} {s : State}
    (h : WellFormed s) (T : Args → Option Object) (args : Args) (n m : Nat) :
    ∃ r, EnableSharedFromThis.MakeShared s T args n m = .ok r ∧
      Grown s r.2 (if T args = none then 0 else 1) 0 := by
  have hr : (Event.operator_new (n + m) s.brk).isRequest = true := rfl
  cases hv : T args with
  | none =>
    exact ⟨_, EnableSharedFromThis.MakeShared_esft_throw s _ args hv n m,
      h.request (max (n + m) 1) hr, rfl, rfl, [.operator_new (n + m) s.brk], rfl⟩
  | some x =>
    refine ⟨_, EnableSharedFromThis.MakeShared_esft_eq s _ args x hv n m, ?_, rfl, rfl,
      [.IControlBlock s.brk, .operator_new (n + m) s.brk], rfl⟩
    refine (h.adopt (n + m) hr .ControlBlockWithDeleter
      (.ControlBlockWithDeleter (some (s.brk + m)) .destruct) rfl).construct (s.brk + m)
      { x with control_block_ := some s.brk } (fun c hc => ?_)
    cases hc
    refine ⟨show s.brk < s.brk + max (n + m) 1 by omega, fun b hb => ?_⟩
    have e : b = { IControlBlock.ctor .ControlBlockWithDeleter
        (.ControlBlockWithDeleter (some (s.brk + m)) .destruct) with shared_count_ := 1 } := by
      simpa [State.adopt] using hb.symm
    exact ⟨some (s.brk + m), by rw [e]; rfl⟩

theorem EnableSharedFromThis.shared_from_this_eq (s : State) (this c : Nat) (o : Object)
    (b : IControlBlock) (ho : s.objs this = some o) (hc : o.control_block_ = some c)
    (hb : s.blocks c = some b) (hM : b.shared_count_ + 1 < CounterMod) :
    EnableSharedFromThis.shared_from_this s this =
      .ok (none, (s.newSp (some c)).store c { b with shared_count_ := b.shared_count_ + 1 }) := by
  simp only [EnableSharedFromThis.shared_from_this, ho, hc,
    SharedPtr.ctor_block_eq s c b hb hM, Except.map]

theorem EnableSharedFromThis.shared_from_this_throw (s : State) (this : Nat) (o : Object)
    (ho : s.objs this = some o) (hc : o.control_block_ = none) :
    EnableSharedFromThis.shared_from_this s this = .ok (some .bad_weak_ptr, s) := by
  simp only [EnableSharedFromThis.shared_from_this, ho, hc]

theorem EnableSharedFromThis.shared_from_this_dangling (s : State) (this c : Nat) (o : Object)
    (ho : s.objs this = some o) (hc : o.control_block_ = some c) (hb : s.blocks c = none) :
    EnableSharedFromThis.shared_from_this s this = .error .useAfterFree := by
  simp only [EnableSharedFromThis.shared_from_this, ho, hc, SharedPtr.ctor_block, State.call,
    State.newSp, hb, Except.map]

theorem EnableSharedFromThis.shared_from_this_grown {s : State} (h : WellFormed s)
    (hM : s.nextSp + 1 < CounterMod) {o : Nat} {r : Option Exn × State}
    (e : EnableSharedFromThis.shared_from_this s o = .ok r) :
    WellFormed r.2 ∧ s.nextSp ≤ r.2.nextSp ∧ r.2.nextSp ≤ s.nextSp + 1 ∧
      r.2.nextWp = s.nextWp ∧ r.2.log = s.log := by
  cases ho : s.objs o with
  | none => simp [EnableSharedFromThis.shared_from_this, ho] at e
  | some ob =>
    cases hc : ob.control_block_ with
    | none =>
      simp only [EnableSharedFromThis.shared_from_this, ho, hc] at e
      cases e
      exact ⟨h, Nat.le_refl _, Nat.le_succ _, rfl, rfl⟩
    | some c =>
      cases hb : s.blocks c with
      | none =>
        rw [EnableSharedFromThis.shared_from_this_dangling s o c ob ho hc hb] at e
        cases e
      | some b =>
        have hle : b.shared_count_ ≤ s.nextSp := by
          rw [(h.live c b hb).shared]
          exact countUpTo_le _ _
        rw [EnableSharedFromThis.shared_from_this_eq s o c ob b ho hc hb (by omega)] at e
        cases e
        exact ⟨h.acquire hb, Nat.le_succ _, Nat.le_refl _, rfl, rfl⟩

theorem Except.bind_ok_inv {ε α β : Type} {x : Except ε α} {f : α → Except ε β} {t : β}
    (e : Except.bind x f = .ok t) : ∃ y, x = .ok y ∧ f y = .ok t := by
  cases x with
  | error a => cases e
  | ok y => exact ⟨y, rfl, e⟩

theorem Grown.trans {s t u : State} {k kw k' kw' : Nat} (a : Grown s t k kw)
    (b : Grown t u k' kw') : Grown s u (k + k') (kw + kw') :=
  ⟨b.1, by rw [b.2.1, a.2.1, Nat.add_assoc], by rw [b.2.2.1, a.2.2.1, Nat.add_assoc],
    by
      obtain ⟨l1, h1⟩ := a.2.2.2
      obtain ⟨l2, h2⟩ := b.2.2.2
      exact ⟨l2 ++ l1, by rw [h2, h1, List.append_assoc]⟩⟩

theorem Grown.stepped {s t : State} {k kw : Nat} (a : Grown s t k kw) (hk : k ≤ 1)
    (hkw : kw ≤ 1) : Stepped s t := by
  obtain ⟨h, e1, e2, e3⟩ := a
  exact ⟨h, by omega, by omega, by omega, by omega, e3⟩

theorem SharedPtr.assign_copy_stepped {s t : State} (h : WellFormed s)
    (hM : s.nextSp + 1 < CounterMod) {a b : Nat} (e : SharedPtr.assign_copy s a b = .ok t) :
    Stepped s t := by
  simp only [SharedPtr.assign_copy, bind] at e
  obtain ⟨_, -, e⟩ := Except.bind_ok_inv e
  obtain ⟨_, -, e⟩ := Except.bind_ok_inv e
  split at e
  · cases e
    exact ⟨h, Nat.le_refl _, Nat.le_succ _, Nat.le_refl _, Nat.le_succ _, [], rfl⟩
  · obtain ⟨s1, e1, e⟩ := Except.bind_ok_inv e
    obtain ⟨s2, e2, e3⟩ := Except.bind_ok_inv e
    have g1 := SharedPtr.ctor_copy_grown h hM e1
    have g2 := SharedPtr.swap_grown g1.1 e2
    have g3 := SharedPtr.dtor_grown g2.1 (by rw [g2.2.1, g1.2.1]; omega) e3
    exact ((g1.trans g2).trans g3).stepped (by omega) (by omega)

theorem SharedPtr.assign_move_stepped {s t : State} (h : WellFormed s)
    (hM : s.nextSp + 1 < CounterMod) {a b : Nat} (e : SharedPtr.assign_move s a b = .ok t) :
    Stepped s t := by
  simp only [SharedPtr.assign_move, bind] at e
  obtain ⟨_, -, e⟩ := Except.bind_ok_inv e
  obtain ⟨_, -, e⟩ := Except.bind_ok_inv e
  split at e
  · cases e
    exact ⟨h, Nat.le_refl _, Nat.le_succ _, Nat.le_refl _, Nat.le_succ _, [], rfl⟩
  · obtain ⟨s1, e1, e⟩ := Except.bind_ok_inv e
    obtain ⟨s2, e2, e3⟩ := Except.bind_ok_inv e
    have g1 := SharedPtr.ctor_move_grown h e1
    have g2 := SharedPtr.swap_grown g1.1 e2
    have g3 := SharedPtr.dtor_grown g2.1 (by rw [g2.2.1, g1.2.1]; omega) e3
    exact ((g1.trans g2).trans g3).stepped (by omega) (by omega)

theorem SharedPtr.reset_stepped {s t : State} (h : WellFormed s)
    (hM : s.nextSp + 1 < CounterMod) {a : Nat} (e : SharedPtr.reset s a = .ok t) :
    Stepped s t := by
  simp only [SharedPtr.reset, bind] at e
  obtain ⟨s1, e1, e⟩ := Except.bind_ok_inv e
  obtain ⟨s2, e2, e3⟩ := Except.bind_ok_inv e
  have g1 := SharedPtr.ctor_grown h e1
  have g2 := SharedPtr.swap_grown g1.1 e2
  have g3 := SharedPtr.dtor_grown g2.1 (by rw [g2.2.1, g1.2.1]; omega) e3
  exact ((g1.trans g2).trans g3).stepped (by omega) (by omega)

theorem SharedPtr.reset_ptr_stepped {s t : State} (h : WellFormed s)
    (hM : s.nextSp + 1 < CounterMod) {a : Nat} {p : Option Nat} {n : Nat}
    (e : SharedPtr.reset_ptr s a p n = .ok t) : Stepped s t := by
  simp only [SharedPtr.reset_ptr, bind] at e
  obtain ⟨s1, e1, e⟩ := Except.bind_ok_inv e
  obtain ⟨s2, e2, e3⟩ := Except.bind_ok_inv e
  have g1 := SharedPtr.ctor_ptr_grown h e1
  have g2 := SharedPtr.swap_grown g1.1 e2
  have g3 := SharedPtr.dtor_grown g2.1 (by rw [g2.2.1, g1.2.1]; omega) e3
  exact ((g1.trans g2).trans g3).stepped (by omega) (by omega)

theorem WeakPtr.weak_assign_move_stepped {s t : State} (h : WellFormed s)
    (hM : s.nextWp + 1 < CounterMod) {a b : Nat} (e : WeakPtr.assign_move s a b = .ok t) :
    Stepped s t := by
  simp only [WeakPtr.assign_move, bind] at e
  obtain ⟨_, -, e⟩ := Except.bind_ok_inv e
  obtain ⟨_, -, e⟩ := Except.bind_ok_inv e
  split at e
  · cases e
    exact ⟨h, Nat.le_refl _, Nat.le_succ _, Nat.le_refl _, Nat.le_succ _, [], rfl⟩
  · obtain ⟨s1, e1, e⟩ := Except.bind_ok_inv e
    obtain ⟨s2, e2, e3⟩ := Except.bind_ok_inv e
    have g1 := WeakPtr.weak_ctor_move_grown h e1
    have g2 := WeakPtr.weak_swap_grown g1.1 e2
    have g3 := WeakPtr.weak_dtor_grown g2.1 (by rw [g2.2.2.1, g1.2.2.1]; omega) e3
    exact ((g1.trans g2).trans g3).stepped (by omega) (by omega)

theorem WeakPtr.assign_copy_conv_stepped {s t : State} (h : WellFormed s)
    (hM : s.nextWp + 1 < CounterMod) {a b : Nat}
    (e : WeakPtr.assign_copy_conv s a b = .ok t) : Stepped s t := by
  simp only [WeakPtr.assign_copy_conv, bind] at e
  obtain ⟨s1, e1, e⟩ := Except.bind_ok_inv e
  obtain ⟨s2, e2, e3⟩ := Except.bind_ok_inv e
  have g1 := WeakPtr.weak_ctor_copy_grown h hM e1
  have g2 := WeakPtr.weak_swap_grown g1.1 e2
  have g3 := WeakPtr.weak_dtor_grown g2.1 (by rw [g2.2.2.1, g1.2.2.1]; omega) e3
  exact ((g1.trans g2).trans g3).stepped (by omega) (by omega)

theorem WeakPtr.assign_shared_stepped {s t : State} (h : WellFormed s)
    (hM : s.nextWp + 1 < CounterMod) {a b : Nat}
    (e : WeakPtr.assign_shared s a b = .ok t) : Stepped s t := by
  simp only [WeakPtr.assign_shared, bind] at e
  obtain ⟨s1, e1, e⟩ := Except.bind_ok_inv e
  obtain ⟨s2, e2, e3⟩ := Except.bind_ok_inv e
  have g1 := WeakPtr.ctor_shared_grown h hM e1
  have g2 := WeakPtr.weak_swap_grown g1.1 e2
  have g3 := WeakPtr.weak_dtor_grown g2.1 (by rw [g2.2.2.1, g1.2.2.1]; omega) e3
  exact ((g1.trans g2).trans g3).stepped (by omega) (by omega)

theorem step_stepped {s t : State} (h : WellFormed s) (hM : s.nextSp + 1 < CounterMod)
    (hW : s.nextWp + 1 < CounterMod) {op : Op} (e : step s op = .ok t) : Stepped s t := by
  cases op with
  | SharedPtr_ctor => exact (SharedPtr.ctor_grown h e).stepped (by omega) (by omega)
  | SharedPtr_ctor_ptr p n => exact (SharedPtr.ctor_ptr_grown h e).stepped (by omega) (by omega)
  | SharedPtr_ctor_ptr_deleter p d n =>
    exact (SharedPtr.ctor_ptr_deleter_grown h e).stepped (by omega) (by omega)
  | SharedPtr_ctor_ptr_deleter_alloc p d a n =>
    exact (SharedPtr.ctor_ptr_deleter_alloc_grown h e).stepped (by omega) (by omega)
  | SharedPtr_ctor_copy o =>
    exact (SharedPtr.ctor_copy_grown h hM e).stepped (by omega) (by omega)
  | SharedPtr_ctor_move o => exact (SharedPtr.ctor_move_grown h e).stepped (by omega) (by omega)
  | SharedPtr_dtor i =>
    exact (SharedPtr.dtor_grown h (by omega) e).stepped (by omega) (by omega)
  | SharedPtr_swap a b => exact (SharedPtr.swap_grown h e).stepped (by omega) (by omega)
  | SharedPtr_assign_copy a b => exact SharedPtr.assign_copy_stepped h hM e
  | SharedPtr_assign_move a b => exact SharedPtr.assign_move_stepped h hM e
  | SharedPtr_reset a => exact SharedPtr.reset_stepped h hM e
  | SharedPtr_reset_ptr a p n => exact SharedPtr.reset_ptr_stepped h hM e
  | WeakPtr_ctor => exact (WeakPtr.weak_ctor_grown h e).stepped (by omega) (by omega)
  | WeakPtr_dtor i =>
    exact (WeakPtr.weak_dtor_grown h (by omega) e).stepped (by omega) (by omega)
  | WeakPtr_ctor_copy o =>
    exact (WeakPtr.weak_ctor_copy_grown h hW e).stepped (by omega) (by omega)
  | WeakPtr_ctor_move o =>
    exact (WeakPtr.weak_ctor_move_grown h e).stepped (by omega) (by omega)
  | WeakPtr_ctor_shared o =>
    exact (WeakPtr.ctor_shared_grown h hW e).stepped (by omega) (by omega)
  | WeakPtr_swap a b => exact (WeakPtr.weak_swap_grown h e).stepped (by omega) (by omega)
  | WeakPtr_assign_move a b => exact WeakPtr.weak_assign_move_stepped h hW e
  | WeakPtr_assign_copy_conv a b => exact WeakPtr.assign_copy_conv_stepped h hW e
  | WeakPtr_assign_shared a b => exact WeakPtr.assign_shared_stepped h hW e
  | WeakPtr_lock w => exact (WeakPtr.lock_grown h hM e).stepped (by omega) (by omega)
  | new_T v n =>
    obtain ⟨r, hr, g⟩ := new_T_grown h (plain_T v) () n (fun _ _ ho hc => plain_T_backref ho hc)
    simp only [step, hr, Except.map] at e
    cases e
    exact g.stepped (by omega) (by omega)
  | MakeShared v n m =>
    obtain ⟨r, hr, g⟩ := MakeShared_grown h (plain_T v) () n m
      (fun _ _ ho hc => plain_T_backref ho hc)
    simp only [step, hr, Except.map] at e
    cases e
    exact g.stepped (by split <;> omega) (by omega)
  | MakeShared_EnableSharedFromThis v n m =>
    obtain ⟨r, hr, g⟩ := EnableSharedFromThis.MakeShared_esft_grown h (plain_T v) () n m
    simp only [step, hr, Except.map] at e
    cases e
    exact g.stepped (by split <;> omega) (by omega)
  | AllocateShared a v n m =>
    obtain ⟨r, hr, g⟩ := AllocateShared_grown h a (plain_T v) () n m
      (fun _ _ ho hc => plain_T_backref ho hc)
    simp only [step, hr, Except.map] at e
    cases e
    exact g.stepped (by split <;> omega) (by omega)
  | shared_from_this o =>
    cases hr : EnableSharedFromThis.shared_from_this s o with
    | error f => simp [step, hr, Except.map] at e
    | ok r =>
      simp only [step, hr, Except.map] at e
      cases e
      obtain ⟨w, h1, h2, h3, h4⟩ := EnableSharedFromThis.shared_from_this_grown h hM hr
      exact ⟨w, h1, h2, by omega, by omega, [], h4⟩
  | new_T_copy o n =>
    cases ho : s.objs o with
    | none => simp [step, State.getObj, ho, bind, Except.bind] at e
    | some x =>
      obtain ⟨r, hr, g⟩ := new_T_grown h copy_T x n (h.copy_T_backref ho)
      simp only [step, State.getObj, ho, bind, Except.bind, hr, Except.map] at e
      cases e
      exact g.stepped (by omega) (by omega)
  | MakeShared_copy o n m =>
    cases ho : s.objs o with
    | none => simp [step, State.getObj, ho, bind, Except.bind] at e
    | some x =>
      obtain ⟨r, hr, g⟩ := MakeShared_grown h copy_T x n m (h.copy_T_backref ho)
      simp only [step, State.getObj, ho, bind, Except.bind, hr, Except.map] at e
      cases e
      exact g.stepped (by split <;> omega) (by omega)
  | MakeShared_EnableSharedFromThis_copy o n m =>
    cases ho : s.objs o with
    | none => simp [step, State.getObj, ho, bind, Except.bind] at e
    | some x =>
      obtain ⟨r, hr, g⟩ := EnableSharedFromThis.MakeShared_esft_grown h copy_T x n m
      simp only [step, State.getObj, ho, bind, Except.bind, hr, Except.map] at e
      cases e
      exact g.stepped (by split <;> omega) (by omega)
  | AllocateShared_copy a o n m =>
    cases ho : s.objs o with
    | none => simp [step, State.getObj, ho, bind, Except.bind] at e
    | some x =>
      obtain ⟨r, hr, g⟩ := AllocateShared_grown h a copy_T x n m (h.copy_T_backref ho)
      simp only [step, State.getObj, ho, bind, Except.bind, hr, Except.map] at e
      cases e
      exact g.stepped (by split <;> omega) (by omega)

theorem run_wellFormed (ops : List Op) : ∀ (s t : State), WellFormed s →
    s.nextSp + ops.length < CounterMod → s.nextWp + ops.length < CounterMod →
    run ops s = .ok t →
    WellFormed t ∧ t.nextSp ≤ s.nextSp + ops.length ∧ t.nextWp ≤ s.nextWp + ops.length := by
  induction ops with
  | nil =>
    intro s t h _ _ e
    cases e
    exact ⟨h, Nat.le_refl _, Nat.le_refl _⟩
  | cons op ops ih =>
    intro s t h hM hW e
    simp only [List.length_cons] at hM hW
    simp only [run] at e
    cases hs : step s op with
    | error f => simp [hs] at e
    | ok s1 =>
      simp only [hs] at e
      obtain ⟨h1, a1, a2, a3, a4, -⟩ := step_stepped h (by omega) (by omega) hs
      obtain ⟨h2, b1, b2⟩ := ih s1 t h1 (by omega) (by omega) e
      simp only [List.length_cons]
      exact ⟨h2, by omega, by omega⟩

/-! ## Claims about runs -/

theorem deletes_mono {l1 l2 : List Event} (h : ∃ l, l2 = l ++ l1) (c : Nat) :
    deletes l1 c ≤ deletes l2 c := by
  obtain ⟨l, rfl⟩ := h
  rw [deletes_append]
  omega

theorem run_append (l1 l2 : List Op) : ∀ s t, run l1 s = .ok t →
    run (l1 ++ l2) s = run l2 t := by
  induction l1 with
  | nil =>
    intro s t e
    cases e
    rfl
  | cons op l1 ih =>
    intro s t e
    simp only [run, List.cons_append] at e ⊢
    cases hs : step s op with
    | error f => simp [hs] at e
    | ok s1 =>
      simp only [hs] at e ⊢
      exact ih s1 t e

theorem run_copies (srcs : List Nat) : ∀ (s : State) (b : IControlBlock),
    (∀ i, i < s.nextSp → s.sp i = some ⟨some 0⟩) → s.blocks 0 = some b →
    b.shared_count_ = s.nextSp →
    (∀ i (h : i < srcs.length), srcs.get ⟨i, h⟩ < s.nextSp + i) →
    s.nextSp + srcs.length < CounterMod →
    ∃ t, run (srcs.map .SharedPtr_ctor_copy) s = .ok t ∧
      t.nextSp = s.nextSp + srcs.length ∧
      (∀ i, i < t.nextSp → t.sp i = some ⟨some 0⟩) ∧
      t.blocks 0 = some { b with shared_count_ := s.nextSp + srcs.length } ∧
      t.log = s.log := by
  induction srcs with
  | nil =>
    intro s b hsp hb hk _ _
    refine ⟨s, rfl, rfl, hsp, ?_, rfl⟩
    rw [hb, ← hk]
    rfl
  | cons o srcs ih =>
    intro s b hsp hb hk hsrc hM
    simp only [List.length_cons] at hM
    have ho : o < s.nextSp := by
      have := hsrc 0 (by simp)
      simpa using this
    have e1 := SharedPtr.ctor_copy_eq s o 0 b (hsp o ho) hb (by rw [hk]; omega)
    have hn : ((s.newSp (some 0)).store 0
        { b with shared_count_ := b.shared_count_ + 1 }).nextSp = s.nextSp + 1 := rfl
    obtain ⟨t, ht, h1, h2, h3, h4⟩ := ih
      ((s.newSp (some 0)).store 0 { b with shared_count_ := b.shared_count_ + 1 })
      { b with shared_count_ := b.shared_count_ + 1 }
      (by
        intro i hi
        rw [hn] at hi
        by_cases e : i = s.nextSp
        · subst e
          simp [State.newSp, State.store]
        · simp only [State.newSp, State.store, Function.update_noteq e]
          exact hsp i (by omega))
      (by simp [State.newSp, State.store])
      (by rw [hn, ← hk])
      (by
        intro i h
        have := hsrc (i + 1) (by simp only [List.length_cons]; omega)
        rw [hn]
        simp only [List.get_eq_getElem, List.getElem_cons_succ] at this ⊢
        omega)
      (by rw [hn]; omega)
    refine ⟨t, ?_, ?_, h2, ?_, h4⟩
    · simp only [List.map_cons, run, step, e1]
      exact ht
    · rw [h1, hn, List.length_cons]
      omega
    · rw [h3, hn, List.length_cons]
      have : s.nextSp + 1 + srcs.length = s.nextSp + (srcs.length + 1) := by omega
      rw [this]

theorem run_drops (ds : List Nat) : ∀ (s : State) (b : IControlBlock),
    ds.Nodup → (∀ d, d ∈ ds → s.sp d = some ⟨some 0⟩) → s.blocks 0 = some b →
    b.weak_count_ = 0 → b.destroyer_ = some b.derived.cls →
    0 < b.shared_count_ → ds.length ≤ b.shared_count_ → b.shared_count_ < CounterMod →
    deletes s.log 0 = 0 →
    ∃ t, run (ds.map .SharedPtr_dtor) s = .ok t ∧
      (ds.length = b.shared_count_ → t.blocks 0 = none ∧ deletes t.log 0 = 1) ∧
      (ds.length < b.shared_count_ →
        t.blocks 0 = some { b with shared_count_ := b.shared_count_ - ds.length } ∧
        deletes t.log 0 = 0) := by
  induction ds with
  | nil =>
    intro s b _ _ hb _ _ h0 _ _ hd
    refine ⟨s, rfl, ?_, ?_⟩
    · intro e
      simp only [List.length_nil] at e
      omega
    · intro _
      exact ⟨by rw [hb]; rfl, hd⟩
  | cons d ds ih =>
    intro s b hnd hsp hb hw hk h0 hle hM hd
    simp only [List.length_cons] at hle
    obtain ⟨t1, ht1, e1, -, -, -, hr⟩ :=
      SharedPtr.dtor_spec s d 0 b (hsp d (List.mem_cons_self d ds)) hb h0 hM hk
    have hnd' := List.nodup_cons.mp hnd
    have hsp1 : ∀ x, x ∈ ds → t1.sp x = some ⟨some 0⟩ := by
      intro x hx
      have hxd : x ≠ d := fun e => hnd'.1 (e ▸ hx)
      rw [e1, Function.update_noteq hxd]
      exact hsp x (List.mem_cons_of_mem d hx)
    have hdel : deletes t1.log 0 = deletes s.log 0 + (if b.shared_count_ = 1 then 1 else 0) := by
      rw [hr.strong_deletes_eq]
      simp
    by_cases h1 : b.shared_count_ = 1
    · have hds : ds = [] := by
        cases ds with
        | nil => rfl
        | cons x xs =>
          simp only [List.length_cons] at hle
          omega
      subst hds
      refine ⟨t1, ?_, ?_, ?_⟩
      · simp only [List.map_cons, List.map_nil, run, step, ht1]
      · intro _
        refine ⟨?_, ?_⟩
        · rw [hr.blocks]
          simp [h1, hw]
        · rw [hdel, hd]
          simp [h1]
      · intro e
        simp only [List.length_cons, List.length_nil] at e
        omega
    · have hb1 : t1.blocks 0 = some { b with shared_count_ := b.shared_count_ - 1 } := by
        rw [hr.blocks]
        simp [h1]
      obtain ⟨t, ht, c1, c2⟩ := ih t1 { b with shared_count_ := b.shared_count_ - 1 }
        hnd'.2 hsp1 hb1 hw hk
        (by show 0 < b.shared_count_ - 1; omega)
        (by show ds.length ≤ b.shared_count_ - 1; omega)
        (by show b.shared_count_ - 1 < CounterMod; omega)
        (by rw [hdel, hd]; simp [h1])
      refine ⟨t, ?_, ?_, ?_⟩
      · simp only [List.map_cons, run, step, ht1]
        exact ht
      · intro e
        simp only [List.length_cons] at e
        exact c1 (by show ds.length = b.shared_count_ - 1; omega)
      · intro e
        simp only [List.length_cons] at e
        obtain ⟨c3, c4⟩ := c2 (by show ds.length < b.shared_count_ - 1; omega)
        refine ⟨?_, c4⟩
        rw [c3]
        show some { b with shared_count_ := b.shared_count_ - 1 - ds.length } = _
        have : b.shared_count_ - 1 - ds.length = b.shared_count_ - (ds.length + 1) := by omega
        rw [this, List.length_cons]

/-- C1: build one `SharedPtr` from a raw pointer (its block is at address 0),
make `N = srcs.length` copies, each from a handle that exists by then, and
destroy the `N + 1` handles in an arbitrary order `drops` (with `N + 1` a
`size_t` value).  After the first `k` destructions, `k ≤ N`, the run has
succeeded, the strong count is `N + 1 - k` and no `Delete()` has been recorded
on the block; after all `N + 1` of them exactly one `Delete()` has been
recorded and the block is gone.  So the single call happens in the last
destruction, the one that finds the strong count at 1. -/
theorem finalize_once_at_last_drop (p : Option Nat) (n : Nat) (srcs drops : List Nat)
    (hsrc : ∀ i (h : i < srcs.length), srcs.get ⟨i, h⟩ ≤ i)
    (hperm : drops.Perm (List.range (srcs.length + 1)))
    (hN : srcs.length + 1 < CounterMod) (k : Nat) (hk : k ≤ srcs.length + 1) :
    ∃ s, run (.SharedPtr_ctor_ptr p n :: (srcs.map .SharedPtr_ctor_copy ++
        (drops.take k).map .SharedPtr_dtor)) State.init = .ok s ∧
      (k < srcs.length + 1 →
        (s.blocks 0).map (fun b => b.shared_count_) = some (srcs.length + 1 - k) ∧
        deletes s.log 0 = 0) ∧
      (k = srcs.length + 1 → s.blocks 0 = none ∧ deletes s.log 0 = 1) := by
  have hlen : drops.length = srcs.length + 1 := by
    rw [hperm.length_eq, List.length_range]
  have hnd : drops.Nodup := hperm.nodup_iff.mpr (List.nodup_range _)
  obtain ⟨t, ht, h1, h2, h3, h4⟩ := run_copies srcs
    (State.init.adopt n (.operator_new n 0)
      (IControlBlock.ctor .ControlBlockWithDeleter (.ControlBlockWithDeleter p .delete)))
    { IControlBlock.ctor .ControlBlockWithDeleter (.ControlBlockWithDeleter p .delete) with
      shared_count_ := 1 }
    (by
      intro i hi
      have : i = 0 := by
        have : i < 1 := hi
        omega
      subst this
      simp [State.adopt, State.init])
    (by simp [State.adopt, State.init])
    rfl
    (by
      intro i h
      have := hsrc i h
      show srcs.get ⟨i, h⟩ < 0 + 1 + i
      omega)
    (by
      show 0 + 1 + srcs.length < CounterMod
      omega)
  have hn : t.nextSp = srcs.length + 1 := by
    rw [h1]
    show 0 + 1 + srcs.length = srcs.length + 1
    omega
  have hcount : (0 : Nat) + 1 + srcs.length = srcs.length + 1 := by omega
  have hts : t.blocks 0 = some
      { IControlBlock.ctor .ControlBlockWithDeleter (.ControlBlockWithDeleter p .delete) with
        shared_count_ := srcs.length + 1 } := by
    rw [h3]
    show some { IControlBlock.ctor .ControlBlockWithDeleter
      (.ControlBlockWithDeleter p .delete) with shared_count_ := 0 + 1 + srcs.length } = _
    rw [hcount]
  have htake : (drops.take k).length = k := by
    rw [List.length_take, hlen]
    omega
  obtain ⟨u, hu, c1, c2⟩ := run_drops (drops.take k) t _
    (hnd.sublist (List.take_sublist k drops))
    (by
      intro d hd
      have hd' : d ∈ List.range (srcs.length + 1) :=
        hperm.mem_iff.mp (List.mem_of_mem_take hd)
      exact h2 d (by rw [hn]; exact List.mem_range.mp hd'))
    hts rfl rfl (Nat.succ_pos _)
    (by rw [htake]; exact hk)
    hN
    (by rw [h4]; simp [State.adopt, State.init, deletes])
  refine ⟨u, ?_, ?_, ?_⟩
  · simp only [run, step, SharedPtr.ctor_ptr_eq]
    exact (run_append _ _ _ t ht).trans hu
  · intro hlt
    obtain ⟨c3, c4⟩ := c2 (by rw [htake]; exact hlt)
    refine ⟨?_, c4⟩
    rw [c3, htake]
    rfl
  · intro he
    exact c1 (by rw [htake]; exact he)

theorem finalize_once_at_last_drop_witness :
    [1, 0].Perm (List.range ([0].length + 1)) ∧
    ∃ s, run (.SharedPtr_ctor_ptr (some 100) 48 :: ([0].map .SharedPtr_ctor_copy ++
        ([1, 0].take 2).map .SharedPtr_dtor)) State.init = .ok s ∧
      ((2 : Nat) = [0].length + 1 → s.blocks 0 = none ∧ deletes s.log 0 = 1) :=
  ⟨by decide,
    let ⟨s, h1, _, h3⟩ := finalize_once_at_last_drop (some 100) 48 [0] [1, 0]
      (by
        intro i h
        have : i = 0 := by
          simp only [List.length_singleton] at h
          omega
        subst this
        exact Nat.le_refl _)
      (by decide) (by decide) 2 (by decide)
    ⟨s, h1, h3⟩⟩

theorem SharedPtr.ctor_copy_log {s t : State} (h : WellFormed s)
    (hM : s.nextSp + 1 < CounterMod) {o : Nat} (e : SharedPtr.ctor_copy s o = .ok t) :
    t.log = s.log := by
  cases hsp : s.sp o with
  | none => simp [SharedPtr.ctor_copy, State.getSp, hsp, bind, Except.bind] at e
  | some x =>
    obtain ⟨cb⟩ := x
    cases cb with
    | none =>
      rw [SharedPtr.ctor_copy_null s o hsp] at e
      cases e
      rfl
    | some c =>
      obtain ⟨b, hb, h0, hle, -, -⟩ := h.live_of_ref hsp
      rw [SharedPtr.ctor_copy_eq s o c b hsp hb (by omega)] at e
      cases e
      rfl

theorem SharedPtr.ctor_move_log {s t : State} {o : Nat}
    (e : SharedPtr.ctor_move s o = .ok t) : t.log = s.log := by
  cases hsp : s.sp o with
  | none => simp [SharedPtr.ctor_move, State.getSp, hsp, bind, Except.bind] at e
  | some x =>
    obtain ⟨cb⟩ := x
    rw [SharedPtr.ctor_move_eq s o cb hsp] at e
    cases e
    rfl

theorem WeakPtr.weak_ctor_copy_log {s t : State} (h : WellFormed s)
    (hM : s.nextWp + 1 < CounterMod) {o : Nat} (e : WeakPtr.ctor_copy s o = .ok t) :
    t.log = s.log := by
  cases hwp : s.wp o with
  | none => simp [WeakPtr.ctor_copy, State.getWp, hwp, bind, Except.bind] at e
  | some x =>
    obtain ⟨cb⟩ := x
    cases cb with
    | none =>
      rw [WeakPtr.weak_ctor_copy_null s o hwp] at e
      cases e
      rfl
    | some c =>
      obtain ⟨b, hb, -, -, hle, -⟩ := h.live_of_weak_ref hwp
      rw [WeakPtr.weak_ctor_copy_eq s o c b hwp hb (by omega)] at e
      cases e
      rfl

theorem WeakPtr.ctor_shared_log {s t : State} (h : WellFormed s)
    (hM : s.nextWp + 1 < CounterMod) {o : Nat} (e : WeakPtr.ctor_shared s o = .ok t) :
    t.log = s.log := by
  cases hsp : s.sp o with
  | none => simp [WeakPtr.ctor_shared, State.getSp, hsp, bind, Except.bind] at e
  | some x =>
    obtain ⟨cb⟩ := x
    cases cb with
    | none =>
      rw [WeakPtr.ctor_shared_null s o hsp] at e
      cases e
      rfl
    | some c =>
      obtain ⟨b, hb, -, -, hle, -⟩ := h.live_of_ref hsp
      rw [WeakPtr.ctor_shared_eq s o c b hsp hb (by omega)] at e
      cases e
      rfl

theorem WeakPtr.weak_ctor_move_log {s t : State} {o : Nat}
    (e : WeakPtr.ctor_move s o = .ok t) : t.log = s.log := by
  cases hwp : s.wp o with
  | none => simp [WeakPtr.ctor_move, State.getWp, hwp, bind, Except.bind] at e
  | some x =>
    obtain ⟨cb⟩ := x
    rw [WeakPtr.weak_ctor_move_eq s o cb hwp] at e
    cases e
    rfl

theorem SharedPtr.dtor_reclaims {s t : State} (h : WellFormed s) (hM : s.nextSp < CounterMod)
    {i : Nat} (e : SharedPtr.dtor s i = .ok t) (c : Nat) :
    (reclaims t.log c = reclaims s.log c + 1 ↔
      ∃ b, s.sp i = some ⟨some c⟩ ∧ s.blocks c = some b ∧
        b.shared_count_ = 1 ∧ b.weak_count_ = 0) ∧
    (reclaims t.log c = reclaims s.log c ∨ reclaims t.log c = reclaims s.log c + 1) := by
  cases hsp : s.sp i with
  | none => simp [SharedPtr.dtor, State.getSp, hsp, bind, Except.bind] at e
  | some x =>
    obtain ⟨cb⟩ := x
    cases cb with
    | none =>
      rw [SharedPtr.dtor_null s i hsp] at e
      cases e
      refine ⟨⟨fun x => ?_, fun ⟨b, x, _⟩ => by cases x⟩, Or.inl rfl⟩
      have : reclaims s.log c = reclaims s.log c + 1 := x
      omega
    | some c0 =>
      obtain ⟨b, hb, h0, hle, -, hd⟩ := h.live_of_ref hsp
      obtain ⟨t', ht', -, -, -, -, hr⟩ :=
        SharedPtr.dtor_spec s i c0 b hsp hb h0 (by omega) hd
      rw [ht'] at e
      cases e
      have hrec := hr.strong_reclaims_eq c
      by_cases hz : (b.shared_count_ = 1 ∧ b.weak_count_ = 0) ∧ c = c0
      · simp only [hz, and_self, if_true] at hrec
        obtain ⟨hz1, hz2⟩ := hz
        subst hz2
        exact ⟨⟨fun _ => ⟨b, rfl, hb, hz1.1, hz1.2⟩, fun _ => hrec⟩, Or.inr hrec⟩
      · simp only [hz, if_false, Nat.add_zero] at hrec
        refine ⟨⟨fun x => by omega, fun ⟨b', x, hb', h1, h2⟩ => ?_⟩, Or.inl hrec⟩
        exfalso
        apply hz
        cases x
        rw [hb] at hb'
        cases hb'
        exact ⟨⟨h1, h2⟩, rfl⟩

theorem WeakPtr.weak_dtor_reclaims {s t : State} (h : WellFormed s)
    (hM : s.nextWp < CounterMod) {i : Nat} (e : WeakPtr.dtor s i = .ok t) (c : Nat) :
    (reclaims t.log c = reclaims s.log c + 1 ↔
      ∃ b, s.wp i = some ⟨some c⟩ ∧ s.blocks c = some b ∧
        b.shared_count_ = 0 ∧ b.weak_count_ = 1) ∧
    (reclaims t.log c = reclaims s.log c ∨ reclaims t.log c = reclaims s.log c + 1) := by
  cases hwp : s.wp i with
  | none => simp [WeakPtr.dtor, State.getWp, hwp, bind, Except.bind] at e
  | some x =>
    obtain ⟨cb⟩ := x
    cases cb with
    | none =>
      rw [WeakPtr.weak_dtor_null s i hwp] at e
      cases e
      refine ⟨⟨fun x => ?_, fun ⟨b, x, _⟩ => by cases x⟩, Or.inl rfl⟩
      have : reclaims s.log c = reclaims s.log c + 1 := x
      omega
    | some c0 =>
      obtain ⟨b, hb, h0, -, hle, hd⟩ := h.live_of_weak_ref hwp
      obtain ⟨t', ht', -, -, -, -, hr⟩ :=
        WeakPtr.weak_dtor_spec s i c0 b hwp hb h0 (by omega) hd
      rw [ht'] at e
      cases e
      have hrec := hr.weak_reclaims_eq c
      by_cases hz : (b.weak_count_ = 1 ∧ b.shared_count_ = 0) ∧ c = c0
      · simp only [hz, and_self, if_true] at hrec
        obtain ⟨hz1, hz2⟩ := hz
        subst hz2
        exact ⟨⟨fun _ => ⟨b, rfl, hb, hz1.2, hz1.1⟩, fun _ => hrec⟩, Or.inr hrec⟩
      · simp only [hz, if_false, Nat.add_zero] at hrec
        refine ⟨⟨fun x => by omega, fun ⟨b', x, hb', h1, h2⟩ => ?_⟩, Or.inl hrec⟩
        exfalso
        apply hz
        cases x
        rw [hb] at hb'
        cases hb'
        exact ⟨⟨h2, h1⟩, rfl⟩

/-! ## The reclamation hook, `shared_from_this` and `reset` -/

/-- C17: `GetDestroyer` is one-shot.  A block as its constructor leaves it
stores the reclamation procedure it was given.  On every block the call
returns the stored hook and leaves none stored, so each of any number of later
calls returns null; the four counter operations do not touch the stored hook,
and `GetDestroyer` changes neither counter nor the data of the derived class. -/
theorem detail.IControlBlock.GetDestroyer_one_shot (f : DestroyerType) (d : Derived)
    (b : IControlBlock) (k : Nat) :
    (IControlBlock.ctor f d).GetDestroyer.1 = some f ∧
    b.GetDestroyer.1 = b.destroyer_ ∧
    b.GetDestroyer.2.destroyer_ = none ∧
    ((fun x : IControlBlock => x.GetDestroyer.2)^[k + 1] b).GetDestroyer.1 = none ∧
    b.IncShared.destroyer_ = b.destroyer_ ∧ b.IncWeak.destroyer_ = b.destroyer_ ∧
    b.DecShared.destroyer_ = b.destroyer_ ∧ b.DecWeak.destroyer_ = b.destroyer_ ∧
    ((fun x : IControlBlock => x.GetDestroyer.2)^[k] b).shared_count_ = b.shared_count_ ∧
    ((fun x : IControlBlock => x.GetDestroyer.2)^[k] b).weak_count_ = b.weak_count_ ∧
    ((fun x : IControlBlock => x.GetDestroyer.2)^[k] b).derived = b.derived := by
  have hk : ∀ k : Nat, ((fun x : IControlBlock => x.GetDestroyer.2)^[k] b).shared_count_ =
        b.shared_count_ ∧
      ((fun x : IControlBlock => x.GetDestroyer.2)^[k] b).weak_count_ = b.weak_count_ ∧
      ((fun x : IControlBlock => x.GetDestroyer.2)^[k] b).derived = b.derived := by
    intro k
    induction k with
    | zero => exact ⟨rfl, rfl, rfl⟩
    | succ k ih =>
      rw [Function.iterate_succ_apply']
      exact ih
  have h1 : (IControlBlock.ctor f d).GetDestroyer.1 = some f := rfl
  have h2 : b.GetDestroyer.1 = b.destroyer_ := rfl
  have h3 : b.GetDestroyer.2.destroyer_ = none := rfl
  have h4 : ((fun x : IControlBlock => x.GetDestroyer.2)^[k + 1] b).GetDestroyer.1 = none := by
    rw [Function.iterate_succ_apply']
    generalize (fun x : IControlBlock => x.GetDestroyer.2)^[k] b = y
    rfl
  have h5 : b.IncShared.destroyer_ = b.destroyer_ := rfl
  have h6 : b.IncWeak.destroyer_ = b.destroyer_ := rfl
  have h7 : b.DecShared.destroyer_ = b.destroyer_ := by
    unfold IControlBlock.DecShared
    rfl
  have h8 : b.DecWeak.destroyer_ = b.destroyer_ := by
    unfold IControlBlock.DecWeak
    rfl
  exact ⟨h1, h2, h3, h4, h5, h6, h7, h8, hk k⟩

/-- C14: for a type derived from `EnableSharedFromThis<T>` whose constructor
succeeds on `args`, `A = MakeShared<T>(args)` (in any state `s`; `A` is the
object `nextSp`, the block is at `brk`) returns with `A.use_count() == 1` and
the member `control_block_` of the value pointing to the block of `A`; a
following `shared_from_this()` on the value throws nothing and returns a handle
(the next object) on the same block as `A`, after which both handles report
`use_count() == 2`. -/
theorem EnableSharedFromThis.MakeShared_shared_from_this {Args : Type} (s : State)
    (T : Args → Option Object) (args : Args) (v : Object) (hv : T args = some v) (n m : Nat) :
    ∃ t, EnableSharedFromThis.MakeShared s T args n m = .ok (none, t) ∧
      t.sp s.nextSp = some ⟨some s.brk⟩ ∧
      SharedPtr.use_count t s.nextSp = .ok 1 ∧
      t.objs (s.brk + m) = some ⟨v.value, some s.brk⟩ ∧
      ∃ u, EnableSharedFromThis.shared_from_this t (s.brk + m) = .ok (none, u) ∧
        u.sp s.nextSp = some ⟨some s.brk⟩ ∧
        u.sp (s.nextSp + 1) = some ⟨some s.brk⟩ ∧
        SharedPtr.use_count u s.nextSp = .ok 2 ∧
        SharedPtr.use_count u (s.nextSp + 1) = .ok 2 := by
  refine ⟨_, EnableSharedFromThis.MakeShared_esft_eq s T args v hv n m, ?_, ?_, ?_, ?_⟩
  · simp [State.adopt, State.construct]
  · simp [SharedPtr.use_count, State.getSp, State.read, State.adopt, State.construct, bind,
      Except.bind, pure, Except.pure, IControlBlock.SharedCount]
  · simp [State.adopt, State.construct]
  · have h2 : (1 : Nat) + 1 < CounterMod := by
      unfold CounterMod
      omega
    have e := EnableSharedFromThis.shared_from_this_eq
      ((s.adopt (n + m) (.operator_new (n + m) s.brk)
        (IControlBlock.ctor .ControlBlockWithDeleter
          (.ControlBlockWithDeleter (some (s.brk + m)) .destruct))).construct (s.brk + m)
            { v with control_block_ := some s.brk }) (s.brk + m) s.brk
      { v with control_block_ := some s.brk }
      { IControlBlock.ctor .ControlBlockWithDeleter
          (.ControlBlockWithDeleter (some (s.brk + m)) .destruct) with shared_count_ := 1 }
      (by simp [State.adopt, State.construct]) rfl
      (by simp [State.adopt, State.construct]) h2
    refine ⟨_, e, ?_, ?_, ?_, ?_⟩
    · simp [State.adopt, State.construct, State.newSp, State.store]
    · simp [State.adopt, State.construct, State.newSp, State.store]
    · simp [SharedPtr.use_count, State.getSp, State.read, State.adopt, State.construct, bind,
        Except.bind, pure, Except.pure, IControlBlock.SharedCount, State.newSp, State.store]
    · simp [SharedPtr.use_count, State.getSp, State.read, State.adopt, State.construct, bind,
        Except.bind, pure, Except.pure, IControlBlock.SharedCount, State.newSp, State.store]

theorem EnableSharedFromThis.MakeShared_shared_from_this_witness :
    (fun x : Int => some (⟨x, none⟩ : Object)) 5 = some ⟨5, none⟩ ∧
    ∃ t, EnableSharedFromThis.MakeShared State.init
        (fun x : Int => some (⟨x, none⟩ : Object)) 5 4 48 = .ok (none, t) ∧
      SharedPtr.use_count t 0 = .ok 1 ∧
      ∃ u, EnableSharedFromThis.shared_from_this t 48 = .ok (none, u) ∧
        u.sp 1 = some ⟨some 0⟩ ∧ SharedPtr.use_count u 0 = .ok 2 :=
  ⟨rfl,
    let ⟨t, h1, _, h3, _, u, h5, _, h7, h8, _⟩ :=
      EnableSharedFromThis.MakeShared_shared_from_this State.init
        (fun x : Int => some (⟨x, none⟩ : Object)) 5 ⟨5, none⟩ rfl 4 48
    ⟨t, h1, h3, u, h5, h7, h8⟩⟩

/-! ## A constructor that throws inside `MakeShared` -/

/-- C11 (counterexample): `MakeShared<T>(args)` in the initial state with a
constructor of `T` that throws.  The exception propagates out of both
overloads, and the log then holds the request for the 52-byte region at
address 0 and nothing else: no release request has been issued for it. -/
theorem MakeShared_throw_leaves_region :
    (MakeShared State.init (fun _ : Unit => (none : Option Object)) () 4 48).map
        (fun r => (r.1, r.2.log, releases r.2.log 0)) =
      .ok (some .constructor, [.operator_new 52 0], 0) ∧
    (EnableSharedFromThis.MakeShared State.init (fun _ : Unit => (none : Option Object)) () 4 48).map
        (fun r => (r.1, r.2.log, releases r.2.log 0)) =
      .ok (some .constructor, [.operator_new 52 0], 0) := by
  constructor <;> decide

/-- C11 (amended): when the constructor of `T` throws on `args`, each overload
of `MakeShared` lets the exception propagate from a state in which the region
it reserved (at `brk`) has been requested and not released: the log has gained
the one `::operator new` call and nothing else, so it holds as many release
requests for the region as before.  No control block has been constructed
(the heap is as before, and nothing is recorded as constructed at `brk`), no
managed value and no handle has been created. -/
theorem MakeShared_throw_spec {Args : Type} (s : State) (T : Args → Option Object) (args : Args)
    (hv : T args = none) (n m : Nat) :
    (∃ t, MakeShared s T args n m = .ok (some .constructor, t) ∧
      t.log = .operator_new (n + m) s.brk :: s.log ∧
      releases t.log s.brk = releases s.log s.brk ∧
      requests t.log s.brk = requests s.log s.brk + 1 ∧
      t.blocks = s.blocks ∧ constructs t.log s.brk = constructs s.log s.brk ∧
      t.objs = s.objs ∧ t.sp = s.sp ∧ t.wp = s.wp) ∧
    (∃ t, EnableSharedFromThis.MakeShared s T args n m = .ok (some .constructor, t) ∧
      t.log = .operator_new (n + m) s.brk :: s.log ∧
      releases t.log s.brk = releases s.log s.brk ∧
      requests t.log s.brk = requests s.log s.brk + 1 ∧
      t.blocks = s.blocks ∧ constructs t.log s.brk = constructs s.log s.brk ∧
      t.objs = s.objs ∧ t.sp = s.sp ∧ t.wp = s.wp) := by
  have h1 : releases (.operator_new (n + m) s.brk :: s.log) s.brk = releases s.log s.brk := by
    simp [releases, Event.releaseAt]
  have h2 : requests (.operator_new (n + m) s.brk :: s.log) s.brk =
      requests s.log s.brk + 1 := by
    simp [requests, Event.requestAt]
  have h3 : constructs (.operator_new (n + m) s.brk :: s.log) s.brk =
      constructs s.log s.brk := by
    simp [constructs]
  exact ⟨⟨_, MakeShared_throw s T args hv n m, rfl, h1, h2, rfl, h3, rfl, rfl, rfl⟩,
    ⟨_, EnableSharedFromThis.MakeShared_esft_throw s T args hv n m, rfl, h1, h2, rfl, h3, rfl,
      rfl, rfl⟩⟩

theorem MakeShared_throw_spec_witness :
    (fun _ : Unit => (none : Option Object)) () = none ∧
    ∃ t, MakeShared State.init (fun _ : Unit => (none : Option Object)) () 4 48 =
        .ok (some .constructor, t) ∧
      t.log = [.operator_new (4 + 48) 0] ∧ t.blocks = State.init.blocks :=
  ⟨rfl,
    let ⟨t, h1, h2, _, _, h5, _⟩ :=
      (MakeShared_throw_spec State.init (fun _ : Unit => (none : Option Object)) () rfl 4 48).1
    ⟨t, h1, h2, h5⟩⟩

/-! ## What each operation does to the heap and the log -/

theorem Change.of_store {s t : State} {c : Nat} {b b' : IControlBlock}
    (hb : s.blocks c = some b) (hlog : t.log = s.log) (hbrk : t.brk = s.brk)
    (hblk : t.blocks = Function.update s.blocks c (some b')) (hd : b'.derived = b.derived)
    (hz : (b'.shared_count_ = 0 ↔ b.shared_count_ = 0) ∨
      ∃ p, b.derived = .ControlBlockWithDeleter p .destruct) :
    Change s t := by
  refine .quiet hlog hbrk (fun c' => ?_) (fun c' x x' hx hx' => ?_)
  · rw [hblk]
    by_cases e : c' = c
    · subst e
      simp [hb, hd]
    · rw [Function.update_noteq e]
  · rw [hblk] at hx'
    by_cases e : c' = c
    · subst e
      rw [Function.update_same] at hx'
      rw [hb] at hx
      cases hx
      cases hx'
      exact hz
    · rw [Function.update_noteq e, hx] at hx'
      cases hx'
      exact .inl Iff.rfl

theorem Change.same {s t : State} (hlog : t.log = s.log) (hbrk : t.brk = s.brk)
    (hblk : t.blocks = s.blocks) : Change s t :=
  .quiet hlog hbrk (fun c => by rw [hblk]) (fun c b b' hb hb' => by
    rw [hblk, hb] at hb'
    cases hb'
    exact .inl Iff.rfl)

theorem Change.of_adopt (s : State) (n : Nat) (e : Event) (b0 : IControlBlock)
    (he : e.requestAt = some s.brk) : Change s (s.adopt n e b0) :=
  .adopt e _ he rfl (by show s.brk < s.brk + max n 1; omega) rfl

theorem Change.of_adopt_construct (s : State) (n : Nat) (e : Event) (b0 : IControlBlock)
    (p : Nat) (o : Object) (he : e.requestAt = some s.brk) :
    Change s ((s.adopt n e b0).construct p o) :=
  .adopt e _ he rfl (by show s.brk < s.brk + max n 1; omega) rfl

theorem SharedPtr.ctor_change {s t : State} (e : SharedPtr.ctor s = .ok t) : Change s t := by
  cases e
  exact Change.same rfl rfl rfl

theorem SharedPtr.ctor_ptr_change {s t : State} {p : Option Nat} {n : Nat}
    (e : SharedPtr.ctor_ptr s p n = .ok t) : Change s t := by
  rw [SharedPtr.ctor_ptr_eq] at e
  cases e
  exact Change.of_adopt s n _ _ rfl

theorem SharedPtr.ctor_ptr_deleter_change {s t : State} {p : Option Nat} {d : Deleter}
    {n : Nat} (e : SharedPtr.ctor_ptr_deleter s p d n = .ok t) : Change s t := by
  rw [SharedPtr.ctor_ptr_deleter_eq] at e
  cases e
  exact Change.of_adopt s n _ _ rfl

theorem SharedPtr.ctor_ptr_deleter_alloc_change {s t : State} {p : Option Nat} {d : Deleter}
    {a n : Nat} (e : SharedPtr.ctor_ptr_deleter_alloc s p d a n = .ok t) : Change s t := by
  rw [SharedPtr.ctor_ptr_deleter_alloc_eq] at e
  cases e
  exact Change.of_adopt s n _ _ rfl

theorem SharedPtr.ctor_copy_change {s t : State} (h : WellFormed s)
    (hM : s.nextSp + 1 < CounterMod) {o : Nat} (e : SharedPtr.ctor_copy s o = .ok t) :
    Change s t := by
  cases hsp : s.sp o with
  | none => simp [SharedPtr.ctor_copy, State.getSp, hsp, bind, Except.bind] at e
  | some x =>
    obtain ⟨cb⟩ := x
    cases cb with
    | none =>
      rw [SharedPtr.ctor_copy_null s o hsp] at e
      cases e
      exact Change.same rfl rfl rfl
    | some c =>
      obtain ⟨b, hb, h0, hle, -, -⟩ := h.live_of_ref hsp
      rw [SharedPtr.ctor_copy_eq s o c b hsp hb (by omega)] at e
      cases e
      exact Change.of_store hb rfl rfl rfl rfl
        (.inl ⟨fun h1 => absurd h1 (Nat.succ_ne_zero _), fun h1 => by omega⟩)

theorem SharedPtr.ctor_move_change {s t : State} {o : Nat}
    (e : SharedPtr.ctor_move s o = .ok t) : Change s t := by
  cases hsp : s.sp o with
  | none => simp [SharedPtr.ctor_move, State.getSp, hsp, bind, Except.bind] at e
  | some x =>
    obtain ⟨cb⟩ := x
    rw [SharedPtr.ctor_move_eq s o cb hsp] at e
    cases e
    exact Change.same rfl rfl rfl

theorem SharedPtr.swap_change {s t : State} {a b : Nat}
    (e : SharedPtr.swap s a b = .ok t) : Change s t := by
  cases ha : s.sp a with
  | none => simp [SharedPtr.swap, State.getSp, ha, bind, Except.bind] at e
  | some x =>
    obtain ⟨ca⟩ := x
    cases hb : s.sp b with
    | none => simp [SharedPtr.swap, State.getSp, ha, hb, bind, Except.bind] at e
    | some y =>
      obtain ⟨cb⟩ := y
      rw [SharedPtr.swap_eq s a b ca cb ha hb] at e
      cases e
      exact Change.same rfl rfl rfl

theorem SharedPtr.dtor_change {s t : State} (h : WellFormed s) (hM : s.nextSp < CounterMod)
    {i : Nat} (e : SharedPtr.dtor s i = .ok t) : Change s t := by
  cases hsp : s.sp i with
  | none => simp [SharedPtr.dtor, State.getSp, hsp, bind, Except.bind] at e
  | some x =>
    obtain ⟨cb⟩ := x
    cases cb with
    | none =>
      rw [SharedPtr.dtor_null s i hsp] at e
      cases e
      exact Change.same rfl rfl rfl
    | some c =>
      obtain ⟨b, hb, h0, hle, -, hd⟩ := h.live_of_ref hsp
      obtain ⟨t', ht', -, -, -, -, hr⟩ :=
        SharedPtr.dtor_spec s i c b hsp hb h0 (by omega) hd
      rw [ht'] at e
      cases e
      exact .strong c b hb hr

theorem WeakPtr.weak_ctor_change {s t : State} (e : WeakPtr.ctor s = .ok t) : Change s t := by
  cases e
  exact Change.same rfl rfl rfl

theorem WeakPtr.weak_ctor_copy_change {s t : State} (h : WellFormed s)
    (hM : s.nextWp + 1 < CounterMod) {o : Nat} (e : WeakPtr.ctor_copy s o = .ok t) :
    Change s t := by
  cases hwp : s.wp o with
  | none => simp [WeakPtr.ctor_copy, State.getWp, hwp, bind, Except.bind] at e
  | some x =>
    obtain ⟨cb⟩ := x
    cases cb with
    | none =>
      rw [WeakPtr.weak_ctor_copy_null s o hwp] at e
      cases e
      exact Change.same rfl rfl rfl
    | some c =>
      obtain ⟨b, hb, -, -, hle, -⟩ := h.live_of_weak_ref hwp
      rw [WeakPtr.weak_ctor_copy_eq s o c b hwp hb (by omega)] at e
      cases e
      exact Change.of_store hb rfl rfl rfl rfl (.inl Iff.rfl)

theorem WeakPtr.ctor_shared_change {s t : State} (h : WellFormed s)
    (hM : s.nextWp + 1 < CounterMod) {o : Nat} (e : WeakPtr.ctor_shared s o = .ok t) :
    Change s t := by
  cases hsp : s.sp o with
  | none => simp [WeakPtr.ctor_shared, State.getSp, hsp, bind, Except.bind] at e
  | some x =>
    obtain ⟨cb⟩ := x
    cases cb with
    | none =>
      rw [WeakPtr.ctor_shared_null s o hsp] at e
      cases e
      exact Change.same rfl rfl rfl
    | some c =>
      obtain ⟨b, hb, -, -, hle, -⟩ := h.live_of_ref hsp
      rw [WeakPtr.ctor_shared_eq s o c b hsp hb (by omega)] at e
      cases e
      exact Change.of_store hb rfl rfl rfl rfl (.inl Iff.rfl)

theorem WeakPtr.weak_ctor_move_change {s t : State} {o : Nat}
    (e : WeakPtr.ctor_move s o = .ok t) : Change s t := by
  cases hwp : s.wp o with
  | none => simp [WeakPtr.ctor_move, State.getWp, hwp, bind, Except.bind] at e
  | some x =>
    obtain ⟨cb⟩ := x
    rw [WeakPtr.weak_ctor_move_eq s o cb hwp] at e
    cases e
    exact Change.same rfl rfl rfl

theorem WeakPtr.weak_swap_change {s t : State} {a b : Nat}
    (e : WeakPtr.swap s a b = .ok t) : Change s t := by
  cases ha : s.wp a with
  | none => simp [WeakPtr.swap, State.getWp, ha, bind, Except.bind] at e
  | some x =>
    obtain ⟨ca⟩ := x
    cases hb : s.wp b with
    | none => simp [WeakPtr.swap, State.getWp, ha, hb, bind, Except.bind] at e
    | some y =>
      obtain ⟨cb⟩ := y
      rw [WeakPtr.weak_swap_eq s a b ca cb ha hb] at e
      cases e
      exact Change.same rfl rfl rfl

theorem WeakPtr.weak_dtor_change {s t : State} (h : WellFormed s) (hM : s.nextWp < CounterMod)
    {i : Nat} (e : WeakPtr.dtor s i = .ok t) : Change s t := by
  cases hwp : s.wp i with
  | none => simp [WeakPtr.dtor, State.getWp, hwp, bind, Except.bind] at e
  | some x =>
    obtain ⟨cb⟩ := x
    cases cb with
    | none =>
      rw [WeakPtr.weak_dtor_null s i hwp] at e
      cases e
      exact Change.same rfl rfl rfl
    | some c =>
      obtain ⟨b, hb, h0, -, hle, hd⟩ := h.live_of_weak_ref hwp
      obtain ⟨t', ht', -, -, -, -, hr⟩ :=
        WeakPtr.weak_dtor_spec s i c b hwp hb h0 (by omega) hd
      rw [ht'] at e
      cases e
      exact .weak c b hb hr

theorem WeakPtr.lock_change {s t : State} (h : WellFormed s) (hM : s.nextSp + 1 < CounterMod)
    {w : Nat} (e : WeakPtr.lock s w = .ok t) : Change s t := by
  cases hwp : s.wp w with
  | none => simp [WeakPtr.lock, State.getWp, hwp, bind, Except.bind] at e
  | some x =>
    obtain ⟨cb⟩ := x
    cases cb with
    | none =>
      simp [WeakPtr.lock, WeakPtr.expired, WeakPtr.use_count, State.getWp, hwp, bind,
        Except.bind, State.read] at e
    | some c =>
      obtain ⟨b, hb, -, hle, -, -⟩ := h.live_of_weak_ref hwp
      by_cases hk : b.shared_count_ = 0
      · rw [WeakPtr.lock_expired_eq s w c b hwp hb hk] at e
        cases e
      · rw [WeakPtr.lock_eq s w c b hwp hb (by omega) (by omega)] at e
        cases e
        exact Change.of_store hb rfl rfl rfl rfl
          (.inl ⟨fun h1 => absurd h1 (Nat.succ_ne_zero _), fun h1 => absurd h1 hk⟩)

theorem Change.of_request (s : State) (k : Nat) (e : Event) (he : e.requestAt = some s.brk) :
    Change s { s with brk := s.brk + max k 1, log := e :: s.log } :=
  .request e he rfl (by show s.brk < s.brk + max k 1; omega) rfl

theorem new_T_change {Args : Type} (s : State) (T : Args → Option Object) (args : Args)
    (n : Nat) : ∃ r, new_T s T args n = .ok r ∧ Change s r.2 := by
  cases hv : T args with
  | none => exact ⟨_, new_T_throw s T args hv n, Change.of_request s n _ rfl⟩
  | some x =>
    exact ⟨_, new_T_eq s T args x hv n, .request (.operator_new n s.brk) rfl rfl
      (by show s.brk < s.brk + max n 1; omega) rfl⟩

theorem MakeShared_change {Args : Type} (s : State) (T : Args → Option Object) (args : Args)
    (n m : Nat) : ∃ r, MakeShared s T args n m = .ok r ∧ Change s r.2 := by
  cases hv : T args with
  | none => exact ⟨_, MakeShared_throw s T args hv n m, Change.of_request s (n + m) _ rfl⟩
  | some x =>
    exact ⟨_, MakeShared_eq s T args x hv n m, Change.of_adopt_construct s _ _ _ _ _ rfl⟩

theorem AllocateShared_change {Args : Type} (s : State) (a : Nat) (T : Args → Option Object)
    (args : Args) (n m : Nat) :
    ∃ r, AllocateShared s a T args n m = .ok r ∧ Change s r.2 := by
  cases hv : T args with
  | none =>
    exact ⟨_, AllocateShared_throw s a T args hv n m, Change.of_request s (n + m) _ rfl⟩
  | some x =>
    exact ⟨_, AllocateShared_eq s a T args x hv n m,
      Change.of_adopt_construct s _ _ _ _ _ rfl⟩

theorem EnableSharedFromThis.MakeShared_esft_change {Args : Type} (s : State)
    (T : Args → Option Object) (args : Args) (n m : Nat) :
    ∃ r, EnableSharedFromThis.MakeShared s T args n m = .ok r ∧ Change s r.2 := by
  cases hv : T args with
  | none =>
    exact ⟨_, EnableSharedFromThis.MakeShared_esft_throw s T args hv n m,
      Change.of_request s (n + m) _ rfl⟩
  | some x =>
    exact ⟨_, EnableSharedFromThis.MakeShared_esft_eq s T args x hv n m,
      Change.of_adopt_construct s _ _ _ _ _ rfl⟩

theorem EnableSharedFromThis.shared_from_this_change {s : State} (h : WellFormed s)
    (hM : s.nextSp + 1 < CounterMod) {o : Nat} {r : Option Exn × State}
    (e : EnableSharedFromThis.shared_from_this s o = .ok r) : Change s r.2 := by
  cases ho : s.objs o with
  | none => simp [EnableSharedFromThis.shared_from_this, ho] at e
  | some ob =>
    cases hc : ob.control_block_ with
    | none =>
      rw [EnableSharedFromThis.shared_from_this_throw s o ob ho hc] at e
      cases e
      exact Change.same rfl rfl rfl
    | some c =>
      cases hb : s.blocks c with
      | none =>
        rw [EnableSharedFromThis.shared_from_this_dangling s o c ob ho hc hb] at e
        cases e
      | some b =>
        have hle : b.shared_count_ ≤ s.nextSp := by
          rw [(h.live c b hb).shared]
          exact countUpTo_le _ _
        rw [EnableSharedFromThis.shared_from_this_eq s o c ob b ho hc hb (by omega)] at e
        cases e
        exact Change.of_store hb rfl rfl rfl rfl (.inr ((h.backref o ob c ho hc).2 b hb))

/-! ## Properties kept by every `Change` are kept by every operation -/

theorem SharedPtr.assign_copy_preserves (P : State → Prop)
    (hP : ∀ s t, WellFormed s → Change s t → P s → P t) {s t : State} (h : WellFormed s)
    (hM : s.nextSp + 1 < CounterMod) {a b : Nat} (e : SharedPtr.assign_copy s a b = .ok t)
    (hs : P s) : P t := by
  simp only [SharedPtr.assign_copy, bind] at e
  obtain ⟨_, -, e⟩ := Except.bind_ok_inv e
  obtain ⟨_, -, e⟩ := Except.bind_ok_inv e
  split at e
  · cases e
    exact hs
  · obtain ⟨s1, e1, e⟩ := Except.bind_ok_inv e
    obtain ⟨s2, e2, e3⟩ := Except.bind_ok_inv e
    have g1 := SharedPtr.ctor_copy_grown h hM e1
    have g2 := SharedPtr.swap_grown g1.1 e2
    exact hP _ _ g2.1 (SharedPtr.dtor_change g2.1 (by rw [g2.2.1, g1.2.1]; omega) e3)
      (hP _ _ g1.1 (SharedPtr.swap_change e2) (hP _ _ h (SharedPtr.ctor_copy_change h hM e1) hs))

theorem SharedPtr.assign_move_preserves (P : State → Prop)
    (hP : ∀ s t, WellFormed s → Change s t → P s → P t) {s t : State} (h : WellFormed s)
    (hM : s.nextSp + 1 < CounterMod) {a b : Nat} (e : SharedPtr.assign_move s a b = .ok t)
    (hs : P s) : P t := by
  simp only [SharedPtr.assign_move, bind] at e
  obtain ⟨_, -, e⟩ := Except.bind_ok_inv e
  obtain ⟨_, -, e⟩ := Except.bind_ok_inv e
  split at e
  · cases e
    exact hs
  · obtain ⟨s1, e1, e⟩ := Except.bind_ok_inv e
    obtain ⟨s2, e2, e3⟩ := Except.bind_ok_inv e
    have g1 := SharedPtr.ctor_move_grown h e1
    have g2 := SharedPtr.swap_grown g1.1 e2
    exact hP _ _ g2.1 (SharedPtr.dtor_change g2.1 (by rw [g2.2.1, g1.2.1]; omega) e3)
      (hP _ _ g1.1 (SharedPtr.swap_change e2) (hP _ _ h (SharedPtr.ctor_move_change e1) hs))

theorem SharedPtr.reset_preserves (P : State → Prop)
    (hP : ∀ s t, WellFormed s → Change s t → P s → P t) {s t : State} (h : WellFormed s)
    (hM : s.nextSp + 1 < CounterMod) {a : Nat} (e : SharedPtr.reset s a = .ok t)
    (hs : P s) : P t := by
  simp only [SharedPtr.reset, bind] at e
  obtain ⟨s1, e1, e⟩ := Except.bind_ok_inv e
  obtain ⟨s2, e2, e3⟩ := Except.bind_ok_inv e
  have g1 := SharedPtr.ctor_grown h e1
  have g2 := SharedPtr.swap_grown g1.1 e2
  exact hP _ _ g2.1 (SharedPtr.dtor_change g2.1 (by rw [g2.2.1, g1.2.1]; omega) e3)
    (hP _ _ g1.1 (SharedPtr.swap_change e2) (hP _ _ h (SharedPtr.ctor_change e1) hs))

theorem SharedPtr.reset_ptr_preserves (P : State → Prop)
    (hP : ∀ s t, WellFormed s → Change s t → P s → P t) {s t : State} (h : WellFormed s)
    (hM : s.nextSp + 1 < CounterMod) {a : Nat} {p : Option Nat} {n : Nat}
    (e : SharedPtr.reset_ptr s a p n = .ok t) (hs : P s) : P t := by
  simp only [SharedPtr.reset_ptr, bind] at e
  obtain ⟨s1, e1, e⟩ := Except.bind_ok_inv e
  obtain ⟨s2, e2, e3⟩ := Except.bind_ok_inv e
  have g1 := SharedPtr.ctor_ptr_grown h e1
  have g2 := SharedPtr.swap_grown g1.1 e2
  exact hP _ _ g2.1 (SharedPtr.dtor_change g2.1 (by rw [g2.2.1, g1.2.1]; omega) e3)
    (hP _ _ g1.1 (SharedPtr.swap_change e2) (hP _ _ h (SharedPtr.ctor_ptr_change e1) hs))

theorem WeakPtr.weak_assign_move_preserves (P : State → Prop)
    (hP : ∀ s t, WellFormed s → Change s t → P s → P t) {s t : State} (h : WellFormed s)
    (hM : s.nextWp + 1 < CounterMod) {a b : Nat} (e : WeakPtr.assign_move s a b = .ok t)
    (hs : P s) : P t := by
  simp only [WeakPtr.assign_move, bind] at e
  obtain ⟨_, -, e⟩ := Except.bind_ok_inv e
  obtain ⟨_, -, e⟩ := Except.bind_ok_inv e
  split at e
  · cases e
    exact hs
  · obtain ⟨s1, e1, e⟩ := Except.bind_ok_inv e
    obtain ⟨s2, e2, e3⟩ := Except.bind_ok_inv e
    have g1 := WeakPtr.weak_ctor_move_grown h e1
    have g2 := WeakPtr.weak_swap_grown g1.1 e2
    exact hP _ _ g2.1 (WeakPtr.weak_dtor_change g2.1 (by rw [g2.2.2.1, g1.2.2.1]; omega) e3)
      (hP _ _ g1.1 (WeakPtr.weak_swap_change e2)
        (hP _ _ h (WeakPtr.weak_ctor_move_change e1) hs))

theorem WeakPtr.assign_copy_conv_preserves (P : State → Prop)
    (hP : ∀ s t, WellFormed s → Change s t → P s → P t) {s t : State} (h : WellFormed s)
    (hM : s.nextWp + 1 < CounterMod) {a b : Nat}
    (e : WeakPtr.assign_copy_conv s a b = .ok t) (hs : P s) : P t := by
  simp only [WeakPtr.assign_copy_conv, bind] at e
  obtain ⟨s1, e1, e⟩ := Except.bind_ok_inv e
  obtain ⟨s2, e2, e3⟩ := Except.bind_ok_inv e
  have g1 := WeakPtr.weak_ctor_copy_grown h hM e1
  have g2 := WeakPtr.weak_swap_grown g1.1 e2
  exact hP _ _ g2.1 (WeakPtr.weak_dtor_change g2.1 (by rw [g2.2.2.1, g1.2.2.1]; omega) e3)
    (hP _ _ g1.1 (WeakPtr.weak_swap_change e2)
      (hP _ _ h (WeakPtr.weak_ctor_copy_change h hM e1) hs))

theorem WeakPtr.assign_shared_preserves (P : State → Prop)
    (hP : ∀ s t, WellFormed s → Change s t → P s → P t) {s t : State} (h : WellFormed s)
    (hM : s.nextWp + 1 < CounterMod) {a b : Nat}
    (e : WeakPtr.assign_shared s a b = .ok t) (hs : P s) : P t := by
  simp only [WeakPtr.assign_shared, bind] at e
  obtain ⟨s1, e1, e⟩ := Except.bind_ok_inv e
  obtain ⟨s2, e2, e3⟩ := Except.bind_ok_inv e
  have g1 := WeakPtr.ctor_shared_grown h hM e1
  have g2 := WeakPtr.weak_swap_grown g1.1 e2
  exact hP _ _ g2.1 (WeakPtr.weak_dtor_change g2.1 (by rw [g2.2.2.1, g1.2.2.1]; omega) e3)
    (hP _ _ g1.1 (WeakPtr.weak_swap_change e2)
      (hP _ _ h (WeakPtr.ctor_shared_change h hM e1) hs))

theorem step_preserves (P : State → Prop)
    (hP : ∀ s t, WellFormed s → Change s t → P s → P t) {s t : State} (h : WellFormed s)
    (hM : s.nextSp + 1 < CounterMod) (hW : s.nextWp + 1 < CounterMod) {op : Op}
    (e : step s op = .ok t) (hs : P s) : P t := by
  cases op with
  | SharedPtr_ctor => exact hP _ _ h (SharedPtr.ctor_change e) hs
  | SharedPtr_ctor_ptr p n => exact hP _ _ h (SharedPtr.ctor_ptr_change e) hs
  | SharedPtr_ctor_ptr_deleter p d n => exact hP _ _ h (SharedPtr.ctor_ptr_deleter_change e) hs
  | SharedPtr_ctor_ptr_deleter_alloc p d a n =>
    exact hP _ _ h (SharedPtr.ctor_ptr_deleter_alloc_change e) hs
  | SharedPtr_ctor_copy o => exact hP _ _ h (SharedPtr.ctor_copy_change h hM e) hs
  | SharedPtr_ctor_move o => exact hP _ _ h (SharedPtr.ctor_move_change e) hs
  | SharedPtr_dtor i => exact hP _ _ h (SharedPtr.dtor_change h (by omega) e) hs
  | SharedPtr_swap a b => exact hP _ _ h (SharedPtr.swap_change e) hs
  | SharedPtr_assign_copy a b => exact SharedPtr.assign_copy_preserves P hP h hM e hs
  | SharedPtr_assign_move a b => exact SharedPtr.assign_move_preserves P hP h hM e hs
  | SharedPtr_reset a => exact SharedPtr.reset_preserves P hP h hM e hs
  | SharedPtr_reset_ptr a p n => exact SharedPtr.reset_ptr_preserves P hP h hM e hs
  | WeakPtr_ctor => exact hP _ _ h (WeakPtr.weak_ctor_change e) hs
  | WeakPtr_dtor i => exact hP _ _ h (WeakPtr.weak_dtor_change h (by omega) e) hs
  | WeakPtr_ctor_copy o => exact hP _ _ h (WeakPtr.weak_ctor_copy_change h hW e) hs
  | WeakPtr_ctor_move o => exact hP _ _ h (WeakPtr.weak_ctor_move_change e) hs
  | WeakPtr_ctor_shared o => exact hP _ _ h (WeakPtr.ctor_shared_change h hW e) hs
  | WeakPtr_swap a b => exact hP _ _ h (WeakPtr.weak_swap_change e) hs
  | WeakPtr_assign_move a b => exact WeakPtr.weak_assign_move_preserves P hP h hW e hs
  | WeakPtr_assign_copy_conv a b => exact WeakPtr.assign_copy_conv_preserves P hP h hW e hs
  | WeakPtr_assign_shared a b => exact WeakPtr.assign_shared_preserves P hP h hW e hs
  | WeakPtr_lock w => exact hP _ _ h (WeakPtr.lock_change h hM e) hs
  | new_T v n =>
    obtain ⟨r, hr, g⟩ := new_T_change s (plain_T v) () n
    simp only [step, hr, Except.map] at e
    cases e
    exact hP _ _ h g hs
  | MakeShared v n m =>
    obtain ⟨r, hr, g⟩ := MakeShared_change s (plain_T v) () n m
    simp only [step, hr, Except.map] at e
    cases e
    exact hP _ _ h g hs
  | MakeShared_EnableSharedFromThis v n m =>
    obtain ⟨r, hr, g⟩ := EnableSharedFromThis.MakeShared_esft_change s (plain_T v) () n m
    simp only [step, hr, Except.map] at e
    cases e
    exact hP _ _ h g hs
  | AllocateShared a v n m =>
    obtain ⟨r, hr, g⟩ := AllocateShared_change s a (plain_T v) () n m
    simp only [step, hr, Except.map] at e
    cases e
    exact hP _ _ h g hs
  | new_T_copy o n =>
    cases ho : s.getObj o with
    | error f => simp [step, ho, bind, Except.bind] at e
    | ok x =>
      obtain ⟨r, hr, g⟩ := new_T_change s copy_T x n
      simp only [step, ho, bind, Except.bind, hr, Except.map] at e
      cases e
      exact hP _ _ h g hs
  | MakeShared_copy o n m =>
    cases ho : s.getObj o with
    | error f => simp [step, ho, bind, Except.bind] at e
    | ok x =>
      obtain ⟨r, hr, g⟩ := MakeShared_change s copy_T x n m
      simp only [step, ho, bind, Except.bind, hr, Except.map] at e
      cases e
      exact hP _ _ h g hs
  | MakeShared_EnableSharedFromThis_copy o n m =>
    cases ho : s.getObj o with
    | error f => simp [step, ho, bind, Except.bind] at e
    | ok x =>
      obtain ⟨r, hr, g⟩ := EnableSharedFromThis.MakeShared_esft_change s copy_T x n m
      simp only [step, ho, bind, Except.bind, hr, Except.map] at e
      cases e
      exact hP _ _ h g hs
  | AllocateShared_copy a o n m =>
    cases ho : s.getObj o with
    | error f => simp [step, ho, bind, Except.bind] at e
    | ok x =>
      obtain ⟨r, hr, g⟩ := AllocateShared_change s a copy_T x n m
      simp only [step, ho, bind, Except.bind, hr, Except.map] at e
      cases e
      exact hP _ _ h g hs
  | shared_from_this o =>
    cases hr : EnableSharedFromThis.shared_from_this s o with
    | error f => simp [step, hr, Except.map] at e
    | ok r =>
      simp only [step, hr, Except.map] at e
      cases e
      exact hP _ _ h (EnableSharedFromThis.shared_from_this_change h hM hr) hs

theorem run_preserves (P : State → Prop)
    (hP : ∀ s t, WellFormed s → Change s t → P s → P t) (ops : List Op) :
    ∀ (s t : State), WellFormed s →
    s.nextSp + ops.length < CounterMod → s.nextWp + ops.length < CounterMod →
    run ops s = .ok t → P s → P t := by
  induction ops with
  | nil =>
    intro s t _ _ _ e hs
    cases e
    exact hs
  | cons op ops ih =>
    intro s t h hM hW e hs
    simp only [List.length_cons] at hM hW
    simp only [run] at e
    cases hst : step s op with
    | error f => simp [hst] at e
    | ok s1 =>
      simp only [hst] at e
      obtain ⟨h1, a1, a2, a3, a4, -⟩ := step_stepped h (by omega) (by omega) hst
      exact ih s1 t h1 (by omega) (by omega) e (step_preserves P hP h (by omega) (by omega) hst hs)

/-! ## Requests and releases in the log -/

theorem requests_append (l1 l2 : List Event) (c : Nat) :
    requests (l1 ++ l2) c = requests l1 c + requests l2 c := by
  simp [requests, List.countP_append]

theorem releases_append (l1 l2 : List Event) (c : Nat) :
    releases (l1 ++ l2) c = releases l1 c + releases l2 c := by
  simp [releases, List.countP_append]

theorem requests_cons (e : Event) (l : List Event) (c : Nat) :
    requests (e :: l) c = requests l c + if e.requestAt = some c then 1 else 0 := by
  simp [requests, List.countP_cons]

theorem releases_cons (e : Event) (l : List Event) (c : Nat) :
    releases (e :: l) c = releases l c + if e.releaseAt = some c then 1 else 0 := by
  simp [releases, List.countP_cons]

theorem releases_of_request {e : Event} {a : Nat} (he : e.requestAt = some a) :
    e.releaseAt = none := by
  cases e <;> simp [Event.requestAt] at he <;> rfl

theorem reclaimLog_eq (c : Nat) (b : IControlBlock) :
    reclaimLog c b = [releaseEvent c b.derived, .destroyer b.derived.cls c] := by
  unfold reclaimLog releaseEvent
  cases b.derived <;> rfl

theorem releaseEvent_releaseAt (c : Nat) (d : Derived) : (releaseEvent c d).releaseAt = some c := by
  cases d <;> rfl

theorem releaseEvent_requestAt (c : Nat) (d : Derived) : (releaseEvent c d).requestAt = none := by
  cases d <;> rfl

theorem requests_finalizeLog (c : Nat) (b : IControlBlock) (c' : Nat) :
    requests (finalizeLog c b) c' = 0 := by
  unfold finalizeLog
  cases b.derived <;> simp [requests, Event.requestAt]

theorem releases_finalizeLog (c : Nat) (b : IControlBlock) (c' : Nat) :
    releases (finalizeLog c b) c' = 0 := by
  unfold finalizeLog
  cases b.derived <;> simp [releases, Event.releaseAt]

theorem requests_reclaimLog (c : Nat) (b : IControlBlock) (c' : Nat) :
    requests (reclaimLog c b) c' = 0 := by
  rw [reclaimLog_eq, requests_cons, requests_cons, releaseEvent_requestAt]
  simp [requests, Event.requestAt]

theorem releases_reclaimLog (c : Nat) (b : IControlBlock) (c' : Nat) :
    releases (reclaimLog c b) c' = if c = c' then 1 else 0 := by
  rw [reclaimLog_eq, releases_cons, releases_cons, releaseEvent_releaseAt]
  simp [releases, Event.releaseAt]

theorem count_le_requests {e : Event} {c : Nat} (he : e.requestAt = some c) (l : List Event) :
    l.count e ≤ requests l c := by
  unfold requests List.count
  apply List.countP_mono_left
  intro x _ hx
  have : x = e := by simpa using hx
  subst this
  simp [he]

theorem count_le_releases {e : Event} {c : Nat} (he : e.releaseAt = some c) (l : List Event) :
    l.count e ≤ releases l c := by
  unfold releases List.count
  apply List.countP_mono_left
  intro x _ hx
  have : x = e := by simpa using hx
  subst this
  simp [he]

theorem count_finalizeLog_request {e : Event} {a : Nat} (he : e.requestAt = some a) (c : Nat)
    (b : IControlBlock) : (finalizeLog c b).count e = 0 := by
  have := count_le_requests he (finalizeLog c b)
  rw [requests_finalizeLog] at this
  omega

theorem count_reclaimLog_request {e : Event} {a : Nat} (he : e.requestAt = some a) (c : Nat)
    (b : IControlBlock) : (reclaimLog c b).count e = 0 := by
  have := count_le_requests he (reclaimLog c b)
  rw [requests_reclaimLog] at this
  omega

theorem count_finalizeLog_release (c' : Nat) (d : Derived) (c : Nat) (b : IControlBlock) :
    (finalizeLog c b).count (releaseEvent c' d) = 0 := by
  have := count_le_releases (releaseEvent_releaseAt c' d) (finalizeLog c b)
  rw [releases_finalizeLog] at this
  omega

theorem Ledger.release {c : Nat} {e : Event} {d : Derived} (he : e.requestAt = some c)
    {u v : State} (L : Ledger c e d u) {c' : Nat} {b' b'' : IControlBlock} {R : Prop}
    [Decidable R] {X : List Event} (hb : u.blocks c' = some b')
    (hblk : v.blocks = Function.update u.blocks c' (if R then none else some b''))
    (hd : b''.derived = b'.derived) (hlog : v.log = X ++ u.log) (hbrk : v.brk = u.brk)
    (hreq : requests X c = 0) (hrel : releases X c = if R ∧ c' = c then 1 else 0)
    (hcnt : R → X.count (releaseEvent c' b'.derived) = 1) : Ledger c e d v := by
  have hX : X.count e = 0 := by
    have := count_le_requests he X
    omega
  refine ⟨by rw [hbrk]; exact L.below, ?_, ?_, ?_, ?_⟩
  · rw [hlog, requests_append, hreq, L.requested]
  · rw [hlog, List.count_append, hX, L.request]
  · intro b hvb
    rw [hblk] at hvb
    by_cases hc : c = c'
    · subst hc
      rw [Function.update_same] at hvb
      by_cases hR : R
      · simp [hR] at hvb
      · simp only [hR, if_false, Option.some.injEq] at hvb
        subst hvb
        obtain ⟨l1, l2⟩ := L.live b' hb
        refine ⟨hd.trans l1, ?_⟩
        rw [hlog, releases_append, hrel, l2]
        simp [hR]
    · rw [Function.update_noteq hc] at hvb
      obtain ⟨l1, l2⟩ := L.live b hvb
      refine ⟨l1, ?_⟩
      rw [hlog, releases_append, hrel, l2]
      simp [Ne.symm hc]
  · intro hvb
    rw [hblk] at hvb
    by_cases hc : c = c'
    · subst hc
      rw [Function.update_same] at hvb
      by_cases hR : R
      · obtain ⟨l1, l2⟩ := L.live b' hb
        have h0 : u.log.count (releaseEvent c d) = 0 := by
          have := count_le_releases (releaseEvent_releaseAt c d) u.log
          omega
        refine ⟨?_, ?_⟩
        · rw [hlog, releases_append, hrel, l2]
          simp [hR]
        · rw [hlog, List.count_append, h0, ← l1, hcnt hR]
      · simp [hR] at hvb
    · rw [Function.update_noteq hc] at hvb
      obtain ⟨l1, l2⟩ := L.dead hvb
      have hz : releases X c = 0 := by
        rw [hrel]
        simp [Ne.symm hc]
      have h0 : X.count (releaseEvent c d) = 0 := by
        have := count_le_releases (releaseEvent_releaseAt c d) X
        omega
      refine ⟨?_, ?_⟩
      · rw [hlog, releases_append, hz, l1]
      · rw [hlog, List.count_append, h0, l2]

theorem count_reclaimLog_release (c : Nat) (b : IControlBlock) :
    (reclaimLog c b).count (releaseEvent c b.derived) = 1 := by
  rw [reclaimLog_eq]
  have : releaseEvent c b.derived ≠ Event.destroyer b.derived.cls c := by
    cases b.derived <;> simp [releaseEvent]
  simp [List.count_cons, this]

theorem requests_nil (c : Nat) : requests [] c = 0 := rfl

theorem releases_nil (c : Nat) : releases [] c = 0 := rfl

theorem Ledger.change {c : Nat} {e : Event} {d : Derived} (he : e.requestAt = some c)
    {u v : State} (L : Ledger c e d u) (hc : Change u v) : Ledger c e d v := by
  have fresh : ∀ e' : Event, e'.requestAt = some u.brk →
      e'.requestAt ≠ some c ∧ e'.releaseAt ≠ some c ∧ e' ≠ e ∧ e' ≠ releaseEvent c d := by
    intro e' he'
    have hne : u.brk ≠ c := Nat.ne_of_gt L.below
    refine ⟨?_, ?_, ?_, ?_⟩
    · rw [he']
      simpa using hne
    · rw [releases_of_request he']
      simp
    · intro x
      rw [x, he] at he'
      exact hne (Option.some.inj he').symm
    · intro x
      rw [x, releaseEvent_requestAt] at he'
      cases he'
  cases hc with
  | quiet hlog hbrk hblk hzero =>
    refine ⟨by rw [hbrk]; exact L.below, by rw [hlog]; exact L.requested,
      by rw [hlog]; exact L.request, ?_, ?_⟩
    · intro b hvb
      have := hblk c
      rw [hvb] at this
      cases hub : u.blocks c with
      | none => simp [hub] at this
      | some b0 =>
        simp only [hub, Option.map_some', Option.some.injEq] at this
        rw [hlog, this]
        exact L.live b0 hub
    · intro hvb
      have := hblk c
      rw [hvb] at this
      cases hub : u.blocks c with
      | none =>
        rw [hlog]
        exact L.dead hub
      | some b0 => simp [hub] at this
  | request e' he' hlog hbrk hblk =>
    obtain ⟨f1, f2, f3, f4⟩ := fresh e' he'
    refine ⟨Nat.lt_trans L.below hbrk, ?_, ?_, ?_, ?_⟩
    · rw [hlog, requests_cons, L.requested]
      simp [f1]
    · rw [hlog, List.count_cons, L.request]
      simp [f3]
    · intro b hvb
      rw [hblk] at hvb
      rw [hlog, releases_cons]
      simpa [f2] using L.live b hvb
    · intro hvb
      rw [hblk] at hvb
      rw [hlog, releases_cons, List.count_cons]
      simpa [f2, f4] using L.dead hvb
  | adopt e' b he' hlog hbrk hblk =>
    obtain ⟨f1, f2, f3, f4⟩ := fresh e' he'
    have hne : c ≠ u.brk := Nat.ne_of_lt L.below
    have g3 : Event.IControlBlock u.brk ≠ e := by
      intro x
      rw [← x] at he
      cases he
    have g4 : Event.IControlBlock u.brk ≠ releaseEvent c d := by
      cases d <;> simp [releaseEvent]
    refine ⟨Nat.lt_trans L.below hbrk, ?_, ?_, ?_, ?_⟩
    · rw [hlog, requests_cons, requests_cons, L.requested]
      simp [f1, show (Event.IControlBlock u.brk).requestAt = none from rfl]
    · rw [hlog, List.count_cons, List.count_cons, L.request]
      simp [f3, g3]
    · intro b hvb
      rw [hblk, Function.update_noteq hne] at hvb
      rw [hlog, releases_cons, releases_cons]
      simpa [f2, show (Event.IControlBlock u.brk).releaseAt = none from rfl] using L.live b hvb
    · intro hvb
      rw [hblk, Function.update_noteq hne] at hvb
      rw [hlog, releases_cons, releases_cons, List.count_cons, List.count_cons]
      simpa [f2, f4, g4, show (Event.IControlBlock u.brk).releaseAt = none from rfl]
        using L.dead hvb
  | strong c' b' hb hr =>
    refine Ledger.release he L hb hr.blocks rfl hr.log hr.brk ?_ ?_ ?_
    · by_cases h1 : b'.shared_count_ = 1 <;> by_cases h2 : b'.weak_count_ = 0 <;>
        simp [h1, h2, requests_append, requests_finalizeLog, requests_reclaimLog, requests_nil]
    · by_cases h1 : b'.shared_count_ = 1 <;> by_cases h2 : b'.weak_count_ = 0 <;>
        simp [h1, h2, releases_append, releases_finalizeLog, releases_reclaimLog, releases_nil]
    · intro hR
      simp only [hR.1, hR.2, if_true, List.count_append, count_reclaimLog_release,
        count_finalizeLog_release]
  | weak c' b' hb hr =>
    refine Ledger.release he L hb hr.blocks rfl hr.log hr.brk ?_ ?_ ?_
    · by_cases h1 : b'.weak_count_ = 1 ∧ b'.shared_count_ = 0 <;>
        simp [h1, requests_reclaimLog, requests_nil]
    · by_cases h1 : b'.weak_count_ = 1 ∧ b'.shared_count_ = 0 <;>
        simp [h1, releases_reclaimLog, releases_nil]
    · intro hR
      simp only [hR, and_self, if_true, count_reclaimLog_release]

theorem untouched_change {s t : State} (h : WellFormed s) (hc : Change s t)
    (hs : ∀ c, s.brk ≤ c → requests s.log c = 0 ∧ releases s.log c = 0) :
    ∀ c, t.brk ≤ c → requests t.log c = 0 ∧ releases t.log c = 0 := by
  intro c hle
  cases hc with
  | quiet hlog hbrk hblk hzero =>
    rw [hlog]
    exact hs c (by omega)
  | request e' he' hlog hbrk hblk =>
    have hne : s.brk ≠ c := by omega
    have f1 : e'.requestAt ≠ some c := by
      rw [he']
      simpa using hne
    rw [hlog, requests_cons, releases_cons, releases_of_request he']
    simpa [f1] using hs c (by omega)
  | adopt e' b he' hlog hbrk hblk =>
    have hne : s.brk ≠ c := by omega
    have f1 : e'.requestAt ≠ some c := by
      rw [he']
      simpa using hne
    rw [hlog, requests_cons, requests_cons, releases_cons, releases_cons,
      releases_of_request he']
    simpa [f1, show (Event.IControlBlock s.brk).releaseAt = none from rfl,
      show (Event.IControlBlock s.brk).requestAt = none from rfl] using hs c (by omega)
  | strong c' b' hb hr =>
    have hlt := h.lt_brk hb
    have hbrk := hr.brk
    have hne : c' ≠ c := by omega
    obtain ⟨a1, a2⟩ := hs c (by omega)
    rw [hr.log, requests_append, releases_append, a1, a2]
    by_cases h1 : b'.shared_count_ = 1 <;> by_cases h2 : b'.weak_count_ = 0 <;>
      simp [h1, h2, requests_append, requests_finalizeLog, requests_reclaimLog, requests_nil,
        releases_append, releases_finalizeLog, releases_reclaimLog, releases_nil, hne]
  | weak c' b' hb hr =>
    have hlt := h.lt_brk hb
    have hbrk := hr.brk
    have hne : c' ≠ c := by omega
    obtain ⟨a1, a2⟩ := hs c (by omega)
    rw [hr.log, requests_append, releases_append, a1, a2]
    by_cases h1 : b'.weak_count_ = 1 ∧ b'.shared_count_ = 0 <;>
      simp [h1, requests_reclaimLog, requests_nil, releases_reclaimLog, releases_nil, hne]

theorem run_untouched (ops : List Op) (s : State) (hrun : run ops State.init = .ok s)
    (hlen : ops.length + 1 < CounterMod) :
    ∀ c, s.brk ≤ c → requests s.log c = 0 ∧ releases s.log c = 0 := by
  have hi : State.init.nextSp = 0 := rfl
  have hw : State.init.nextWp = 0 := rfl
  exact run_preserves (fun s => ∀ c, s.brk ≤ c → requests s.log c = 0 ∧ releases s.log c = 0)
    (fun s t h hc hs => untouched_change h hc hs) ops State.init s WellFormed.init
    (by rw [hi]; omega) (by rw [hw]; omega) hrun (fun c _ => ⟨rfl, rfl⟩)

theorem Ledger.opened {s t : State} {e : Event} {b : IControlBlock}
    (he : e.requestAt = some s.brk)
    (hs : requests s.log s.brk = 0 ∧ releases s.log s.brk = 0)
    (hlog : t.log = .IControlBlock s.brk :: e :: s.log) (hbrk : s.brk < t.brk)
    (hblk : t.blocks s.brk = some b) : Ledger s.brk e b.derived t := by
  have h0 : s.log.count e = 0 := by
    have := count_le_requests he s.log
    omega
  have g3 : Event.IControlBlock s.brk ≠ e := by
    intro x
    rw [← x] at he
    cases he
  refine ⟨hbrk, ?_, ?_, ?_, ?_⟩
  · rw [hlog, requests_cons, requests_cons, hs.1]
    simp [he, show (Event.IControlBlock s.brk).requestAt = none from rfl]
  · rw [hlog, List.count_cons, List.count_cons, h0]
    simp [g3]
  · intro b' hb'
    rw [hblk] at hb'
    cases hb'
    refine ⟨rfl, ?_⟩
    rw [hlog, releases_cons, releases_cons, hs.2, releases_of_request he]
    simp [show (Event.IControlBlock s.brk).releaseAt = none from rfl]
  · intro hn
    rw [hblk] at hn
    cases hn

theorem Ledger.opened_construct (s : State) (n : Nat) (e : Event) (b0 : IControlBlock)
    (p : Nat) (o : Object) (he : e.requestAt = some s.brk)
    (hs : requests s.log s.brk = 0 ∧ releases s.log s.brk = 0) :
    Ledger s.brk e b0.derived ((s.adopt n e b0).construct p o) := by
  have h : ((s.adopt n e b0).construct p o).blocks s.brk =
      some { b0 with shared_count_ := 1 } := by
    simp [State.adopt, State.construct]
  have L := Ledger.opened he hs rfl (show s.brk < s.brk + max n 1 by omega) h
  exact L

theorem Ledger.opened_state (s : State) (n : Nat) (e : Event) (b0 : IControlBlock)
    (he : e.requestAt = some s.brk)
    (hs : requests s.log s.brk = 0 ∧ releases s.log s.brk = 0) :
    Ledger s.brk e b0.derived (s.adopt n e b0) := by
  have h : (s.adopt n e b0).blocks s.brk = some { b0 with shared_count_ := 1 } := by
    simp [State.adopt]
  have L := Ledger.opened he hs rfl (show s.brk < s.brk + max n 1 by omega) h
  exact L

theorem run_ledger {c : Nat} {e : Event} {d : Derived} (he : e.requestAt = some c)
    (ops : List Op) (s t : State) (h : WellFormed s)
    (hM : s.nextSp + ops.length < CounterMod) (hW : s.nextWp + ops.length < CounterMod)
    (hrun : run ops s = .ok t) (L : Ledger c e d s) : Ledger c e d t :=
  run_preserves (Ledger c e d) (fun _ _ _ hc hs => Ledger.change he hs hc) ops s t h hM hW hrun L

theorem WellFormed.no_refs_dead {s : State} (h : WellFormed s) {c : Nat}
    (hsp : ∀ i, s.sp i ≠ some ⟨some c⟩) (hwp : ∀ i, s.wp i ≠ some ⟨some c⟩) :
    s.blocks c = none := by
  have hs : s.sharedRefs c = 0 := countUpTo_zero_of (fun i _ => by simp [hsp i])
  have hwk : s.weakRefs c = 0 := countUpTo_zero_of (fun i _ => by simp [hwp i])
  cases hb : s.blocks c with
  | none => rfl
  | some b =>
    have l := h.live c b hb
    have := l.pos
    have := l.shared
    have := l.weak
    omega


theorem leaked_change {s t : State} {c : Nat} {e : Event} (he : e.requestAt = some c)
    (hc : Change s t)
    (hs : c < s.brk ∧ s.blocks c = none ∧ requests s.log c = 1 ∧ s.log.count e = 1 ∧
      releases s.log c = 0) :
    c < t.brk ∧ t.blocks c = none ∧ requests t.log c = 1 ∧ t.log.count e = 1 ∧
      releases t.log c = 0 := by
  obtain ⟨hlt, hn, hq, hcnt, hrl⟩ := hs
  have fresh : ∀ e' : Event, e'.requestAt = some s.brk →
      e'.requestAt ≠ some c ∧ e'.releaseAt ≠ some c ∧ e' ≠ e := by
    intro e' he'
    have hne : s.brk ≠ c := Nat.ne_of_gt hlt
    refine ⟨?_, ?_, ?_⟩
    · rw [he']
      simpa using hne
    · rw [releases_of_request he']
      simp
    · intro x
      rw [x, he] at he'
      exact hne (Option.some.inj he').symm
  cases hc with
  | quiet hlog hbrk hblk hzero =>
    refine ⟨by rw [hbrk]; exact hlt, ?_, by rw [hlog]; exact hq, by rw [hlog]; exact hcnt,
      by rw [hlog]; exact hrl⟩
    have := hblk c
    rw [hn] at this
    simpa using this
  | request e' he' hlog hbrk hblk =>
    obtain ⟨f1, f2, f3⟩ := fresh e' he'
    refine ⟨Nat.lt_trans hlt hbrk, by rw [hblk]; exact hn, ?_, ?_, ?_⟩
    · rw [hlog, requests_cons, hq]
      simp [f1]
    · rw [hlog, List.count_cons, hcnt]
      simp [f3]
    · rw [hlog, releases_cons, hrl]
      simp [f2]
  | adopt e' b he' hlog hbrk hblk =>
    obtain ⟨f1, f2, f3⟩ := fresh e' he'
    have hne : c ≠ s.brk := Nat.ne_of_lt hlt
    have g3 : Event.IControlBlock s.brk ≠ e := by
      intro x
      rw [← x] at he
      cases he
    refine ⟨Nat.lt_trans hlt hbrk, by rw [hblk, Function.update_noteq hne]; exact hn,
      ?_, ?_, ?_⟩
    · rw [hlog, requests_cons, requests_cons, hq]
      simp [f1, show (Event.IControlBlock s.brk).requestAt = none from rfl]
    · rw [hlog, List.count_cons, List.count_cons, hcnt]
      simp [f3, g3]
    · rw [hlog, releases_cons, releases_cons, hrl]
      simp [f2, show (Event.IControlBlock s.brk).releaseAt = none from rfl]
  | strong c' b' hb hr =>
    have hne : c' ≠ c := by
      intro x
      rw [x, hn] at hb
      cases hb
    refine ⟨by rw [hr.brk]; exact hlt, by rw [hr.blocks, Function.update_noteq hne.symm]; exact hn,
      ?_, ?_, ?_⟩
    · rw [hr.log, requests_append, hq]
      by_cases h1 : b'.shared_count_ = 1 <;> by_cases h2 : b'.weak_count_ = 0 <;>
        simp [h1, h2, requests_append, requests_finalizeLog, requests_reclaimLog, requests_nil]
    · rw [hr.log, List.count_append, hcnt]
      by_cases h1 : b'.shared_count_ = 1 <;> by_cases h2 : b'.weak_count_ = 0 <;>
        simp [h1, h2, List.count_append, count_finalizeLog_request he,
          count_reclaimLog_request he]
    · rw [hr.log, releases_append, hrl]
      by_cases h1 : b'.shared_count_ = 1 <;> by_cases h2 : b'.weak_count_ = 0 <;>
        simp [h1, h2, releases_append, releases_finalizeLog, releases_reclaimLog, releases_nil,
          hne]
  | weak c' b' hb hr =>
    have hne : c' ≠ c := by
      intro x
      rw [x, hn] at hb
      cases hb
    refine ⟨by rw [hr.brk]; exact hlt, by rw [hr.blocks, Function.update_noteq hne.symm]; exact hn,
      ?_, ?_, ?_⟩
    · rw [hr.log, requests_append, hq]
      by_cases h1 : b'.weak_count_ = 1 ∧ b'.shared_count_ = 0 <;>
        simp [h1, requests_reclaimLog, requests_nil]
    · rw [hr.log, List.count_append, hcnt]
      by_cases h1 : b'.weak_count_ = 1 ∧ b'.shared_count_ = 0 <;>
        simp [h1, count_reclaimLog_request he]
    · rw [hr.log, releases_append, hrl]
      by_cases h1 : b'.weak_count_ = 1 ∧ b'.shared_count_ = 0 <;>
        simp [h1, releases_reclaimLog, releases_nil, hne]

theorem AllocateShared_returns_ledger (ops2 : List Op) (s u : State) (h : WellFormed s)
    (alloc : Nat) (v : Object) (sizeofT sizeofCB : Nat)
    (hob : ∀ c, v.control_block_ = some c → c < s.brk ∧
      ∀ b, s.blocks c = some b → ∃ q, b.derived = .ControlBlockWithDeleter q .destruct)
    (hfr : requests s.log s.brk = 0 ∧ releases s.log s.brk = 0)
    (hM : s.nextSp + 1 + ops2.length < CounterMod) (hW : s.nextWp + ops2.length < CounterMod)
    (hrun : run ops2 ((s.adopt (sizeofT + sizeofCB)
      (.allocate alloc .byte (sizeofT + sizeofCB) s.brk)
      (IControlBlock.ctor .ControlBlockWithAllocator
        (.ControlBlockWithAllocator (some (s.brk + sizeofCB)) alloc
          (sizeofCB + sizeofT)))).construct (s.brk + sizeofCB) v) = .ok u) :
    requests u.log s.brk = 1 ∧
    u.log.count (.allocate alloc .byte (sizeofT + sizeofCB) s.brk) = 1 ∧
    (((∃ i, u.sp i = some ⟨some s.brk⟩) ∨ (∃ i, u.wp i = some ⟨some s.brk⟩)) →
      releases u.log s.brk = 0) ∧
    ((∀ i, u.sp i ≠ some ⟨some s.brk⟩) → (∀ i, u.wp i ≠ some ⟨some s.brk⟩) →
      releases u.log s.brk = 1 ∧
      u.log.count (.deallocate alloc .byte s.brk (sizeofT + sizeofCB)) = 1) := by
  have e1 := AllocateShared_eq s alloc (fun _ : Unit => some v) () v rfl sizeofT sizeofCB
  obtain ⟨r, hr, g⟩ := AllocateShared_grown h alloc (fun _ : Unit => some v) () sizeofT sizeofCB
    (fun o c ho hc => hob c (by cases ho; exact hc))
  rw [e1] at hr
  cases hr
  obtain ⟨ht, hn1, hn2, -⟩ := g
  simp only [if_neg (Option.some_ne_none v)] at hn1
  have L0 := Ledger.opened_construct s (sizeofT + sizeofCB)
    (.allocate alloc .byte (sizeofT + sizeofCB) s.brk)
    (IControlBlock.ctor .ControlBlockWithAllocator
      (.ControlBlockWithAllocator (some (s.brk + sizeofCB)) alloc (sizeofCB + sizeofT)))
    (s.brk + sizeofCB) v rfl hfr
  have Lu := run_ledger
    (show (Event.allocate alloc .byte (sizeofT + sizeofCB) s.brk).requestAt = some s.brk
      from rfl) ops2 _ u ht (by rw [hn1]; omega) (by rw [hn2]; omega) hrun L0
  obtain ⟨hu, -, -⟩ := run_wellFormed ops2 _ u ht (by rw [hn1]; omega) (by rw [hn2]; omega) hrun
  refine ⟨Lu.requested, Lu.request, ?_, ?_⟩
  · rintro (⟨i, hi⟩ | ⟨i, hi⟩)
    · obtain ⟨b, hb, -⟩ := hu.live_of_ref hi
      exact (Lu.live b hb).2
    · obtain ⟨b, hb, -⟩ := hu.live_of_weak_ref hi
      exact (Lu.live b hb).2
  · intro hsp hwp
    have hd := Lu.dead (hu.no_refs_dead hsp hwp)
    refine ⟨hd.1, ?_⟩
    have := hd.2
    simp only [releaseEvent] at this
    rw [Nat.add_comm sizeofT sizeofCB]
    exact this

theorem AllocateShared_throws_ledger (ops2 : List Op) (s u : State) (h : WellFormed s)
    (alloc : Nat) (n : Nat)
    (hfr : requests s.log s.brk = 0 ∧ releases s.log s.brk = 0)
    (hM : s.nextSp + ops2.length < CounterMod) (hW : s.nextWp + ops2.length < CounterMod)
    (hrun : run ops2
      { s with brk := s.brk + max n 1, log := .allocate alloc .byte n s.brk :: s.log } =
        .ok u) :
    requests u.log s.brk = 1 ∧
    u.log.count (.allocate alloc .byte n s.brk) = 1 ∧
    (∀ i, u.sp i ≠ some ⟨some s.brk⟩) ∧ (∀ i, u.wp i ≠ some ⟨some s.brk⟩) ∧
    releases u.log s.brk = 0 := by
  have he : (Event.allocate alloc .byte n s.brk).requestAt = some s.brk :=
    rfl
  have ht : WellFormed
      { s with brk := s.brk + max n 1, log := .allocate alloc .byte n s.brk :: s.log } :=
    h.request (max n 1) rfl
  have h0 : s.log.count (.allocate alloc .byte n s.brk) = 0 := by
    have := count_le_requests he s.log
    omega
  have P := run_preserves (fun x => s.brk < x.brk ∧ x.blocks s.brk = none ∧
      requests x.log s.brk = 1 ∧
      x.log.count (.allocate alloc .byte n s.brk) = 1 ∧
      releases x.log s.brk = 0)
    (fun _ _ _ hc hs => leaked_change he hc hs) ops2 _ u ht hM hW hrun
    ⟨by show s.brk < s.brk + max n 1; omega,
      (h.fresh s.brk (Nat.le_refl _)).1,
      by
        show requests (_ :: s.log) s.brk = 1
        rw [requests_cons, hfr.1]
        simp [he],
      by
        show List.count _ (_ :: s.log) = 1
        rw [List.count_cons, h0]
        simp,
      by
        show releases (_ :: s.log) s.brk = 0
        rw [releases_cons, hfr.2, releases_of_request he]
        simp⟩
  obtain ⟨hu, -, -⟩ := run_wellFormed ops2 _ u ht hM hW hrun
  refine ⟨P.2.2.1, P.2.2.2.1, ?_, ?_, P.2.2.2.2⟩
  · intro i hi
    obtain ⟨b, hb, -⟩ := hu.live_of_ref hi
    rw [P.2.1] at hb
    cases hb
  · intro i hi
    obtain ⟨b, hb, -⟩ := hu.live_of_weak_ref hi
    rw [P.2.1] at hb
    cases hb

/-- C12 (counterexample): `AllocateShared<T>(alloc, args)` with a constructor
of `T` that throws, called in the initial state with allocator `7`,
`sizeof(T) = 4` and a header of 48 bytes.  The exception propagates; the log
holds the one `allocate` request and no release request for the region; no
block and no handle has been created, so there is nothing left whose
destruction could issue the `deallocate`. -/
theorem AllocateShared_throw_keeps_region :
    ∃ t, AllocateShared State.init 7 (plain_T none) () 4 48 = .ok (some .constructor, t) ∧
      t.log = [.allocate 7 .byte (4 + 48) 0] ∧
      requests t.log 0 = 1 ∧ releases t.log 0 = 0 ∧
      t.blocks = State.init.blocks ∧ t.sp = State.init.sp ∧ t.wp = State.init.wp :=
  ⟨_, AllocateShared_throw State.init 7 (plain_T none) () rfl 4 48, rfl, by decide, by decide,
    rfl, rfl, rfl⟩

/-- C12 (amended): a program runs `ops1` from the initial state, then calls
`AllocateShared<T>(alloc, args)` (the operation `op`: with a constructor of
`T` that builds a fresh value or throws, or with the copy constructor applied
to a live value), then runs `ops2` (fewer than `2^64 - 2` operations in all)
and is in state `u`.  The call records exactly one `allocate` request, of
`sizeofT + sizeofCB` bytes on the allocator rebound to bytes; no earlier
request had returned that address, and in `u` that request is still the only
one recorded for the address.  When the constructor returns, the block is
constructed in the returned region and a handle on it is returned; while any
`SharedPtr` or `WeakPtr` references the block no release request has been
recorded for the address, and once none does exactly one has been recorded,
`deallocate` on the same rebound allocator for the same address and the same
byte count.  When the constructor throws (`.AllocateShared alloc none`), no
block and no handle is created, no handle ever references the region, and no
release request is recorded for it in `u`. -/
theorem AllocateShared_one_allocate_one_deallocate (ops1 ops2 : List Op) (s u : State)
    (alloc : Nat) (op : Op) (sizeofT sizeofCB : Nat)
    (hop : (∃ v, op = .AllocateShared alloc v sizeofT sizeofCB) ∨
      ∃ o, op = .AllocateShared_copy alloc o sizeofT sizeofCB)
    (hrun1 : run ops1 State.init = .ok s)
    (hrun : run (ops1 ++ op :: ops2) State.init = .ok u)
    (hlen : ops1.length + ops2.length + 2 < CounterMod) :
    ∃ t, step s op = .ok t ∧ run ops2 t = .ok u ∧
      requests s.log s.brk = 0 ∧
      requests u.log s.brk = 1 ∧
      u.log.count (.allocate alloc .byte (sizeofT + sizeofCB) s.brk) = 1 ∧
      (op ≠ .AllocateShared alloc none sizeofT sizeofCB →
        t.log =
          .IControlBlock s.brk :: .allocate alloc .byte (sizeofT + sizeofCB) s.brk :: s.log ∧
        t.sp s.nextSp = some ⟨some s.brk⟩ ∧
        (((∃ i, u.sp i = some ⟨some s.brk⟩) ∨ (∃ i, u.wp i = some ⟨some s.brk⟩)) →
          releases u.log s.brk = 0) ∧
        ((∀ i, u.sp i ≠ some ⟨some s.brk⟩) → (∀ i, u.wp i ≠ some ⟨some s.brk⟩) →
          releases u.log s.brk = 1 ∧
          u.log.count (.deallocate alloc .byte s.brk (sizeofT + sizeofCB)) = 1)) ∧
      (op = .AllocateShared alloc none sizeofT sizeofCB →
        t.log = .allocate alloc .byte (sizeofT + sizeofCB) s.brk :: s.log ∧
        t.blocks = s.blocks ∧ t.sp = s.sp ∧ t.wp = s.wp ∧
        (∀ i, u.sp i ≠ some ⟨some s.brk⟩) ∧ (∀ i, u.wp i ≠ some ⟨some s.brk⟩) ∧
        releases u.log s.brk = 0) := by
  have hi : State.init.nextSp = 0 := rfl
  have hw : State.init.nextWp = 0 := rfl
  obtain ⟨h, h1, h2⟩ := run_wellFormed ops1 State.init s WellFormed.init
    (by rw [hi]; omega) (by rw [hw]; omega) hrun1
  rw [hi] at h1
  rw [hw] at h2
  have hfr := run_untouched ops1 s hrun1 (by omega) s.brk (Nat.le_refl _)
  rw [run_append ops1 _ State.init s hrun1] at hrun
  rcases hop with ⟨v, rfl⟩ | ⟨o, rfl⟩
  · cases v with
    | none =>
      have hstep : step s (.AllocateShared alloc none sizeofT sizeofCB) =
          .ok { s with brk := s.brk + max (sizeofT + sizeofCB) 1,
                       log := .allocate alloc .byte (sizeofT + sizeofCB) s.brk :: s.log } := by
        simp only [step, AllocateShared_throw s alloc (plain_T none) () rfl sizeofT sizeofCB,
          Except.map]
      simp only [run, hstep] at hrun
      obtain ⟨a1, a2, a3, a4, a5⟩ := AllocateShared_throws_ledger ops2 s u h alloc
        (sizeofT + sizeofCB) hfr (by omega) (by omega) hrun
      exact ⟨_, hstep, hrun, hfr.1, a1, a2, fun x => absurd rfl x,
        fun _ => ⟨rfl, rfl, rfl, rfl, a3, a4, a5⟩⟩
    | some x =>
      have hstep : step s (.AllocateShared alloc (some x) sizeofT sizeofCB) =
          .ok ((s.adopt (sizeofT + sizeofCB)
            (.allocate alloc .byte (sizeofT + sizeofCB) s.brk)
            (IControlBlock.ctor .ControlBlockWithAllocator
              (.ControlBlockWithAllocator (some (s.brk + sizeofCB)) alloc
                (sizeofCB + sizeofT)))).construct (s.brk + sizeofCB) ⟨x, none⟩) := by
        simp only [step,
          AllocateShared_eq s alloc (plain_T (some x)) () ⟨x, none⟩ rfl sizeofT sizeofCB,
          Except.map]
      simp only [run, hstep] at hrun
      obtain ⟨a1, a2, a3, a4⟩ := AllocateShared_returns_ledger ops2 s u h alloc ⟨x, none⟩
        sizeofT sizeofCB (fun c hc => by cases hc) hfr (by omega) (by omega) hrun
      exact ⟨_, hstep, hrun, hfr.1, a1, a2,
        fun _ => ⟨rfl, by simp [State.adopt, State.construct], a3, a4⟩,
        fun x => by cases x⟩
  · cases ho : s.objs o with
    | none =>
      simp [run, step, State.getObj, ho, bind, Except.bind] at hrun
    | some x =>
      have hstep : step s (.AllocateShared_copy alloc o sizeofT sizeofCB) =
          .ok ((s.adopt (sizeofT + sizeofCB)
            (.allocate alloc .byte (sizeofT + sizeofCB) s.brk)
            (IControlBlock.ctor .ControlBlockWithAllocator
              (.ControlBlockWithAllocator (some (s.brk + sizeofCB)) alloc
                (sizeofCB + sizeofT)))).construct (s.brk + sizeofCB) x) := by
        simp only [step, State.getObj, ho, bind, Except.bind,
          AllocateShared_eq s alloc copy_T x x rfl sizeofT sizeofCB, Except.map]
      simp only [run, hstep] at hrun
      obtain ⟨a1, a2, a3, a4⟩ := AllocateShared_returns_ledger ops2 s u h alloc x
        sizeofT sizeofCB (fun c hc => h.backref o x c ho hc) hfr (by omega) (by omega) hrun
      exact ⟨_, hstep, hrun, hfr.1, a1, a2,
        fun _ => ⟨rfl, by simp [State.adopt, State.construct], a3, a4⟩,
        fun x => by cases x⟩

theorem AllocateShared_one_allocate_one_deallocate_witness :
    run [] State.init = .ok State.init ∧
    run ([] ++ .AllocateShared 7 (some 5) 4 48 ::
      [.WeakPtr_ctor_shared 0, .SharedPtr_dtor 0, .WeakPtr_dtor 0]) State.init =
        .ok (State.after [.AllocateShared 7 (some 5) 4 48, .WeakPtr_ctor_shared 0,
          .SharedPtr_dtor 0, .WeakPtr_dtor 0]) ∧
    (State.after [.AllocateShared 7 (some 5) 4 48, .WeakPtr_ctor_shared 0,
      .SharedPtr_dtor 0, .WeakPtr_dtor 0]).log.count (.allocate 7 .byte (4 + 48) 0) = 1 ∧
    (State.after [.AllocateShared 7 (some 5) 4 48, .WeakPtr_ctor_shared 0,
      .SharedPtr_dtor 0, .WeakPtr_dtor 0]).log.count (.deallocate 7 .byte 0 (4 + 48)) = 1 :=
  have hsp : (State.after [.AllocateShared 7 (some 5) 4 48, .WeakPtr_ctor_shared 0,
      .SharedPtr_dtor 0, .WeakPtr_dtor 0]).sp =
      Function.update (Function.update (fun _ => none) 0 (some ⟨some 0⟩)) 0 none := rfl
  have hwp : (State.after [.AllocateShared 7 (some 5) 4 48, .WeakPtr_ctor_shared 0,
      .SharedPtr_dtor 0, .WeakPtr_dtor 0]).wp =
      Function.update (Function.update (fun _ => none) 0 (some ⟨some 0⟩)) 0 none := rfl
  let ⟨_, _, _, _, _, h5, h6, _⟩ := AllocateShared_one_allocate_one_deallocate []
      [.WeakPtr_ctor_shared 0, .SharedPtr_dtor 0, .WeakPtr_dtor 0] State.init
      (State.after [.AllocateShared 7 (some 5) 4 48, .WeakPtr_ctor_shared 0,
        .SharedPtr_dtor 0, .WeakPtr_dtor 0]) 7 (.AllocateShared 7 (some 5) 4 48) 4 48
      (.inl ⟨_, rfl⟩) rfl rfl (by decide)
  ⟨rfl, rfl, h5,
    ((h6 (by decide)).2.2.2 (fun i => by rw [hsp]; simp) (fun i => by rw [hwp]; simp)).2⟩

theorem deletes_of_request {e : Event} {a : Nat} (he : e.requestAt = some a) (l : List Event)
    (c : Nat) : deletes (e :: l) c = deletes l c := by
  cases e <;> simp [Event.requestAt] at he <;> simp [deletes, List.count_cons]

theorem deletes_nil (c : Nat) : deletes [] c = 0 := rfl

theorem undeleted_change {s t : State} (h : WellFormed s) (hc : Change s t)
    (hs : ∀ c, s.brk ≤ c → deletes s.log c = 0) :
    ∀ c, t.brk ≤ c → deletes t.log c = 0 := by
  intro c hle
  cases hc with
  | quiet hlog hbrk hblk hzero =>
    rw [hlog]
    exact hs c (by omega)
  | request e' he' hlog hbrk hblk =>
    rw [hlog, deletes_of_request he']
    exact hs c (by omega)
  | adopt e' b he' hlog hbrk hblk =>
    rw [hlog, deletes_IControlBlock, deletes_of_request he']
    exact hs c (by omega)
  | strong c' b' hb hr =>
    have hlt := h.lt_brk hb
    have hbrk := hr.brk
    have hne : ¬ (c = c') := by omega
    rw [hr.log, deletes_append, hs c (by omega)]
    by_cases h1 : b'.shared_count_ = 1 <;> by_cases h2 : b'.weak_count_ = 0 <;>
      simp [h1, h2, deletes_append, deletes_finalizeLog, deletes_reclaimLog, deletes_nil, hne]
  | weak c' b' hb hr =>
    have hbrk := hr.brk
    rw [hr.log, deletes_append, hs c (by omega)]
    by_cases h1 : b'.weak_count_ = 1 ∧ b'.shared_count_ = 0 <;>
      simp [h1, deletes_reclaimLog, deletes_nil]

theorem run_undeleted (ops : List Op) (s : State) (hrun : run ops State.init = .ok s)
    (hlen : ops.length + 1 < CounterMod) : ∀ c, s.brk ≤ c → deletes s.log c = 0 := by
  have hi : State.init.nextSp = 0 := rfl
  have hw : State.init.nextWp = 0 := rfl
  exact run_preserves (fun s => ∀ c, s.brk ≤ c → deletes s.log c = 0)
    (fun s t h hc hs => undeleted_change h hc hs) ops State.init s WellFormed.init
    (by rw [hi]; omega) (by rw [hw]; omega) hrun (fun c _ => rfl)

theorem finalizedOnce_change {s t : State} {c : Nat} {d : Derived}
    (hd : ∀ p, d ≠ .ControlBlockWithDeleter p .destruct) (hc : Change s t)
    (hs : c < s.brk ∧ (∀ b, s.blocks c = some b → b.derived = d ∧
        deletes s.log c = if b.shared_count_ = 0 then 1 else 0) ∧
      (s.blocks c = none → deletes s.log c = 1)) :
    c < t.brk ∧ (∀ b, t.blocks c = some b → b.derived = d ∧
        deletes t.log c = if b.shared_count_ = 0 then 1 else 0) ∧
      (t.blocks c = none → deletes t.log c = 1) := by
  obtain ⟨hlt, hlive, hdead⟩ := hs
  cases hc with
  | quiet hlog hbrk hblk hzero =>
    refine ⟨by rw [hbrk]; exact hlt, ?_, ?_⟩
    · intro b' hb'
      have := hblk c
      rw [hb'] at this
      cases hb : s.blocks c with
      | none => simp [hb] at this
      | some b =>
        simp only [hb, Option.map_some', Option.some.injEq] at this
        obtain ⟨e1, e2⟩ := hlive b hb
        refine ⟨by rw [this, e1], ?_⟩
        rw [hlog, e2]
        rcases hzero c b b' hb hb' with hz | ⟨p, hp⟩
        · by_cases h0 : b.shared_count_ = 0
          · rw [if_pos h0, if_pos (hz.2 h0)]
          · rw [if_neg h0, if_neg (fun x => h0 (hz.1 x))]
        · rw [e1] at hp
          exact absurd hp (hd p)
    · intro hn
      have := hblk c
      rw [hn] at this
      cases hb : s.blocks c with
      | none =>
        rw [hlog]
        exact hdead hb
      | some b => simp [hb] at this
  | request e' he' hlog hbrk hblk =>
    refine ⟨Nat.lt_trans hlt hbrk, ?_, ?_⟩
    · intro b hb
      rw [hblk] at hb
      rw [hlog, deletes_of_request he']
      exact hlive b hb
    · intro hn
      rw [hblk] at hn
      rw [hlog, deletes_of_request he']
      exact hdead hn
  | adopt e' b0 he' hlog hbrk hblk =>
    have hne : c ≠ s.brk := Nat.ne_of_lt hlt
    refine ⟨Nat.lt_trans hlt hbrk, ?_, ?_⟩
    · intro b hb
      rw [hblk, Function.update_noteq hne] at hb
      rw [hlog, deletes_IControlBlock, deletes_of_request he']
      exact hlive b hb
    · intro hn
      rw [hblk, Function.update_noteq hne] at hn
      rw [hlog, deletes_IControlBlock, deletes_of_request he']
      exact hdead hn
  | strong c' b' hb hr =>
    have hlog : deletes t.log c =
        deletes s.log c + (if b'.shared_count_ = 1 ∧ c = c' then 1 else 0) :=
      hr.strong_deletes_eq c
    by_cases e : c = c'
    · subst e
      obtain ⟨e1, e2⟩ := hlive b' hb
      refine ⟨by rw [hr.brk]; exact hlt, ?_, ?_⟩
      · intro b hb2
        rw [hr.blocks, Function.update_same] at hb2
        by_cases h1 : b'.shared_count_ = 1 ∧ b'.weak_count_ = 0
        · rw [if_pos h1] at hb2
          cases hb2
        · rw [if_neg h1] at hb2
          cases hb2
          refine ⟨e1, ?_⟩
          rw [hlog, e2]
          show _ = if b'.shared_count_ - 1 = 0 then 1 else 0
          by_cases h0 : b'.shared_count_ = 0
          · simp [h0]
          · by_cases h2 : b'.shared_count_ = 1
            · simp [h2]
            · have h3 : ¬ (b'.shared_count_ - 1 = 0) := by omega
              simp [h0, h2, h3]
      · intro hn
        rw [hr.blocks, Function.update_same] at hn
        by_cases h1 : b'.shared_count_ = 1 ∧ b'.weak_count_ = 0
        · rw [hlog, e2]
          simp [h1.1]
        · rw [if_neg h1] at hn
          cases hn
    · refine ⟨by rw [hr.brk]; exact hlt, ?_, ?_⟩
      · intro b hb2
        rw [hr.blocks, Function.update_noteq e] at hb2
        rw [hlog]
        simpa [e] using hlive b hb2
      · intro hn
        rw [hr.blocks, Function.update_noteq e] at hn
        rw [hlog]
        simpa [e] using hdead hn
  | weak c' b' hb hr =>
    have hlog : deletes t.log c = deletes s.log c := by
      rw [hr.log, deletes_append]
      by_cases h1 : b'.weak_count_ = 1 ∧ b'.shared_count_ = 0 <;>
        simp [h1, deletes_reclaimLog, deletes_nil]
    by_cases e : c = c'
    · subst e
      obtain ⟨e1, e2⟩ := hlive b' hb
      refine ⟨by rw [hr.brk]; exact hlt, ?_, ?_⟩
      · intro b hb2
        rw [hr.blocks, Function.update_same] at hb2
        by_cases h1 : b'.weak_count_ = 1 ∧ b'.shared_count_ = 0
        · rw [if_pos h1] at hb2
          cases hb2
        · rw [if_neg h1] at hb2
          cases hb2
          exact ⟨e1, by rw [hlog, e2]⟩
      · intro hn
        rw [hr.blocks, Function.update_same] at hn
        by_cases h1 : b'.weak_count_ = 1 ∧ b'.shared_count_ = 0
        · rw [hlog, e2]
          simp [h1.2]
        · rw [if_neg h1] at hn
          cases hn
    · refine ⟨by rw [hr.brk]; exact hlt, ?_, ?_⟩
      · intro b hb2
        rw [hr.blocks, Function.update_noteq e] at hb2
        rw [hlog]
        exact hlive b hb2
      · intro hn
        rw [hr.blocks, Function.update_noteq e] at hn
        rw [hlog]
        exact hdead hn

theorem constructs_change {s t : State} (c : Nat) (hc : Change s t)
    (hs : 0 < constructs s.log c) : 0 < constructs t.log c := by
  have mono : ∀ l : List Event, 0 < constructs (l ++ s.log) c := by
    intro l
    rw [constructs_append]
    omega
  cases hc with
  | quiet hlog hbrk hblk hzero =>
    rw [hlog]
    exact hs
  | request e' he' hlog hbrk hblk =>
    rw [hlog]
    exact mono [e']
  | adopt e' b he' hlog hbrk hblk =>
    rw [hlog]
    exact mono [.IControlBlock s.brk, e']
  | strong c' b' hb hr =>
    rw [hr.log]
    exact mono _
  | weak c' b' hb hr =>
    rw [hr.log]
    exact mono _

/-- C15: a program runs `ops1` from the initial state, then constructs
`SharedPtr(ptr, deleter, alloc)`, then runs `ops2` (fewer than `2^64 - 2`
operations in all) and is in state `u`.  The constructor returns; what it adds
to the log is one `allocate` request for one unit on the allocator rebound to
the block type, followed by the construction of the block in the returned
region (at `brk`), and the new handle has `use_count() == 1`.  In `u` that
request is still the only one recorded for the address, and while the block is
in the heap it holds `ptr`, `deleter` and `alloc` and no release request has
been recorded for it.  The destructor of a `SharedPtr` that finds the strong
count of the block at 1 adds to the log exactly the call `deleter(ptr)` inside
`Delete()` (no `destroy` through the allocator) and, when the weak count is 0,
after it `deallocate` of the block with count one inside the reclamation hook;
with a positive weak count that `deallocate` is added by the destructor of the
last `WeakPtr`.  Once no handle references the block, `Delete()` has been
recorded once for it and exactly one release request, that `deallocate`. -/
theorem SharedPtr.ctor_ptr_deleter_alloc_lifecycle (ops1 ops2 : List Op) (s u : State)
    (ptr : Option Nat) (deleter : Deleter) (alloc sizeofCB : Nat)
    (hrun1 : run ops1 State.init = .ok s)
    (hrun : run (ops1 ++ .SharedPtr_ctor_ptr_deleter_alloc ptr deleter alloc sizeofCB :: ops2)
      State.init = .ok u)
    (hlen : ops1.length + ops2.length + 2 < CounterMod) :
    (∃ t, SharedPtr.ctor_ptr_deleter_alloc s ptr deleter alloc sizeofCB = .ok t ∧
      t.log = .IControlBlock s.brk :: .allocate alloc .ControlBlock 1 s.brk :: s.log ∧
      t.sp s.nextSp = some ⟨some s.brk⟩ ∧ SharedPtr.use_count t s.nextSp = .ok 1) ∧
    requests s.log s.brk = 0 ∧
    requests u.log s.brk = 1 ∧
    u.log.count (.allocate alloc .ControlBlock 1 s.brk) = 1 ∧
    (∀ b, u.blocks s.brk = some b →
      b.derived = .ControlBlockWithAllocatorWithDeleter ptr deleter alloc ∧
      releases u.log s.brk = 0) ∧
    (∀ h b, u.sp h = some ⟨some s.brk⟩ → u.blocks s.brk = some b → b.shared_count_ = 1 →
      ∃ w, SharedPtr.dtor u h = .ok w ∧
        w.log = (if b.weak_count_ = 0 then
            [.deallocate alloc .ControlBlock s.brk 1,
              .destroyer .ControlBlockWithAllocatorWithDeleter s.brk]
          else []) ++ [.deleter deleter ptr, .Delete s.brk] ++ u.log) ∧
    (∀ h b, u.wp h = some ⟨some s.brk⟩ → u.blocks s.brk = some b → b.shared_count_ = 0 →
      b.weak_count_ = 1 →
      ∃ w, WeakPtr.dtor u h = .ok w ∧
        w.log = [.deallocate alloc .ControlBlock s.brk 1,
          .destroyer .ControlBlockWithAllocatorWithDeleter s.brk] ++ u.log) ∧
    ((∀ i, u.sp i ≠ some ⟨some s.brk⟩) → (∀ i, u.wp i ≠ some ⟨some s.brk⟩) →
      deletes u.log s.brk = 1 ∧ releases u.log s.brk = 1 ∧
      u.log.count (.deallocate alloc .ControlBlock s.brk 1) = 1) := by
  have hi : State.init.nextSp = 0 := rfl
  have hw : State.init.nextWp = 0 := rfl
  obtain ⟨h, h1, h2⟩ := run_wellFormed ops1 State.init s WellFormed.init
    (by rw [hi]; omega) (by rw [hw]; omega) hrun1
  rw [hi] at h1
  rw [hw] at h2
  have hfr := run_untouched ops1 s hrun1 (by omega) s.brk (Nat.le_refl _)
  have e1 := SharedPtr.ctor_ptr_deleter_alloc_eq s ptr deleter alloc sizeofCB
  obtain ⟨ht, hn1, hn2, -⟩ := SharedPtr.ctor_ptr_deleter_alloc_grown h e1
  rw [run_append ops1 _ State.init s hrun1] at hrun
  simp only [run, step, e1] at hrun
  have L0 := Ledger.opened_state s sizeofCB (.allocate alloc .ControlBlock 1 s.brk)
    (IControlBlock.ctor .ControlBlockWithAllocatorWithDeleter
      (.ControlBlockWithAllocatorWithDeleter ptr deleter alloc)) rfl hfr
  have Lu := run_ledger
    (show (Event.allocate alloc .ControlBlock 1 s.brk).requestAt = some s.brk from rfl)
    ops2 _ u ht (by rw [hn1]; omega) (by rw [hn2]; omega) hrun L0
  obtain ⟨hu, hu1, hu2⟩ :=
    run_wellFormed ops2 _ u ht (by rw [hn1]; omega) (by rw [hn2]; omega) hrun
  rw [hn1] at hu1
  rw [hn2] at hu2
  have hcons : 0 < constructs u.log s.brk :=
    run_preserves (fun x => 0 < constructs x.log s.brk)
      (fun _ _ _ hc hs => constructs_change s.brk hc hs) ops2 _ u ht
      (by rw [hn1]; omega) (by rw [hn2]; omega) hrun
      (by simp [State.adopt, constructs])
  refine ⟨⟨_, e1, rfl, by simp [State.adopt], ?_⟩, hfr.1, Lu.requested, Lu.request,
    Lu.live, ?_, ?_, ?_⟩
  · simp [SharedPtr.use_count, State.getSp, State.read, State.adopt, bind,
      Except.bind, pure, Except.pure, IControlBlock.SharedCount]
  · intro i b hi hb hone
    have hD : b.derived = .ControlBlockWithAllocatorWithDeleter ptr deleter alloc :=
      (Lu.live b hb).1
    obtain ⟨w, hw, -, -, -, -, hr⟩ := SharedPtr.dtor_spec u i s.brk b hi hb (by omega)
      (by rw [hone]; exact one_lt_CounterMod) (hu.live _ _ hb).hook
    refine ⟨w, hw, ?_⟩
    rw [hr.log]
    by_cases hz : b.weak_count_ = 0 <;> simp [hone, hz, finalizeLog, reclaimLog, hD]
  · intro i b hi hb hzero hone
    have hD : b.derived = .ControlBlockWithAllocatorWithDeleter ptr deleter alloc :=
      (Lu.live b hb).1
    obtain ⟨w, hw, -, -, -, -, hr⟩ := WeakPtr.weak_dtor_spec u i s.brk b hi hb (by omega)
      (by rw [hone]; exact one_lt_CounterMod) (hu.live _ _ hb).hook
    refine ⟨w, hw, ?_⟩
    rw [hr.log]
    simp [hone, hzero, reclaimLog, hD]
  · intro hsp hwp
    have hn := hu.no_refs_dead hsp hwp
    have hd := Lu.dead hn
    have hdel := run_undeleted ops1 s hrun1 (by omega) s.brk (Nat.le_refl _)
    have F := run_preserves (fun x => s.brk < x.brk ∧ (∀ b, x.blocks s.brk = some b →
        b.derived = .ControlBlockWithAllocatorWithDeleter ptr deleter alloc ∧
        deletes x.log s.brk = if b.shared_count_ = 0 then 1 else 0) ∧
        (x.blocks s.brk = none → deletes x.log s.brk = 1))
      (fun _ _ _ hc hs => finalizedOnce_change (fun p => by simp) hc hs) ops2 _ u ht
      (by rw [hn1]; omega) (by rw [hn2]; omega) hrun
      ⟨by show s.brk < s.brk + max sizeofCB 1; omega,
        fun b hb => by
          have hb' : b = { IControlBlock.ctor .ControlBlockWithAllocatorWithDeleter
              (.ControlBlockWithAllocatorWithDeleter ptr deleter alloc) with
              shared_count_ := 1 } := by
            simpa [State.adopt] using hb.symm
          subst hb'
          refine ⟨rfl, ?_⟩
          show deletes (_ :: _ :: s.log) s.brk = _
          rw [deletes_IControlBlock,
            deletes_of_request (show (Event.allocate alloc .ControlBlock 1 s.brk).requestAt =
              some s.brk from rfl), hdel]
          rfl,
        fun hn0 => by simp [State.adopt] at hn0⟩
    exact ⟨F.2.2 hn, hd.1, hd.2⟩

theorem SharedPtr.ctor_ptr_deleter_alloc_lifecycle_witness :
    run [.new_T (some 0) 4] State.init = .ok (State.after [.new_T (some 0) 4]) ∧
    run ([.new_T (some 0) 4] ++ .SharedPtr_ctor_ptr_deleter_alloc (some 0) (.user 0) 0 48 ::
      [.SharedPtr_dtor 0]) State.init =
        .ok (State.after [.new_T (some 0) 4,
          .SharedPtr_ctor_ptr_deleter_alloc (some 0) (.user 0) 0 48, .SharedPtr_dtor 0]) ∧
    (State.after [.new_T (some 0) 4]).brk = 4 ∧
    (State.after [.new_T (some 0) 4,
      .SharedPtr_ctor_ptr_deleter_alloc (some 0) (.user 0) 0 48, .SharedPtr_dtor 0]).log =
      [.deallocate 0 .ControlBlock 4 1, .destroyer .ControlBlockWithAllocatorWithDeleter 4,
        .deleter (.user 0) (some 0), .Delete 4, .IControlBlock 4,
        .allocate 0 .ControlBlock 1 4, .operator_new 4 0] ∧
    (State.after [.new_T (some 0) 4,
      .SharedPtr_ctor_ptr_deleter_alloc (some 0) (.user 0) 0 48, .SharedPtr_dtor 0]).log.count
        (.allocate 0 .ControlBlock 1 (State.after [.new_T (some 0) 4]).brk) = 1 ∧
    (State.after [.new_T (some 0) 4,
      .SharedPtr_ctor_ptr_deleter_alloc (some 0) (.user 0) 0 48, .SharedPtr_dtor 0]).log.count
        (.deallocate 0 .ControlBlock (State.after [.new_T (some 0) 4]).brk 1) = 1 :=
  have hsp : (State.after [.new_T (some 0) 4,
      .SharedPtr_ctor_ptr_deleter_alloc (some 0) (.user 0) 0 48, .SharedPtr_dtor 0]).sp =
      Function.update (Function.update (fun _ => none) 0 (some ⟨some 4⟩)) 0 none := rfl
  have hwp : (State.after [.new_T (some 0) 4,
      .SharedPtr_ctor_ptr_deleter_alloc (some 0) (.user 0) 0 48, .SharedPtr_dtor 0]).wp =
      fun _ => none := rfl
  have h := SharedPtr.ctor_ptr_deleter_alloc_lifecycle [.new_T (some 0) 4] [.SharedPtr_dtor 0]
    (State.after [.new_T (some 0) 4])
    (State.after [.new_T (some 0) 4,
      .SharedPtr_ctor_ptr_deleter_alloc (some 0) (.user 0) 0 48, .SharedPtr_dtor 0])
    (some 0) (.user 0) 0 48 rfl rfl (by decide)
  ⟨rfl, rfl, rfl, rfl, h.2.2.2.1,
    (h.2.2.2.2.2.2.2 (fun i => by rw [hsp]; simp) (fun i => by rw [hwp]; simp)).2.2⟩


/-! ## The counting invariant and the order of finalization and reclamation -/

/-- C18: in every state a program reaches from the initial state by the
operations of `Op` (fewer than `2^64 - 1` of them), each control block in the
heap has a strong count equal to the number of live `SharedPtr` objects whose
member points to it and a weak count equal to the number of live `WeakPtr`
objects whose member points to it.  So the block a live `SharedPtr` points to
is in the heap with a strong count of at least 1, and `DecShared`, which only
the destructor of such a handle applies, lowers that count by one without
wrapping; the same holds of a live `WeakPtr`, the weak count and `DecWeak`. -/
theorem counts_equal_live_handles (ops : List Op) (s : State)
    (hrun : run ops State.init = .ok s) (hlen : ops.length + 1 < CounterMod) :
    (∀ c b, s.blocks c = some b →
      b.shared_count_ = s.sharedRefs c ∧ b.weak_count_ = s.weakRefs c) ∧
    (∀ i c, s.sp i = some ⟨some c⟩ →
      ∃ b, s.blocks c = some b ∧ 0 < b.shared_count_ ∧
        b.DecShared.shared_count_ + 1 = b.shared_count_) ∧
    (∀ i c, s.wp i = some ⟨some c⟩ →
      ∃ b, s.blocks c = some b ∧ 0 < b.weak_count_ ∧
        b.DecWeak.weak_count_ + 1 = b.weak_count_) := by
  have hi : State.init.nextSp = 0 := rfl
  have hw : State.init.nextWp = 0 := rfl
  obtain ⟨h, h1, h2⟩ := run_wellFormed ops State.init s WellFormed.init
    (by rw [hi]; omega) (by rw [hw]; omega) hrun
  rw [hi] at h1
  rw [hw] at h2
  refine ⟨fun c b hb => ⟨(h.live c b hb).shared, (h.live c b hb).weak⟩, ?_, ?_⟩
  · intro i c hic
    obtain ⟨b, hb, h0, hle, -, -⟩ := h.live_of_ref hic
    refine ⟨b, hb, h0, ?_⟩
    have e := counter_dec h0 (show b.shared_count_ < CounterMod by omega)
    simp only [IControlBlock.DecShared, e]
    omega
  · intro i c hic
    obtain ⟨b, hb, h0, -, hle, -⟩ := h.live_of_weak_ref hic
    refine ⟨b, hb, h0, ?_⟩
    have e := counter_dec h0 (show b.weak_count_ < CounterMod by omega)
    simp only [IControlBlock.DecWeak, e]
    omega

theorem counts_equal_live_handles_witness :
    run [.SharedPtr_ctor_ptr (some 100) 48, .SharedPtr_ctor_copy 0, .WeakPtr_ctor_shared 1]
        State.init =
      .ok (State.after
        [.SharedPtr_ctor_ptr (some 100) 48, .SharedPtr_ctor_copy 0, .WeakPtr_ctor_shared 1]) ∧
    (State.after [.SharedPtr_ctor_ptr (some 100) 48, .SharedPtr_ctor_copy 0,
      .WeakPtr_ctor_shared 1]).blocks 0 =
        some ⟨some .ControlBlockWithDeleter, 2, 1, .ControlBlockWithDeleter (some 100) .delete⟩ ∧
    (2 : Nat) = (State.after [.SharedPtr_ctor_ptr (some 100) 48, .SharedPtr_ctor_copy 0,
      .WeakPtr_ctor_shared 1]).sharedRefs 0 ∧
    (1 : Nat) = (State.after [.SharedPtr_ctor_ptr (some 100) 48, .SharedPtr_ctor_copy 0,
      .WeakPtr_ctor_shared 1]).weakRefs 0 :=
  ⟨rfl, rfl, (counts_equal_live_handles
    [.SharedPtr_ctor_ptr (some 100) 48, .SharedPtr_ctor_copy 0, .WeakPtr_ctor_shared 1]
    (State.after
      [.SharedPtr_ctor_ptr (some 100) 48, .SharedPtr_ctor_copy 0, .WeakPtr_ctor_shared 1])
    rfl (by decide)).1 0
    ⟨some .ControlBlockWithDeleter, 2, 1, .ControlBlockWithDeleter (some 100) .delete⟩ rfl⟩

theorem hookAfterDelete_finalizeLog (c : Nat) (b : IControlBlock) (l : List Event) :
    hookAfterDelete (finalizeLog c b ++ l) = hookAfterDelete l := by
  unfold finalizeLog
  cases b.derived <;> rfl

theorem hookAfterDelete_reclaimLog (c : Nat) (b : IControlBlock) (l : List Event) :
    hookAfterDelete (reclaimLog c b ++ l) = (decide (0 < deletes l c) && hookAfterDelete l) := by
  unfold reclaimLog
  cases b.derived <;> rfl

theorem hookAfterDelete_request {e : Event} {a : Nat} (he : e.requestAt = some a)
    (l : List Event) : hookAfterDelete (e :: l) = hookAfterDelete l := by
  cases e <;> simp [Event.requestAt] at he <;> rfl

theorem hookAfterDelete_change {s t : State} (h : WellFormed s) (hc : Change s t)
    (hs : hookAfterDelete s.log = true) : hookAfterDelete t.log = true := by
  cases hc with
  | quiet hlog hbrk hblk hzero =>
    rw [hlog]
    exact hs
  | request e' he' hlog hbrk hblk =>
    rw [hlog, hookAfterDelete_request he']
    exact hs
  | adopt e' b he' hlog hbrk hblk =>
    rw [hlog]
    show hookAfterDelete (e' :: s.log) = true
    rw [hookAfterDelete_request he']
    exact hs
  | strong c' b' hb hr =>
    rw [hr.log]
    by_cases h1 : b'.shared_count_ = 1
    · by_cases h2 : b'.weak_count_ = 0
      · simp only [h1, h2, if_true, List.append_assoc]
        rw [hookAfterDelete_reclaimLog, hookAfterDelete_finalizeLog, hs, deletes_append,
          deletes_finalizeLog]
        simp
      · simp only [h1, h2, if_true, if_false, List.nil_append]
        rw [hookAfterDelete_finalizeLog]
        exact hs
    · simp only [h1, if_false, List.nil_append]
      exact hs
  | weak c' b' hb hr =>
    rw [hr.log]
    by_cases h1 : b'.weak_count_ = 1 ∧ b'.shared_count_ = 0
    · simp only [h1, and_self, if_true]
      have hd := (h.live c' b' hb).deleted h1.2
      rw [hookAfterDelete_reclaimLog, hs]
      simp [hd]
    · simp only [h1, if_false, List.nil_append]
      exact hs

theorem run_hookAfterDelete (ops : List Op) (s : State)
    (hrun : run ops State.init = .ok s) (hlen : ops.length + 1 < CounterMod) :
    hookAfterDelete s.log = true := by
  have hi : State.init.nextSp = 0 := rfl
  have hw : State.init.nextWp = 0 := rfl
  exact run_preserves (fun x => hookAfterDelete x.log = true)
    (fun _ _ hx hc hs => hookAfterDelete_change hx hc hs) ops State.init s WellFormed.init
    (by rw [hi]; omega) (by rw [hw]; omega) hrun rfl

/-! ## A managed value that holds a `WeakPtr` on its own block -/

/-- C2 (code bug): `v = new V` (a value that holds `WeakPtr` objects, such as
a vector of them), `SharedPtr P(v)`, then a `WeakPtr` constructed from `P`
inside `*v`: one block (at 8) with strong count 1 and weak count 1.  The
destruction of `P` is the one that ends with every handle destroyed, since
`Delete()` runs `~V()`, which destroys the `WeakPtr`.  It does not invoke the
hook after finding both counts zero: the nested `~WeakPtr` has reclaimed the
block before `Delete()` returns, and `~SharedPtr` then calls `WeakCount()` on
the freed storage. -/
theorem SharedPtr.dtor_members_use_after_free :
    run [.new_T (some 7) 8, .SharedPtr_ctor_ptr (some 0) 48, .WeakPtr_ctor_shared 0]
        State.init =
      .ok (State.after
        [.new_T (some 7) 8, .SharedPtr_ctor_ptr (some 0) 48, .WeakPtr_ctor_shared 0]) ∧
    (State.after [.new_T (some 7) 8, .SharedPtr_ctor_ptr (some 0) 48,
        .WeakPtr_ctor_shared 0]).sp 0 = some ⟨some 8⟩ ∧
    (State.after [.new_T (some 7) 8, .SharedPtr_ctor_ptr (some 0) 48,
        .WeakPtr_ctor_shared 0]).wp 0 = some ⟨some 8⟩ ∧
    ((State.after [.new_T (some 7) 8, .SharedPtr_ctor_ptr (some 0) 48,
        .WeakPtr_ctor_shared 0]).blocks 8).map (fun b => (b.shared_count_, b.weak_count_)) =
      some (1, 1) ∧
    SharedPtr.dtor_members (State.after [.new_T (some 7) 8, .SharedPtr_ctor_ptr (some 0) 48,
        .WeakPtr_ctor_shared 0]) 0 [0] = .error .useAfterFree := by
  exact ⟨rfl, by decide, by decide, by decide, rfl⟩

/-- C19 (code bug): `SharedPtr P(v)` for a value `*v` that holds a `WeakPtr`
constructed from `P`: the block (at 0) has strong count 1 and weak count
`w = 1 > 0`.  The steps of `~SharedPtr` on `P` are `DecShared` (strong count
0), then `Delete()`, inside which `~V()` destroys the `WeakPtr`.  After `Delete()` the log holds one invocation of the
reclamation hook of the block, retrieved and invoked by the nested `~WeakPtr`,
and the block is out of the heap: it does not remain with strong count 0 and
weak count `w`.  The next step of `~SharedPtr`, `WeakCount()`, reads the freed
block. -/
theorem SharedPtr.dtor_hook_inside_Delete :
    ((State.after [.SharedPtr_ctor_ptr (some 100) 48, .WeakPtr_ctor_shared 0]).blocks 0).map
        (fun b => (b.shared_count_, b.weak_count_)) = some (1, 1) ∧
    ∃ s1 s2 s3,
      ((State.after [.SharedPtr_ctor_ptr (some 100) 48, .WeakPtr_ctor_shared 0]).dropSp 0).call
        (some 0) IControlBlock.DecShared = .ok s1 ∧
      (s1.blocks 0).map (fun b => (b.shared_count_, b.weak_count_)) = some (0, 1) ∧
      s1.Delete 0 = .ok s2 ∧
      s2.destroyMembers [0] = .ok s3 ∧
      s3.log = [.operator_delete 0, .destroyer .ControlBlockWithDeleter 0,
        .deleter .delete (some 100), .Delete 0, .IControlBlock 0, .operator_new 48 0] ∧
      reclaims s3.log 0 = 1 ∧
      (s3.blocks 0).isNone = true ∧
      s3.read (some 0) = .error .useAfterFree ∧
      SharedPtr.dtor_members
        (State.after [.SharedPtr_ctor_ptr (some 100) 48, .WeakPtr_ctor_shared 0]) 0 [0] =
          .error .useAfterFree := by
  exact ⟨by decide, _, _, _, rfl, by decide, rfl, rfl, rfl, by decide, by decide, rfl, rfl⟩

/-! ## Copies of a value made by the `EnableSharedFromThis` overload -/

/-- C5 (code bug): `A = MakeShared<T>(5)` for an opted-in `T` (block at 0,
value at 48), `q = new T(*A)` (the copy at 52 carries the back-reference of
`*A`), a `WeakPtr` on the block, `A` destroyed: the strong count is 0, the
weak count 1, and `Delete()` has run once.  Then `q->shared_from_this()`
returns a handle and the strong count is 1 again; destroying that handle takes
it to zero a second time and calls `Delete()` a second time. -/
theorem EnableSharedFromThis.shared_from_this_resurrects :
    run [.MakeShared_EnableSharedFromThis (some 5) 4 48, .new_T_copy 48 4,
        .WeakPtr_ctor_shared 0, .SharedPtr_dtor 0, .shared_from_this 52, .SharedPtr_dtor 1]
        State.init =
      .ok (State.after [.MakeShared_EnableSharedFromThis (some 5) 4 48, .new_T_copy 48 4,
        .WeakPtr_ctor_shared 0, .SharedPtr_dtor 0, .shared_from_this 52, .SharedPtr_dtor 1]) ∧
    ((State.after [.MakeShared_EnableSharedFromThis (some 5) 4 48, .new_T_copy 48 4,
        .WeakPtr_ctor_shared 0, .SharedPtr_dtor 0]).blocks 0).map
          (fun b => (b.shared_count_, b.weak_count_)) = some (0, 1) ∧
    deletes (State.after [.MakeShared_EnableSharedFromThis (some 5) 4 48, .new_T_copy 48 4,
        .WeakPtr_ctor_shared 0, .SharedPtr_dtor 0]).log 0 = 1 ∧
    (State.after [.MakeShared_EnableSharedFromThis (some 5) 4 48, .new_T_copy 48 4,
        .WeakPtr_ctor_shared 0, .SharedPtr_dtor 0]).objs 52 = some ⟨5, some 0⟩ ∧
    ((State.after [.MakeShared_EnableSharedFromThis (some 5) 4 48, .new_T_copy 48 4,
        .WeakPtr_ctor_shared 0, .SharedPtr_dtor 0, .shared_from_this 52]).blocks 0).map
          (fun b => (b.shared_count_, b.weak_count_)) = some (1, 1) ∧
    (State.after [.MakeShared_EnableSharedFromThis (some 5) 4 48, .new_T_copy 48 4,
        .WeakPtr_ctor_shared 0, .SharedPtr_dtor 0, .shared_from_this 52]).sp 1 =
          some ⟨some 0⟩ ∧
    ((State.after [.MakeShared_EnableSharedFromThis (some 5) 4 48, .new_T_copy 48 4,
        .WeakPtr_ctor_shared 0, .SharedPtr_dtor 0, .shared_from_this 52,
        .SharedPtr_dtor 1]).blocks 0).map
          (fun b => (b.shared_count_, b.weak_count_)) = some (0, 1) ∧
    deletes (State.after [.MakeShared_EnableSharedFromThis (some 5) 4 48, .new_T_copy 48 4,
        .WeakPtr_ctor_shared 0, .SharedPtr_dtor 0, .shared_from_this 52,
        .SharedPtr_dtor 1]).log 0 = 2 := by
  exact ⟨rfl, by decide, by decide, by decide, by decide, by decide, by decide, by decide⟩

/-- C13 (code bug): `A = MakeShared<T>(5)` for an opted-in `T` (block at 0),
`q = new T(*A)` (the copy at 52), `A` destroyed: the block is reclaimed and
the back-reference of `*q` is still set to its address.  `q->shared_from_this()`
neither throws nor returns a handle on a block with a strong count one
higher: it calls `IncShared` on the freed block. -/
theorem EnableSharedFromThis.shared_from_this_stale :
    run [.MakeShared_EnableSharedFromThis (some 5) 4 48, .new_T_copy 48 4, .SharedPtr_dtor 0]
        State.init =
      .ok (State.after [.MakeShared_EnableSharedFromThis (some 5) 4 48, .new_T_copy 48 4,
        .SharedPtr_dtor 0]) ∧
    (State.after [.MakeShared_EnableSharedFromThis (some 5) 4 48, .new_T_copy 48 4,
        .SharedPtr_dtor 0]).objs 52 = some ⟨5, some 0⟩ ∧
    ((State.after [.MakeShared_EnableSharedFromThis (some 5) 4 48, .new_T_copy 48 4,
        .SharedPtr_dtor 0]).blocks 0).isNone = true ∧
    EnableSharedFromThis.shared_from_this
      (State.after [.MakeShared_EnableSharedFromThis (some 5) 4 48, .new_T_copy 48 4,
        .SharedPtr_dtor 0]) 52 = .error .useAfterFree := by
  exact ⟨rfl, by decide, by decide, rfl⟩

/-- C20 (code bug): `A = MakeShared<T>(5)` for an opted-in `T` (block at 0),
`q = new T(*A)` (the copy at 52), `SharedPtr B(q)` (raw-pointer constructor,
block at 56).  The back-reference of `*q` is set, to the block of `A`, and
`q->shared_from_this()` does not throw: it returns a handle on the block of
`A` (strong count 2), not on the block of the owner `B`.  The same holds of
the value made by `AllocateShared<T>(alloc, *A)`. -/
theorem EnableSharedFromThis.copy_keeps_back_reference :
    run [.MakeShared_EnableSharedFromThis (some 5) 4 48, .new_T_copy 48 4,
        .SharedPtr_ctor_ptr (some 52) 48] State.init =
      .ok (State.after [.MakeShared_EnableSharedFromThis (some 5) 4 48, .new_T_copy 48 4,
        .SharedPtr_ctor_ptr (some 52) 48]) ∧
    (State.after [.MakeShared_EnableSharedFromThis (some 5) 4 48, .new_T_copy 48 4,
        .SharedPtr_ctor_ptr (some 52) 48]).objs 52 = some ⟨5, some 0⟩ ∧
    (State.after [.MakeShared_EnableSharedFromThis (some 5) 4 48, .new_T_copy 48 4,
        .SharedPtr_ctor_ptr (some 52) 48]).sp 1 = some ⟨some 56⟩ ∧
    SharedPtr.get (State.after [.MakeShared_EnableSharedFromThis (some 5) 4 48,
        .new_T_copy 48 4, .SharedPtr_ctor_ptr (some 52) 48]) 1 = .ok (some 52) ∧
    SharedPtr.use_count (State.after [.MakeShared_EnableSharedFromThis (some 5) 4 48,
        .new_T_copy 48 4, .SharedPtr_ctor_ptr (some 52) 48]) 1 = .ok 1 ∧
    (∃ t, EnableSharedFromThis.shared_from_this
        (State.after [.MakeShared_EnableSharedFromThis (some 5) 4 48, .new_T_copy 48 4,
          .SharedPtr_ctor_ptr (some 52) 48]) 52 = .ok (none, t) ∧
      t.sp 2 = some ⟨some 0⟩ ∧
      (t.blocks 0).map (fun b => b.shared_count_) = some 2 ∧
      (t.blocks 56).map (fun b => b.shared_count_) = some 1) ∧
    run [.MakeShared_EnableSharedFromThis (some 5) 4 48, .AllocateShared_copy 7 48 4 48]
        State.init =
      .ok (State.after [.MakeShared_EnableSharedFromThis (some 5) 4 48,
        .AllocateShared_copy 7 48 4 48]) ∧
    (State.after [.MakeShared_EnableSharedFromThis (some 5) 4 48,
        .AllocateShared_copy 7 48 4 48]).objs 100 = some ⟨5, some 0⟩ ∧
    SharedPtr.get (State.after [.MakeShared_EnableSharedFromThis (some 5) 4 48,
        .AllocateShared_copy 7 48 4 48]) 1 = .ok (some 100) ∧
    (∃ t, EnableSharedFromThis.shared_from_this
        (State.after [.MakeShared_EnableSharedFromThis (some 5) 4 48,
          .AllocateShared_copy 7 48 4 48]) 100 = .ok (none, t) ∧
      t.sp 2 = some ⟨some 0⟩) := by
  exact ⟨rfl, by decide, by decide, by decide, by decide, ⟨_, rfl, by decide, by decide, by decide⟩,
    rfl, by decide, by decide, ⟨_, rfl, by decide⟩⟩

/-! ## `get()` after `reset(ptr)` with a pointer to a derived class -/

/-- C16 (code bug): `y = new Y` at address 0, where `Y` has the base `T` at
offset 8, and `p.reset(y)` on an empty `SharedPtr<T> p`.  The handle
references a fresh block with `use_count() == 1`, and `get()` returns the
address the block stores, 0, the address of the `Y` object, while `ptr`
converted to `T*`, which `get() == ptr` compares with, is 8. -/
theorem SharedPtr.reset_ptr_get_unconverted :
    run [.new_T (some 0) 16, .SharedPtr_ctor, .SharedPtr_reset_ptr 0 (some 0) 48] State.init =
      .ok (State.after
        [.new_T (some 0) 16, .SharedPtr_ctor, .SharedPtr_reset_ptr 0 (some 0) 48]) ∧
    (State.after [.new_T (some 0) 16, .SharedPtr_ctor,
        .SharedPtr_reset_ptr 0 (some 0) 48]).sp 0 = some ⟨some 16⟩ ∧
    SharedPtr.use_count (State.after [.new_T (some 0) 16, .SharedPtr_ctor,
        .SharedPtr_reset_ptr 0 (some 0) 48]) 0 = .ok 1 ∧
    SharedPtr.get (State.after [.new_T (some 0) 16, .SharedPtr_ctor,
        .SharedPtr_reset_ptr 0 (some 0) 48]) 0 = .ok (some 0) ∧
    upcast 8 (some 0) = some 8 ∧
    SharedPtr.get (State.after [.new_T (some 0) 16, .SharedPtr_ctor,
        .SharedPtr_reset_ptr 0 (some 0) 48]) 0 ≠ .ok (upcast 8 (some 0)) := by
  exact ⟨rfl, by decide, by decide, by decide, by decide, by decide⟩
